import Mathlib

/-!
# Conjoint: the tokenizer of `src/tokenizer.c`, the driver loop of `src/conjoint.c` and the
parser of `src/parser.c`

A shallow embedding of the C sources.

* Code points (`wchar_t`) and the `int` cursor fields are natural numbers: both callers
  (`main`, `cj_parse`) start the cursor at `0, 0, 0` and the code only ever increments it.
  The `column` of a source position is an integer, being a difference of two cursor fields.
* `content` is a pointer in C; it is a total function from an index to the code point stored
  there.  Indices below `content_length` are the buffer; what an index at or beyond
  `content_length` holds is whatever the memory after the buffer holds, and the model leaves it
  arbitrary.
* A failed `assert` aborts the process: a routine that can abort returns `Option`, and `none`
  is the abort.  Allocation (`malloc`, `realloc`) is taken to succeed.
* A `while` loop of the tokenizer is a function by recursion on a fuel argument, started at
  `content_length - current_position`, the exact number of iterations the loop guard
  `current_position < content_length` can admit, since each iteration increments the position.
* The `value` of a token is the list of code points stored in its buffer before the final
  terminating `0`; `value_length` is the separate counter field of the C structure.
-/

set_option autoImplicit false

namespace Conjoint

/-! ## Data model (`tokenizer.h`) -/

/-- Modelled from the spec: `struct cj_source_file` of `source_file.h`, which is not among the
sources.  The spec (§6) gives the collaborator as "an immutable fixed-length sequence of code
points and its length", indexed by integer offset; the code reads `content[i]` and
`content_length`.  The field `path` plays no part in tokenization and is left out. -/
structure cj_source_file where
  content : Nat → Nat
  content_length : Nat

/-- The enumeration `cj_token_type`. -/
inductive cj_token_type where
  | COMMENT
  | KEYWORD
  | IDENTIFIER
  | PUNCTUATOR
  | NULL_LITERAL
  | BOOLEAN_LITERAL
  | NUMERIC_LITERAL
  | CHARACTER_LITERAL
  | STRING_LITERAL
  | END_OF_FILE
deriving DecidableEq, Repr

/-- The structure `cj_source_position`. -/
structure cj_source_position where
  position : Nat
  line : Nat
  column : Int
deriving DecidableEq, Repr

/-- The structure `cj_token`; the field `end` of the source is `end_` here. -/
structure cj_token where
  type : cj_token_type
  value_length : Nat
  value : List Nat
  start : cj_source_position
  end_ : cj_source_position
deriving DecidableEq, Repr

/-- The structure `cj_tokenization_process`. -/
structure cj_tokenization_process where
  source_file : cj_source_file
  current_position : Nat
  current_line_number : Nat
  current_line_start_position : Nat

/-! ## Character classes (the macros of `tokenizer.c`) -/

def cj_check_whitespace (character : Nat) : Bool :=
  character == 0x20

def cj_check_line_terminator (character : Nat) : Bool :=
  character == 0x0A

def cj_check_numeric (character : Nat) : Bool :=
  decide (character ≥ 0x30) && decide (character ≤ 0x39)

def cj_check_alpha (character : Nat) : Bool :=
  (decide (character ≥ 0x41) && decide (character ≤ 0x5A)) ||
    (decide (character ≥ 0x61) && decide (character ≤ 0x7A))

def cj_check_comment_start (character : Nat) : Bool :=
  character == 0x23

def cj_check_identifier_start (character : Nat) : Bool :=
  cj_check_alpha character

def cj_check_identifier_part (character : Nat) : Bool :=
  cj_check_alpha character || cj_check_numeric character

def cj_check_character_quote (character : Nat) : Bool :=
  character == 0x27

def cj_check_string_quote (character : Nat) : Bool :=
  character == 0x22

/-! ## The C library on wide strings -/

/-- The wide string a buffer denotes: its code points up to the first `0`. -/
def wcs (buffer : List Nat) : List Nat :=
  buffer.takeWhile (fun c => c != 0)

/-- The test `wcscmp(a, b) == 0`: the two buffers denote the same wide string. -/
def wcscmp_eq (a b : List Nat) : Bool :=
  wcs a == wcs b

/-- The test `wcschr(s, c) != NULL`.  The terminating `0` counts as part of the string, so
the search for `c = 0` finds the terminator. -/
def wcschr_found (s : List Nat) (c : Nat) : Bool :=
  (wcs s).contains c || c == 0

/-- The wide string literal `L"let"`. -/
def L_let : List Nat := [0x6C, 0x65, 0x74]
/-- The wide string literal `L"import"`. -/
def L_import : List Nat := [0x69, 0x6D, 0x70, 0x6F, 0x72, 0x74]
/-- The wide string literal `L"from"`. -/
def L_from : List Nat := [0x66, 0x72, 0x6F, 0x6D]
/-- The wide string literal `L"null"`. -/
def L_null : List Nat := [0x6E, 0x75, 0x6C, 0x6C]
/-- The wide string literal `L"true"`. -/
def L_true : List Nat := [0x74, 0x72, 0x75, 0x65]
/-- The wide string literal `L"false"`. -/
def L_false : List Nat := [0x66, 0x61, 0x6C, 0x73, 0x65]

/-! ## Token text (the macros of `util.h` at chunk size 8) -/

/-- The macro `cj_token_value_init`: a fresh buffer holding the empty string.  The counter
`value_length` is not touched. -/
def cj_token_value_init (token : cj_token) : cj_token :=
  { token with value := [] }

/-- The macro `cj_token_value_append`: `string[length++] = character; string[length] = 0`,
after growing the buffer when `length` is a positive multiple of the chunk size.  Every append
of the tokenizer happens with `value_length` equal to the number of code points stored. -/
def cj_token_value_append (token : cj_token) (character : Nat) : cj_token :=
  { token with value := token.value ++ [character], value_length := token.value_length + 1 }

/-! ## The tokenizer (`tokenizer.c`) -/

def cj_fixate_current_position (process : cj_tokenization_process) : cj_source_position :=
  { position := process.current_position
    line := process.current_line_number
    column := (process.current_position : Int) - (process.current_line_start_position : Int) }

/-- The loop of `cj_skip_whitespaces`. -/
def cj_skip_whitespaces_loop : Nat → cj_tokenization_process → cj_tokenization_process
  | 0, process => process
  | fuel + 1, process =>
    if process.current_position < process.source_file.content_length then
      let character := process.source_file.content process.current_position
      if cj_check_whitespace character then
        cj_skip_whitespaces_loop fuel
          { process with current_position := process.current_position + 1 }
      else if cj_check_line_terminator character then
        cj_skip_whitespaces_loop fuel
          { process with
            current_position := process.current_position + 1
            current_line_number := process.current_line_number + 1
            current_line_start_position := process.current_position + 1 }
      else
        process
    else
      process

def cj_skip_whitespaces (process : cj_tokenization_process) : cj_tokenization_process :=
  cj_skip_whitespaces_loop (process.source_file.content_length - process.current_position)
    process

/-- The loop of `cj_scan_comment`. -/
def cj_scan_comment_loop :
    Nat → cj_token → cj_tokenization_process → cj_token × cj_tokenization_process
  | 0, token, process => (token, process)
  | fuel + 1, token, process =>
    if process.current_position < process.source_file.content_length then
      let character := process.source_file.content process.current_position
      if cj_check_line_terminator character then
        (token, process)
      else
        cj_scan_comment_loop fuel (cj_token_value_append token character)
          { process with current_position := process.current_position + 1 }
    else
      (token, process)

def cj_scan_comment (token : cj_token) (process : cj_tokenization_process) :
    Option (cj_token × cj_tokenization_process) :=
  let character := process.source_file.content process.current_position
  if !cj_check_comment_start character then none else
  let process := { process with current_position := process.current_position + 1 }
  let token := cj_token_value_init token
  let r := cj_scan_comment_loop
    (process.source_file.content_length - process.current_position) token process
  some ({ r.1 with type := cj_token_type.COMMENT }, r.2)

/-- The loop of `cj_scan_identifier`. -/
def cj_scan_identifier_loop :
    Nat → cj_token → cj_tokenization_process → cj_token × cj_tokenization_process
  | 0, token, process => (token, process)
  | fuel + 1, token, process =>
    if process.current_position < process.source_file.content_length then
      let character := process.source_file.content process.current_position
      if cj_check_identifier_part character then
        cj_scan_identifier_loop fuel (cj_token_value_append token character)
          { process with current_position := process.current_position + 1 }
      else
        (token, process)
    else
      (token, process)

def cj_scan_identifier (token : cj_token) (process : cj_tokenization_process) :
    Option (cj_token × cj_tokenization_process) :=
  let character := process.source_file.content process.current_position
  if !cj_check_identifier_start character then none else
  let process := { process with current_position := process.current_position + 1 }
  let token := cj_token_value_append (cj_token_value_init token) character
  let r := cj_scan_identifier_loop
    (process.source_file.content_length - process.current_position) token process
  let token := r.1
  let process := r.2
  if wcscmp_eq token.value L_let || wcscmp_eq token.value L_import
      || wcscmp_eq token.value L_from then
    some ({ token with type := cj_token_type.KEYWORD }, process)
  else if wcscmp_eq token.value L_null then
    some ({ token with type := cj_token_type.NULL_LITERAL }, process)
  else if wcscmp_eq token.value L_true || wcscmp_eq token.value L_false then
    some ({ token with type := cj_token_type.BOOLEAN_LITERAL }, process)
  else
    some ({ token with type := cj_token_type.IDENTIFIER }, process)

/-- The loop of `cj_scan_numeric_literal`. -/
def cj_scan_numeric_literal_loop :
    Nat → cj_token → cj_tokenization_process → cj_token × cj_tokenization_process
  | 0, token, process => (token, process)
  | fuel + 1, token, process =>
    if process.current_position < process.source_file.content_length then
      let character := process.source_file.content process.current_position
      if cj_check_numeric character then
        cj_scan_numeric_literal_loop fuel (cj_token_value_append token character)
          { process with current_position := process.current_position + 1 }
      else
        (token, process)
    else
      (token, process)

def cj_scan_numeric_literal (token : cj_token) (process : cj_tokenization_process) :
    Option (cj_token × cj_tokenization_process) :=
  let character := process.source_file.content process.current_position
  if !cj_check_numeric character then none else
  let process := { process with current_position := process.current_position + 1 }
  let token := cj_token_value_append (cj_token_value_init token) character
  let r := cj_scan_numeric_literal_loop
    (process.source_file.content_length - process.current_position) token process
  some ({ r.1 with type := cj_token_type.NUMERIC_LITERAL }, r.2)

/-- The routine `cj_scan_character_literal`.  Its second and third reads are not guarded by
the buffer length. -/
def cj_scan_character_literal (token : cj_token) (process : cj_tokenization_process) :
    Option (cj_token × cj_tokenization_process) :=
  let character := process.source_file.content process.current_position
  if !cj_check_character_quote character then none else
  let process := { process with current_position := process.current_position + 1 }
  let character := process.source_file.content process.current_position
  if cj_check_character_quote character then none else
  let token := cj_token_value_append (cj_token_value_init token) character
  let process := { process with current_position := process.current_position + 1 }
  let character := process.source_file.content process.current_position
  if !cj_check_character_quote character then none else
  let process := { process with current_position := process.current_position + 1 }
  some ({ token with type := cj_token_type.CHARACTER_LITERAL }, process)

/-- The loop of `cj_scan_string_literal`, with the `assert(NULL)` that follows it: leaving
the loop through its guard is the abort. -/
def cj_scan_string_literal_loop :
    Nat → cj_token → cj_tokenization_process → Option (cj_token × cj_tokenization_process)
  | 0, _, _ => none
  | fuel + 1, token, process =>
    if process.current_position < process.source_file.content_length then
      let character := process.source_file.content process.current_position
      if cj_check_string_quote character then
        some ({ token with type := cj_token_type.STRING_LITERAL },
          { process with current_position := process.current_position + 1 })
      else if cj_check_line_terminator character then
        cj_scan_string_literal_loop fuel (cj_token_value_append token character)
          { process with
            current_position := process.current_position + 1
            current_line_number := process.current_line_number + 1
            current_line_start_position := process.current_position + 1 }
      else
        cj_scan_string_literal_loop fuel (cj_token_value_append token character)
          { process with current_position := process.current_position + 1 }
    else
      none

def cj_scan_string_literal (token : cj_token) (process : cj_tokenization_process) :
    Option (cj_token × cj_tokenization_process) :=
  let character := process.source_file.content process.current_position
  if !cj_check_string_quote character then none else
  let process := { process with current_position := process.current_position + 1 }
  let token := cj_token_value_init token
  cj_scan_string_literal_loop
    (process.source_file.content_length - process.current_position) token process

/-- The cases of the `switch` of `cj_scan_punctuator`: `% ( ) * + , - . / : ; ? [ ] ^ { } ~`. -/
def cj_punctuator_cases : List Nat :=
  [0x25, 0x28, 0x29, 0x2A, 0x2B, 0x2C, 0x2D, 0x2E, 0x2F, 0x3A, 0x3B, 0x3F, 0x5B, 0x5D, 0x5E,
    0x7B, 0x7D, 0x7E]

def cj_scan_punctuator (token : cj_token) (process : cj_tokenization_process) :
    Option (cj_token × cj_tokenization_process) :=
  let content := process.source_file.content
  let content_length := process.source_file.content_length
  let character := content process.current_position
  if cj_punctuator_cases.contains character then
    some ({ cj_token_value_append (cj_token_value_init token) character with
              type := cj_token_type.PUNCTUATOR },
      { process with current_position := process.current_position + 1 })
  else
  let character3 : List Nat :=
    [content process.current_position, content (process.current_position + 1),
      content (process.current_position + 2)]
  if decide (content_length - process.current_position ≥ 3)
      && wcscmp_eq character3 [0x3E, 0x3E, 0x3E] then
    some ({ token with value := character3, type := cj_token_type.PUNCTUATOR },
      { process with current_position := process.current_position + 3 })
  else
  let character2 : List Nat :=
    [content process.current_position, content (process.current_position + 1)]
  if decide (content_length - process.current_position ≥ 2)
      && (wcscmp_eq character2 [0x21, 0x3D]
        || (wcschr_found [0x3C, 0x3E, 0x26, 0x7C, 0x3D] (content process.current_position)
          && content process.current_position == content (process.current_position + 1))) then
    some ({ token with value := character2, type := cj_token_type.PUNCTUATOR },
      { process with current_position := process.current_position + 2 })
  else
  if wcschr_found [0x3C, 0x3E, 0x3D, 0x21, 0x26, 0x7C] character then
    some ({ cj_token_value_append (cj_token_value_init token) character with
              type := cj_token_type.PUNCTUATOR },
      { process with current_position := process.current_position + 1 })
  else
    none

/-- The token `cj_read_next_token` allocates: `value_length` is `0` and `start` is the
position on entry.  `malloc` leaves `type`, `value` and `end` indeterminate; every path that
returns assigns them, so the values they are given here are never observed. -/
def cj_new_token (start : cj_source_position) : cj_token :=
  { type := cj_token_type.END_OF_FILE, value_length := 0, value := [], start := start,
    end_ := start }

/-- The part of `cj_read_next_token` that follows the call of `cj_skip_whitespaces`: the
end-of-file test, the dispatch on the code point at the cursor, and the recording of `end`. -/
def cj_read_next_token_skipped (token : cj_token) (process : cj_tokenization_process) :
    Option (cj_token × cj_tokenization_process) :=
  if process.current_position ≥ process.source_file.content_length then
    some ({ cj_token_value_init token with
              type := cj_token_type.END_OF_FILE
              end_ := cj_fixate_current_position process },
      process)
  else
  let character := process.source_file.content process.current_position
  let scanned :=
    if cj_check_comment_start character then cj_scan_comment token process
    else if cj_check_identifier_start character then cj_scan_identifier token process
    else if cj_check_numeric character then cj_scan_numeric_literal token process
    else if cj_check_character_quote character then cj_scan_character_literal token process
    else if cj_check_string_quote character then cj_scan_string_literal token process
    else cj_scan_punctuator token process
  match scanned with
  | none => none
  | some (token, process) =>
    some ({ token with end_ := cj_fixate_current_position process }, process)

def cj_read_next_token (process : cj_tokenization_process) :
    Option (cj_token × cj_tokenization_process) :=
  let token := cj_new_token (cj_fixate_current_position process)
  let process := cj_skip_whitespaces process
  cj_read_next_token_skipped token process

/-! ## The driver (`conjoint.c`) -/

/-- How a run of the driver loop ends when it does not end with the list of its tokens. -/
inductive cj_stop where
  | aborted
  | out_of_fuel
deriving DecidableEq, Repr

/-- The `while (1)` loop of `main`: read a token, hand it to the printer, stop after
`END_OF_FILE`.  The result is the sequence of tokens read. -/
def main_loop : Nat → cj_tokenization_process → Except cj_stop (List cj_token)
  | 0, _ => Except.error cj_stop.out_of_fuel
  | fuel + 1, process =>
    match cj_read_next_token process with
    | none => Except.error cj_stop.aborted
    | some (token, process) =>
      if token.type = cj_token_type.END_OF_FILE then
        Except.ok [token]
      else
        match main_loop fuel process with
        | Except.ok tokens => Except.ok (token :: tokens)
        | Except.error e => Except.error e

/-- The cursor `main` and `cj_parse` start from. -/
def cj_initial_process (source_file : cj_source_file) : cj_tokenization_process :=
  { source_file := source_file
    current_position := 0
    current_line_number := 0
    current_line_start_position := 0 }

/-! ## Vocabulary of the statements -/

/-- A source file holding exactly the code points of `buffer`, with `after` as the content
of the memory behind it. -/
def cj_source_of (buffer : List Nat) (after : Nat) : cj_source_file :=
  { content := fun i => buffer.getD i after
    content_length := buffer.length }

/-- The code points `content[from], ..., content[from + n - 1]`. -/
def cj_slice (source_file : cj_source_file) (start n : Nat) : List Nat :=
  (List.range n).map (fun i => source_file.content (start + i))

/-- The outcome of the call of `cj_read_next_token` that follows `n` earlier successful calls,
each made on the cursor the one before it left. -/
def cj_read_nth : Nat → cj_tokenization_process → Option (cj_token × cj_tokenization_process)
  | 0, process => cj_read_next_token process
  | n + 1, process =>
    match cj_read_next_token process with
    | none => none
    | some (_, process) => cj_read_nth n process

/-- The two-character operators of the spec: `!=`, `<<`, `>>`, `&&`, `||`, `==`. -/
def spec_two_character_operators : List (List Nat) :=
  [[0x21, 0x3D], [0x3C, 0x3C], [0x3E, 0x3E], [0x26, 0x26], [0x7C, 0x7C], [0x3D, 0x3D]]

/-- The characters of the spec that are a punctuator on their own when no longer operator
starts with them: `< > = ! & |`. -/
def spec_single_character_operators : List Nat :=
  [0x3C, 0x3E, 0x3D, 0x21, 0x26, 0x7C]

/-- The reserved words of the spec: `let`, `import`, `from`, `null`, `true`, `false`. -/
def spec_reserved_words : List (List Nat) :=
  [L_let, L_import, L_from, L_null, L_true, L_false]

/-- The classification of a whole lexeme in the words of the spec: `let`, `import` and `from`
are keywords, `null` is the null literal, `true` and `false` are boolean literals, anything
else is an identifier. -/
def spec_classify (lexeme : List Nat) : cj_token_type :=
  if lexeme = L_let ∨ lexeme = L_import ∨ lexeme = L_from then cj_token_type.KEYWORD
  else if lexeme = L_null then cj_token_type.NULL_LITERAL
  else if lexeme = L_true ∨ lexeme = L_false then cj_token_type.BOOLEAN_LITERAL
  else cj_token_type.IDENTIFIER

/-- An identifier-shaped lexeme in the words of the spec: one ASCII letter followed by ASCII
letters or digits. -/
def spec_identifier_shaped : List Nat → Bool
  | [] => false
  | first :: rest =>
    cj_check_alpha first && rest.all (fun c => cj_check_alpha c || cj_check_numeric c)

/-- The line start position after the code points of `text` have been passed, when the first
of them stands at `position` and the line start position before it is `line_start`: each line
feed moves it to the position just past that line feed. -/
def spec_line_start_after (position line_start : Nat) : List Nat → Nat
  | [] => line_start
  | c :: text =>
    if c = 0x0A then spec_line_start_after (position + 1) (position + 1) text
    else spec_line_start_after (position + 1) line_start text

/-- The common shape of the loops of `cj_scan_comment`, `cj_scan_identifier` and
`cj_scan_numeric_literal`: while the cursor is inside the buffer and the code point there is
accepted, append it and advance.  The three loops are shown to be instances of it. -/
def scan_while_loop (accept : Nat → Bool) :
    Nat → cj_token → cj_tokenization_process → cj_token × cj_tokenization_process
  | 0, token, process => (token, process)
  | fuel + 1, token, process =>
    if process.current_position < process.source_file.content_length then
      let character := process.source_file.content process.current_position
      if accept character then
        scan_while_loop accept fuel (cj_token_value_append token character)
          { process with current_position := process.current_position + 1 }
      else
        (token, process)
    else
      (token, process)

/-! ## The syntax tree and the parser (`parser.c`)

* The functions that build the tree mutate the parent node through a pointer; here they
  return the new parent.  The array `childrens` with its counter `childrens_length` is a list:
  the list holds what the routines store, slot by slot.  The memory the array is given is
  told apart from that: `cj_attach_ast_tree_node_children_block` is the size of the block the
  routine has for the array when it stores slot number `childrens_length`, and
  `cj_attach_ast_tree_node_children_in_block` tells whether that store lies inside the block.
* A parser routine returns `Except cj_stop`: `aborted` is a failed `assert` (or a read through
  the lookahead pointer while it is `NULL`), `out_of_fuel` is a loop that was still running
  when the fuel of the model ran out.
* The text of a string-valued child is a pointer into the text buffer of a token.  The tokens
  of a parse are numbered in the order they are read; `cj_release_token` frees the token and
  its buffer.  The field `released` of the parsing process counts the tokens released so far,
  so the lookahead, when there is one, is token number `released`, and the buffer of token
  number `b` is allocated exactly while `b = released`.
-/

/-- A `wchar_t*` that points at the text buffer of token number `block`; `text` is what the
buffer held when the pointer was taken. -/
structure cj_token_text where
  block : Nat
  text : List Nat
deriving DecidableEq, Repr

mutual
/-- The structure `cj_ast_tree_node`. -/
inductive cj_ast_tree_node where
  | mk (type : String) (childrens : List cj_ast_tree_node_children)
/-- The structure `cj_ast_tree_node_children`: the tag `cj_ast_tree_node_children_type`, the
name, and the member of the union that the tag selects.  A node pointer can be `NULL`. -/
inductive cj_ast_tree_node_children where
  | NODE_TYPE (name : String) (node : Option cj_ast_tree_node)
  | STRING_TYPE (name : String) (string : cj_token_text)
  | NUMBER_TYPE (name : String) (number : Nat)
  | CHARACTER_TYPE (name : String) (character : Nat)
  | BOOLEAN_TYPE (name : String) (boolean : Bool)
  | NULL_TYPE (name : String)
end

/-- The structure `cj_parsing_process`, with the count of released tokens. -/
structure cj_parsing_process where
  tokenization_process : cj_tokenization_process
  next_token : Option cj_token
  released : Nat

def cj_init_ast_tree_node (type : String) : cj_ast_tree_node :=
  cj_ast_tree_node.mk type []

/-- The counter `childrens_length` of a node. -/
def cj_childrens_length : cj_ast_tree_node → Nat
  | cj_ast_tree_node.mk _ childrens => childrens.length

/-- The size in bytes of the block that `cj_attach_ast_tree_node_children` has for the array
`parent->childrens` when it stores the new child: `malloc(sizeof(pointer))` when the parent
has no children yet, `realloc(..., sizeof(pointer) * childrens_length + 1)` otherwise, with
the counter as it is on entry.  `pointer_size` is
`sizeof(struct cj_ast_tree_node_children*)`. -/
def cj_attach_ast_tree_node_children_block (pointer_size : Nat) (parent : cj_ast_tree_node) :
    Nat :=
  if cj_childrens_length parent = 0 then pointer_size
  else pointer_size * cj_childrens_length parent + 1

/-- The store `parent->childrens[parent->childrens_length++] = children` lies inside the
block: slot number `childrens_length` ends at byte `pointer_size * (childrens_length + 1)` of
the array. -/
def cj_attach_ast_tree_node_children_in_block (pointer_size : Nat)
    (parent : cj_ast_tree_node) : Bool :=
  decide (pointer_size * (cj_childrens_length parent + 1)
    ≤ cj_attach_ast_tree_node_children_block pointer_size parent)

/-- The routine `cj_attach_ast_tree_node_children`, as to what it stores: the new child is
stored in slot number `childrens_length` and the counter goes up by one.  Whether the slot is
memory of the array is `cj_attach_ast_tree_node_children_in_block`. -/
def cj_attach_ast_tree_node_children (parent : cj_ast_tree_node)
    (children : cj_ast_tree_node_children) : cj_ast_tree_node :=
  match parent with
  | cj_ast_tree_node.mk type childrens => cj_ast_tree_node.mk type (childrens ++ [children])

/-- The routine `cj_attach_ast_tree_node_children` with the memory taken into account: no
result when the store falls outside the block of the array. -/
def cj_attach_ast_tree_node_children_checked (pointer_size : Nat)
    (parent : cj_ast_tree_node) (children : cj_ast_tree_node_children) :
    Option cj_ast_tree_node :=
  if cj_attach_ast_tree_node_children_in_block pointer_size parent then
    some (cj_attach_ast_tree_node_children parent children)
  else none

def cj_add_ast_tree_node_relation (parent : cj_ast_tree_node)
    (related : Option cj_ast_tree_node) (relation_name : String) : cj_ast_tree_node :=
  cj_attach_ast_tree_node_children parent
    (cj_ast_tree_node_children.NODE_TYPE relation_name related)

def cj_add_ast_tree_node_string_value (parent : cj_ast_tree_node) (relation_name : String)
    (string : cj_token_text) : cj_ast_tree_node :=
  cj_attach_ast_tree_node_children parent
    (cj_ast_tree_node_children.STRING_TYPE relation_name string)

def cj_add_ast_tree_node_character_value (parent : cj_ast_tree_node) (relation_name : String)
    (character : Nat) : cj_ast_tree_node :=
  cj_attach_ast_tree_node_children parent
    (cj_ast_tree_node_children.CHARACTER_TYPE relation_name character)

def cj_add_ast_tree_node_boolean_value (parent : cj_ast_tree_node) (relation_name : String)
    (boolean : Bool) : cj_ast_tree_node :=
  cj_attach_ast_tree_node_children parent
    (cj_ast_tree_node_children.BOOLEAN_TYPE relation_name boolean)

def cj_add_ast_tree_node_number_value (parent : cj_ast_tree_node) (relation_name : String)
    (number : Nat) : cj_ast_tree_node :=
  cj_attach_ast_tree_node_children parent
    (cj_ast_tree_node_children.NUMBER_TYPE relation_name number)

def cj_add_ast_tree_node_null_value (parent : cj_ast_tree_node) (relation_name : String) :
    cj_ast_tree_node :=
  cj_attach_ast_tree_node_children parent (cj_ast_tree_node_children.NULL_TYPE relation_name)

/-- The conversion `swscanf(value, L"%Lf", &number)` on the text of a numeric literal, a run
of decimal digits: the number the digits denote.  The `long double` that the code stores is
this number as long as the number fits the significand (below `2 ^ 64` for the 80-bit format,
below `2 ^ 53` where `long double` is `double`); beyond that the code stores a rounded value,
and the rounding is not modelled. -/
def swscanf_Lf (value : List Nat) : Nat :=
  (wcs value).foldl (fun number c => 10 * number + (c - 0x30)) 0

/-- The pointer `process->next_token->value` of a lookahead `token`. -/
def cj_next_token_value (process : cj_parsing_process) (token : cj_token) : cj_token_text :=
  { block := process.released, text := token.value }

/-- The routine `cj_get_next_token`: the lookahead, when there is one, is released, and the
next token is read into its place. -/
def cj_get_next_token (process : cj_parsing_process) : Except cj_stop cj_parsing_process :=
  let released :=
    match process.next_token with
    | some _ => process.released + 1
    | none => process.released
  match cj_read_next_token process.tokenization_process with
  | none => Except.error cj_stop.aborted
  | some (token, tokenization_process) =>
    Except.ok
      { tokenization_process := tokenization_process
        next_token := some token
        released := released }

def cj_expect_keyword (process : cj_parsing_process) (keyword : List Nat) :
    Except cj_stop cj_parsing_process :=
  match process.next_token with
  | none => Except.error cj_stop.aborted
  | some token =>
    if token.type ≠ cj_token_type.KEYWORD then Except.error cj_stop.aborted
    else if !wcscmp_eq token.value keyword then Except.error cj_stop.aborted
    else cj_get_next_token process

def cj_expect_punctuator (process : cj_parsing_process) (punctuator : List Nat) :
    Except cj_stop cj_parsing_process :=
  match process.next_token with
  | none => Except.error cj_stop.aborted
  | some token =>
    if token.type ≠ cj_token_type.PUNCTUATOR then Except.error cj_stop.aborted
    else if !wcscmp_eq token.value punctuator then Except.error cj_stop.aborted
    else cj_get_next_token process

def cj_parse_comment (process : cj_parsing_process) :
    Except cj_stop (cj_ast_tree_node × cj_parsing_process) :=
  match process.next_token with
  | none => Except.error cj_stop.aborted
  | some token =>
    if token.type ≠ cj_token_type.COMMENT then Except.error cj_stop.aborted else
    let comment := cj_init_ast_tree_node "Comment"
    let comment := cj_add_ast_tree_node_string_value comment "content"
      (cj_next_token_value process token)
    match cj_get_next_token process with
    | Except.error e => Except.error e
    | Except.ok process => Except.ok (comment, process)

def cj_parse_identifier (process : cj_parsing_process) :
    Except cj_stop (cj_ast_tree_node × cj_parsing_process) :=
  match process.next_token with
  | none => Except.error cj_stop.aborted
  | some token =>
    if token.type ≠ cj_token_type.IDENTIFIER then Except.error cj_stop.aborted else
    let id := cj_init_ast_tree_node "Identifier"
    let id := cj_add_ast_tree_node_string_value id "value" (cj_next_token_value process token)
    match cj_get_next_token process with
    | Except.error e => Except.error e
    | Except.ok process => Except.ok (id, process)

def cj_parse_literal (process : cj_parsing_process) :
    Except cj_stop (cj_ast_tree_node × cj_parsing_process) :=
  match process.next_token with
  | none => Except.error cj_stop.aborted
  | some token =>
    let literal := cj_init_ast_tree_node "Literal"
    let attached : Option cj_ast_tree_node :=
      match token.type with
      | cj_token_type.STRING_LITERAL =>
        some (cj_add_ast_tree_node_string_value literal "value"
          (cj_next_token_value process token))
      | cj_token_type.NUMERIC_LITERAL =>
        some (cj_add_ast_tree_node_number_value literal "value" (swscanf_Lf token.value))
      | cj_token_type.CHARACTER_LITERAL =>
        some (cj_add_ast_tree_node_character_value literal "value" (token.value.headD 0))
      | cj_token_type.BOOLEAN_LITERAL =>
        some (cj_add_ast_tree_node_boolean_value literal "value"
          (wcscmp_eq token.value L_true))
      | cj_token_type.NULL_LITERAL =>
        some (cj_add_ast_tree_node_null_value literal "value")
      | _ => none
    match attached with
    | none => Except.error cj_stop.aborted
    | some literal =>
      match cj_get_next_token process with
      | Except.error e => Except.error e
      | Except.ok process => Except.ok (literal, process)

/-- The test `cj_match_punctuator`; `none` stands for the read through a `NULL` lookahead. -/
def cj_match_punctuator (process : cj_parsing_process) (punctuator : List Nat) : Option Bool :=
  match process.next_token with
  | none => none
  | some token =>
    some (decide (token.type = cj_token_type.PUNCTUATOR) && wcscmp_eq token.value punctuator)

def cj_parse_primary_expression (process : cj_parsing_process) :
    Except cj_stop (cj_ast_tree_node × cj_parsing_process) :=
  match process.next_token with
  | none => Except.error cj_stop.aborted
  | some token =>
    match token.type with
    | cj_token_type.IDENTIFIER => cj_parse_identifier process
    | cj_token_type.STRING_LITERAL => cj_parse_literal process
    | cj_token_type.NUMERIC_LITERAL => cj_parse_literal process
    | cj_token_type.CHARACTER_LITERAL => cj_parse_literal process
    | cj_token_type.BOOLEAN_LITERAL => cj_parse_literal process
    | cj_token_type.NULL_LITERAL => cj_parse_literal process
    | _ => Except.error cj_stop.aborted

/-- The `while (1)` loop of `cj_parse_import_declaration`: an identifier is attached as
`specifier`, and the loop goes on as long as a `,` follows. -/
def cj_parse_import_declaration_loop :
    Nat → cj_ast_tree_node → cj_parsing_process →
      Except cj_stop (cj_ast_tree_node × cj_parsing_process)
  | 0, _, _ => Except.error cj_stop.out_of_fuel
  | fuel + 1, import_declaration, process =>
    match cj_parse_identifier process with
    | Except.error e => Except.error e
    | Except.ok (specifier, process) =>
      let import_declaration :=
        cj_add_ast_tree_node_relation import_declaration (some specifier) "specifier"
      match cj_match_punctuator process [0x2C] with
      | none => Except.error cj_stop.aborted
      | some true =>
        match cj_get_next_token process with
        | Except.error e => Except.error e
        | Except.ok process => cj_parse_import_declaration_loop fuel import_declaration process
      | some false => Except.ok (import_declaration, process)

def cj_parse_import_declaration (fuel : Nat) (process : cj_parsing_process) :
    Except cj_stop (cj_ast_tree_node × cj_parsing_process) :=
  match cj_expect_keyword process L_import with
  | Except.error e => Except.error e
  | Except.ok process =>
  match cj_expect_punctuator process [0x7B] with
  | Except.error e => Except.error e
  | Except.ok process =>
  let import_declaration := cj_init_ast_tree_node "ImportDeclaration"
  match cj_parse_import_declaration_loop fuel import_declaration process with
  | Except.error e => Except.error e
  | Except.ok (import_declaration, process) =>
  match cj_expect_punctuator process [0x7D] with
  | Except.error e => Except.error e
  | Except.ok process =>
  match cj_expect_keyword process L_from with
  | Except.error e => Except.error e
  | Except.ok process =>
  match process.next_token with
  | none => Except.error cj_stop.aborted
  | some token =>
  if token.type ≠ cj_token_type.STRING_LITERAL then Except.error cj_stop.aborted else
  match cj_parse_literal process with
  | Except.error e => Except.error e
  | Except.ok (source, process) =>
  let import_declaration :=
    cj_add_ast_tree_node_relation import_declaration (some source) "source"
  match cj_expect_punctuator process [0x3B] with
  | Except.error e => Except.error e
  | Except.ok process => Except.ok (import_declaration, process)

def cj_parse_variable_declaration (process : cj_parsing_process) :
    Except cj_stop (cj_ast_tree_node × cj_parsing_process) :=
  match cj_expect_keyword process L_let with
  | Except.error e => Except.error e
  | Except.ok process =>
  let variable_declaration := cj_init_ast_tree_node "VariableDeclaration"
  match cj_parse_identifier process with
  | Except.error e => Except.error e
  | Except.ok (id, process) =>
  let variable_declaration := cj_add_ast_tree_node_relation variable_declaration (some id) "id"
  match cj_expect_punctuator process [0x3A] with
  | Except.error e => Except.error e
  | Except.ok process =>
  match cj_parse_identifier process with
  | Except.error e => Except.error e
  | Except.ok (type, process) =>
  let variable_declaration :=
    cj_add_ast_tree_node_relation variable_declaration (some type) "type"
  let optional : Except cj_stop (cj_ast_tree_node × cj_parsing_process) :=
    match cj_match_punctuator process [0x3F] with
    | none => Except.error cj_stop.aborted
    | some true =>
      match cj_get_next_token process with
      | Except.error e => Except.error e
      | Except.ok process =>
        Except.ok
          (cj_add_ast_tree_node_boolean_value variable_declaration "optional" true, process)
    | some false =>
      Except.ok
        (cj_add_ast_tree_node_boolean_value variable_declaration "optional" false, process)
  match optional with
  | Except.error e => Except.error e
  | Except.ok (variable_declaration, process) =>
  match cj_expect_punctuator process [0x3D] with
  | Except.error e => Except.error e
  | Except.ok process =>
  match cj_parse_primary_expression process with
  | Except.error e => Except.error e
  | Except.ok (init, process) =>
  let variable_declaration :=
    cj_add_ast_tree_node_relation variable_declaration (some init) "init"
  match cj_expect_punctuator process [0x3B] with
  | Except.error e => Except.error e
  | Except.ok process => Except.ok (variable_declaration, process)

/-- The routine `cj_parse_program_element`; the node it returns is `NULL` when no branch of it
applies.  `fuel` is the fuel of the specifier loop. -/
def cj_parse_program_element (fuel : Nat) (process : cj_parsing_process) :
    Except cj_stop (Option cj_ast_tree_node × cj_parsing_process) :=
  match process.next_token with
  | none => Except.error cj_stop.aborted
  | some token =>
    if token.type = cj_token_type.COMMENT then
      match cj_parse_comment process with
      | Except.error e => Except.error e
      | Except.ok (node, process) => Except.ok (some node, process)
    else if token.type = cj_token_type.KEYWORD then
      if wcscmp_eq token.value L_import then
        match cj_parse_import_declaration fuel process with
        | Except.error e => Except.error e
        | Except.ok (node, process) => Except.ok (some node, process)
      else if wcscmp_eq token.value L_let then
        match cj_parse_variable_declaration process with
        | Except.error e => Except.error e
        | Except.ok (node, process) => Except.ok (some node, process)
      else Except.ok (none, process)
    else Except.ok (none, process)

/-- The `while` loop of `cj_parse_program`. -/
def cj_parse_program_loop :
    Nat → cj_ast_tree_node → cj_parsing_process →
      Except cj_stop (cj_ast_tree_node × cj_parsing_process)
  | 0, _, _ => Except.error cj_stop.out_of_fuel
  | fuel + 1, program, process =>
    match process.next_token with
    | none => Except.error cj_stop.aborted
    | some token =>
      if token.type ≠ cj_token_type.END_OF_FILE then
        match cj_parse_program_element fuel process with
        | Except.error e => Except.error e
        | Except.ok (program_element, process) =>
          cj_parse_program_loop fuel
            (cj_add_ast_tree_node_relation program program_element "body") process
      else
        Except.ok (program, process)

def cj_parse_program (fuel : Nat) (process : cj_parsing_process) :
    Except cj_stop (cj_ast_tree_node × cj_parsing_process) :=
  cj_parse_program_loop fuel (cj_init_ast_tree_node "Program") process

/-- The parsing process `cj_parse` starts from: the initial cursor and no lookahead. -/
def cj_initial_parsing_process (source_file : cj_source_file) : cj_parsing_process :=
  { tokenization_process := cj_initial_process source_file
    next_token := none
    released := 0 }

/-- The routine `cj_parse` up to the point where the tree is complete; the result is the tree
and the parsing process at that point.  The C routine then frees the tree and releases the
lookahead, and returns nothing. -/
def cj_parse (fuel : Nat) (source_file : cj_source_file) :
    Except cj_stop (cj_ast_tree_node × cj_parsing_process) :=
  match cj_get_next_token (cj_initial_parsing_process source_file) with
  | Except.error e => Except.error e
  | Except.ok process => cj_parse_program fuel process

/-- The parsing process in which a grammar rule is entered at the start of `source_file`: the
lookahead is the first token. -/
def cj_parsing_process_at_start (source_file : cj_source_file) :
    Except cj_stop cj_parsing_process :=
  cj_get_next_token (cj_initial_parsing_process source_file)

/-- The buffer of the token a text pointer points into is still allocated in `process`: the
token is the lookahead of `process`. -/
def cj_token_text_allocated (process : cj_parsing_process) (string : cj_token_text) : Bool :=
  process.next_token.isSome && string.block == process.released

/-- The parsing process after `n` calls of `cj_get_next_token`. -/
def cj_advance : Nat → cj_parsing_process → Except cj_stop cj_parsing_process
  | 0, process => Except.ok process
  | n + 1, process =>
    match cj_get_next_token process with
    | Except.error e => Except.error e
    | Except.ok process => cj_advance n process

/-- The lookahead of `process` is a token of kind `kind` whose text, as a wide string, is
`text`. -/
def cj_lookahead_is (process : cj_parsing_process) (kind : cj_token_type) (text : List Nat) :
    Bool :=
  match process.next_token with
  | none => false
  | some token => decide (token.type = kind) && wcs token.value == wcs text

/-- The buffer `import { a, b } from "x";`. -/
def example_import : List Nat :=
  [0x69, 0x6D, 0x70, 0x6F, 0x72, 0x74, 0x20, 0x7B, 0x20, 0x61, 0x2C, 0x20, 0x62, 0x20, 0x7D,
    0x20, 0x66, 0x72, 0x6F, 0x6D, 0x20, 0x22, 0x78, 0x22, 0x3B]

/-- The buffer `let n : Int = 42;`. -/
def example_let : List Nat :=
  [0x6C, 0x65, 0x74, 0x20, 0x6E, 0x20, 0x3A, 0x20, 0x49, 0x6E, 0x74, 0x20, 0x3D, 0x20, 0x34,
    0x32, 0x3B]

/-- The buffer `let n : Int? = null;`. -/
def example_let_optional : List Nat :=
  [0x6C, 0x65, 0x74, 0x20, 0x6E, 0x20, 0x3A, 0x20, 0x49, 0x6E, 0x74, 0x3F, 0x20, 0x3D, 0x20,
    0x6E, 0x75, 0x6C, 0x6C, 0x3B]

/-- The buffer `let n Int = 1;`, where the `:` is missing. -/
def example_let_no_colon : List Nat :=
  [0x6C, 0x65, 0x74, 0x20, 0x6E, 0x20, 0x49, 0x6E, 0x74, 0x20, 0x3D, 0x20, 0x31, 0x3B]

/-- The parsing process on the buffer `let n : Int? = null;` after the first token is fetched:
the lookahead is the keyword `let` and the cursor stands after it. -/
def example_let_optional_start : cj_parsing_process :=
  { tokenization_process :=
      { source_file := cj_source_of example_let_optional 0
        current_position := 3
        current_line_number := 0
        current_line_start_position := 0 }
    next_token :=
      some { type := cj_token_type.KEYWORD, value_length := 3, value := L_let,
             start := ⟨0, 0, 0⟩, end_ := ⟨3, 0, 3⟩ }
    released := 0 }

/-- The parsing process on the buffer `x` after the first token is fetched: the lookahead
is the identifier `x` and the cursor stands at the end of the buffer. -/
def example_identifier_start : cj_parsing_process :=
  { tokenization_process :=
      { source_file := cj_source_of [0x78] 0
        current_position := 1
        current_line_number := 0
        current_line_start_position := 0 }
    next_token :=
      some { type := cj_token_type.IDENTIFIER, value_length := 1, value := [0x78],
             start := ⟨0, 0, 0⟩, end_ := ⟨1, 0, 1⟩ }
    released := 0 }

/-! ## The grammar of the spec, on token sequences

The grammar of §4.2 of the spec, read on the sequence of tokens a declaration consists of,
together with the node the spec attaches to each construct.  A terminal of the grammar is a
token of a kind with a text; the number `block` is the number of the first token of the
construct in the run of the parser, so that the text pointers of the nodes can be told. -/

/-- The token is of kind `kind` and its text, as a wide string, is `text`. -/
def spec_token_is (token : cj_token) (kind : cj_token_type) (text : List Nat) : Bool :=
  decide (token.type = kind) && wcs token.value == wcs text

/-- The node of an `Identifier` token: one String child `value`. -/
def spec_identifier_node (block : Nat) (token : cj_token) : cj_ast_tree_node :=
  cj_ast_tree_node.mk "Identifier"
    [cj_ast_tree_node_children.STRING_TYPE "value" ⟨block, token.value⟩]

/-- The node of a literal token, by the rule `Literal := StringLiteral | NumericLiteral |
CharacterLiteral | BooleanLiteral | NullLiteral`: one child `value` of the kind of the
literal. -/
def spec_literal_node (block : Nat) (token : cj_token) : Option cj_ast_tree_node :=
  match token.type with
  | cj_token_type.STRING_LITERAL =>
    some (cj_ast_tree_node.mk "Literal"
      [cj_ast_tree_node_children.STRING_TYPE "value" ⟨block, token.value⟩])
  | cj_token_type.NUMERIC_LITERAL =>
    some (cj_ast_tree_node.mk "Literal"
      [cj_ast_tree_node_children.NUMBER_TYPE "value" (swscanf_Lf token.value)])
  | cj_token_type.CHARACTER_LITERAL =>
    some (cj_ast_tree_node.mk "Literal"
      [cj_ast_tree_node_children.CHARACTER_TYPE "value" (token.value.headD 0)])
  | cj_token_type.BOOLEAN_LITERAL =>
    some (cj_ast_tree_node.mk "Literal"
      [cj_ast_tree_node_children.BOOLEAN_TYPE "value" (wcscmp_eq token.value L_true)])
  | cj_token_type.NULL_LITERAL =>
    some (cj_ast_tree_node.mk "Literal" [cj_ast_tree_node_children.NULL_TYPE "value"])
  | _ => none

/-- The node of a primary expression, by the rule `PrimaryExpression := Identifier |
Literal`. -/
def spec_primary_node (block : Nat) (token : cj_token) : Option cj_ast_tree_node :=
  if token.type = cj_token_type.IDENTIFIER then some (spec_identifier_node block token)
  else spec_literal_node block token

/-- The node of a comment, by the rule `Comment := COMMENT-token`. -/
def spec_comment_node (block : Nat) : List cj_token → Option cj_ast_tree_node
  | [comment] =>
    if comment.type = cj_token_type.COMMENT then
      some (cj_ast_tree_node.mk "Comment"
        [cj_ast_tree_node_children.STRING_TYPE "content" ⟨block, comment.value⟩])
    else none
  | _ => none

/-- The node of a variable declaration, by the rule
`"let" Identifier ":" Identifier "?"? "=" PrimaryExpression ";"`, with the children `id`,
`type`, `optional`, `init` in that order. -/
def spec_variable_declaration_node (block : Nat) : List cj_token → Option cj_ast_tree_node
  | [kw, id, colon, type, question, equals, init, semicolon] =>
    if spec_token_is kw cj_token_type.KEYWORD L_let
        && decide (id.type = cj_token_type.IDENTIFIER)
        && spec_token_is colon cj_token_type.PUNCTUATOR [0x3A]
        && decide (type.type = cj_token_type.IDENTIFIER)
        && spec_token_is question cj_token_type.PUNCTUATOR [0x3F]
        && spec_token_is equals cj_token_type.PUNCTUATOR [0x3D]
        && spec_token_is semicolon cj_token_type.PUNCTUATOR [0x3B] then
      match spec_primary_node (block + 6) init with
      | none => none
      | some init_node =>
        some (cj_ast_tree_node.mk "VariableDeclaration"
          [cj_ast_tree_node_children.NODE_TYPE "id" (some (spec_identifier_node (block + 1) id)),
           cj_ast_tree_node_children.NODE_TYPE "type"
             (some (spec_identifier_node (block + 3) type)),
           cj_ast_tree_node_children.BOOLEAN_TYPE "optional" true,
           cj_ast_tree_node_children.NODE_TYPE "init" (some init_node)])
    else none
  | [kw, id, colon, type, equals, init, semicolon] =>
    if spec_token_is kw cj_token_type.KEYWORD L_let
        && decide (id.type = cj_token_type.IDENTIFIER)
        && spec_token_is colon cj_token_type.PUNCTUATOR [0x3A]
        && decide (type.type = cj_token_type.IDENTIFIER)
        && spec_token_is equals cj_token_type.PUNCTUATOR [0x3D]
        && spec_token_is semicolon cj_token_type.PUNCTUATOR [0x3B] then
      match spec_primary_node (block + 5) init with
      | none => none
      | some init_node =>
        some (cj_ast_tree_node.mk "VariableDeclaration"
          [cj_ast_tree_node_children.NODE_TYPE "id" (some (spec_identifier_node (block + 1) id)),
           cj_ast_tree_node_children.NODE_TYPE "type"
             (some (spec_identifier_node (block + 3) type)),
           cj_ast_tree_node_children.BOOLEAN_TYPE "optional" false,
           cj_ast_tree_node_children.NODE_TYPE "init" (some init_node)])
    else none
  | _ => none

/-- The specifiers of an import declaration, by `Identifier ("," Identifier)*`: the
`specifier` children they give, and the tokens that follow the last specifier. -/
def spec_import_specifiers (block : Nat) :
    List cj_token → Option (List cj_ast_tree_node_children × List cj_token)
  | id :: next :: rest =>
    if id.type = cj_token_type.IDENTIFIER then
      if spec_token_is next cj_token_type.PUNCTUATOR [0x2C] then
        match spec_import_specifiers (block + 2) rest with
        | none => none
        | some (specifiers, after) =>
          some (cj_ast_tree_node_children.NODE_TYPE "specifier"
              (some (spec_identifier_node block id)) :: specifiers, after)
      else
        some ([cj_ast_tree_node_children.NODE_TYPE "specifier"
            (some (spec_identifier_node block id))], next :: rest)
    else none
  | _ => none

/-- The node of an import declaration, by the rule
`"import" "{" Identifier ("," Identifier)* "}" "from" StringLiteral ";"`, with one child
`specifier` for each identifier, in order, followed by the child `source`. -/
def spec_import_declaration_node (block : Nat) : List cj_token → Option cj_ast_tree_node
  | kw :: lbrace :: rest =>
    if spec_token_is kw cj_token_type.KEYWORD L_import
        && spec_token_is lbrace cj_token_type.PUNCTUATOR [0x7B] then
      match spec_import_specifiers (block + 2) rest with
      | some (specifiers, [rbrace, kw_from, source, semicolon]) =>
        if spec_token_is rbrace cj_token_type.PUNCTUATOR [0x7D]
            && spec_token_is kw_from cj_token_type.KEYWORD L_from
            && decide (source.type = cj_token_type.STRING_LITERAL)
            && spec_token_is semicolon cj_token_type.PUNCTUATOR [0x3B] then
          some (cj_ast_tree_node.mk "ImportDeclaration"
            (specifiers ++
              [cj_ast_tree_node_children.NODE_TYPE "source"
                (some (cj_ast_tree_node.mk "Literal"
                  [cj_ast_tree_node_children.STRING_TYPE "value"
                    ⟨block + rest.length, source.value⟩]))]))
        else none
      | _ => none
    else none
  | _ => none

/-- The node of a program element, by the rule
`ProgramElement := Comment | ImportDeclaration | VariableDeclaration`. -/
def spec_element_node (block : Nat) (tokens : List cj_token) : Option cj_ast_tree_node :=
  match spec_comment_node block tokens with
  | some node => some node
  | none =>
    match spec_import_declaration_node block tokens with
    | some node => some node
    | none => spec_variable_declaration_node block tokens

/-- The rule `Program := ProgramElement* EndOfFile`: the token sequence is a concatenation of
program elements followed by one `END_OF_FILE` token, and `nodes` are the nodes of the
elements in the order of the elements. -/
inductive spec_program_nodes : Nat → List cj_token → List cj_ast_tree_node → Prop where
  | end_of_file (block : Nat) (token : cj_token) :
      token.type = cj_token_type.END_OF_FILE → spec_program_nodes block [token] []
  | element (block : Nat) (tokens rest : List cj_token) (node : cj_ast_tree_node)
      (nodes : List cj_ast_tree_node) :
      spec_element_node block tokens = some node →
      spec_program_nodes (block + tokens.length) rest nodes →
      spec_program_nodes block (tokens ++ rest) (node :: nodes)

/-- The `Program` node of the spec over the nodes of its elements: one Node-valued child named
`body` for each, in order. -/
def spec_program_node (nodes : List cj_ast_tree_node) : cj_ast_tree_node :=
  cj_ast_tree_node.mk "Program"
    (nodes.map (fun node => cj_ast_tree_node_children.NODE_TYPE "body" (some node)))

/-- The parsing process `p'` is reached from `p` by consuming the tokens `tokens`: each is the
lookahead in its turn and is passed by a successful `cj_get_next_token`. -/
def cj_consumes : List cj_token → cj_parsing_process → cj_parsing_process → Prop
  | [], p, p' => p' = p
  | token :: tokens, p, p' =>
    p.next_token = some token ∧
      ∃ p1, cj_get_next_token p = Except.ok p1 ∧ cj_consumes tokens p1 p'

/-- The tokens from the lookahead of `p` up to the `END_OF_FILE` token are `tokens`: the
lookahead is the first, and the driver loop of the tokenizer returns the rest from the cursor
of `p`. -/
def cj_stream (p : cj_parsing_process) (tokens : List cj_token) : Prop :=
  ∃ token rest, tokens = token :: rest ∧ p.next_token = some token
    ∧ ((token.type = cj_token_type.END_OF_FILE ∧ rest = [])
      ∨ (token.type ≠ cj_token_type.END_OF_FILE
        ∧ ∃ fuel, main_loop fuel p.tokenization_process = Except.ok rest))


/-! ## Vocabulary of the statements on trees -/

/-- The name of a child. -/
def cj_child_name : cj_ast_tree_node_children → String
  | cj_ast_tree_node_children.NODE_TYPE name _ => name
  | cj_ast_tree_node_children.STRING_TYPE name _ => name
  | cj_ast_tree_node_children.NUMBER_TYPE name _ => name
  | cj_ast_tree_node_children.CHARACTER_TYPE name _ => name
  | cj_ast_tree_node_children.BOOLEAN_TYPE name _ => name
  | cj_ast_tree_node_children.NULL_TYPE name => name

/-- The names of the children of a node, in the order of the children. -/
def cj_child_names : cj_ast_tree_node → List String
  | cj_ast_tree_node.mk _ childrens => childrens.map cj_child_name

/-- The field `type` of a node. -/
def cj_node_type : cj_ast_tree_node → String
  | cj_ast_tree_node.mk type _ => type

mutual
/-- The nodes of a tree: the node itself, then the nodes below each Node-valued child, in
the order in which `cj_free_ast_tree_node` walks the tree. -/
def cj_nodes_of : cj_ast_tree_node → List cj_ast_tree_node
  | cj_ast_tree_node.mk type childrens =>
    cj_ast_tree_node.mk type childrens :: cj_nodes_of_childrens childrens
/-- The nodes below the children of a node. -/
def cj_nodes_of_childrens : List cj_ast_tree_node_children → List cj_ast_tree_node
  | [] => []
  | children :: childrens => cj_nodes_of_children children ++ cj_nodes_of_childrens childrens
/-- The nodes below one child: those of its node when the child is Node-valued and not
`NULL`. -/
def cj_nodes_of_children : cj_ast_tree_node_children → List cj_ast_tree_node
  | cj_ast_tree_node_children.NODE_TYPE _ (some node) => cj_nodes_of node
  | _ => []
end

/-- The discipline of child names in the trees of the parser: every name is non-empty; the
children of a `Program` node are all named `body`; the children of an `ImportDeclaration` node
are one or more children named `specifier` followed by one child named `source`; the
children of any other node have pairwise distinct names. -/
def spec_child_names (node : cj_ast_tree_node) : Prop :=
  (∀ name ∈ cj_child_names node, name ≠ "")
  ∧ (cj_node_type node = "Program" → ∀ name ∈ cj_child_names node, name = "body")
  ∧ (cj_node_type node = "ImportDeclaration" →
      ∃ n, 0 < n ∧ cj_child_names node = List.replicate n "specifier" ++ ["source"])
  ∧ (cj_node_type node ≠ "Program" → cj_node_type node ≠ "ImportDeclaration" →
      (cj_child_names node).Nodup)

/-- The buffer of the three lines `# hi`, `import { a } from "x";` and
`let n : Int = 42;`, the last one after two spaces instead of a line feed. -/
def example_program : List Nat :=
  [0x23, 0x20, 0x68, 0x69, 0x0A,
   0x69, 0x6D, 0x70, 0x6F, 0x72, 0x74, 0x20, 0x7B, 0x20, 0x61, 0x20, 0x7D,
    0x20, 0x66, 0x72, 0x6F, 0x6D, 0x20, 0x22, 0x78, 0x22, 0x3B, 0x20, 0x20,
   0x6C, 0x65, 0x74, 0x20, 0x6E, 0x20, 0x3A, 0x20, 0x49, 0x6E, 0x74, 0x20, 0x3D, 0x20, 0x34,
    0x32, 0x3B]


/-- The tokens of `example_program`, as the driver loop of the tokenizer returns them. -/
def example_program_tokens : List cj_token :=
  match main_loop 16 (cj_initial_process (cj_source_of example_program 0)) with
  | Except.ok tokens => tokens
  | Except.error _ => []

/-- The nodes of the three program elements of `example_program`: the comment, the import
declaration and the variable declaration. -/
def example_program_nodes : List cj_ast_tree_node :=
  [cj_ast_tree_node.mk "Comment"
    [cj_ast_tree_node_children.STRING_TYPE "content" ⟨0, [0x20, 0x68, 0x69]⟩],
   cj_ast_tree_node.mk "ImportDeclaration"
    [cj_ast_tree_node_children.NODE_TYPE "specifier"
      (some (cj_ast_tree_node.mk "Identifier"
        [cj_ast_tree_node_children.STRING_TYPE "value" ⟨3, [0x61]⟩])),
     cj_ast_tree_node_children.NODE_TYPE "source"
      (some (cj_ast_tree_node.mk "Literal"
        [cj_ast_tree_node_children.STRING_TYPE "value" ⟨6, [0x78]⟩]))],
   cj_ast_tree_node.mk "VariableDeclaration"
    [cj_ast_tree_node_children.NODE_TYPE "id"
      (some (cj_ast_tree_node.mk "Identifier"
        [cj_ast_tree_node_children.STRING_TYPE "value" ⟨9, [0x6E]⟩])),
     cj_ast_tree_node_children.NODE_TYPE "type"
      (some (cj_ast_tree_node.mk "Identifier"
        [cj_ast_tree_node_children.STRING_TYPE "value" ⟨11, [0x49, 0x6E, 0x74]⟩])),
     cj_ast_tree_node_children.BOOLEAN_TYPE "optional" false,
     cj_ast_tree_node_children.NODE_TYPE "init"
      (some (cj_ast_tree_node.mk "Literal"
        [cj_ast_tree_node_children.NUMBER_TYPE "value" 42]))]]


/-- The node of the import declaration of `example_import`. -/
def example_import_node : cj_ast_tree_node :=
  cj_ast_tree_node.mk "ImportDeclaration"
    [cj_ast_tree_node_children.NODE_TYPE "specifier"
      (some (cj_ast_tree_node.mk "Identifier"
        [cj_ast_tree_node_children.STRING_TYPE "value" ⟨2, [0x61]⟩])),
     cj_ast_tree_node_children.NODE_TYPE "specifier"
      (some (cj_ast_tree_node.mk "Identifier"
        [cj_ast_tree_node_children.STRING_TYPE "value" ⟨4, [0x62]⟩])),
     cj_ast_tree_node_children.NODE_TYPE "source"
      (some (cj_ast_tree_node.mk "Literal"
        [cj_ast_tree_node_children.STRING_TYPE "value" ⟨7, [0x78]⟩]))]

/-- The buffer `#a`, line feed, `#b`, line feed: two comments, each ended by a line feed. -/
def example_two_comments : List Nat :=
  [0x23, 0x61, 0x0A, 0x23, 0x62, 0x0A]

/-- The node of the first comment of `example_two_comments`. -/
def example_comment_a : cj_ast_tree_node :=
  cj_ast_tree_node.mk "Comment" [cj_ast_tree_node_children.STRING_TYPE "content" ⟨0, [0x61]⟩]

/-- The node of the second comment of `example_two_comments`. -/
def example_comment_b : cj_ast_tree_node :=
  cj_ast_tree_node.mk "Comment" [cj_ast_tree_node_children.STRING_TYPE "content" ⟨1, [0x62]⟩]

/-- The `Program` node of `example_two_comments` when the first comment is attached and the
second is not yet. -/
def example_program_one_body : cj_ast_tree_node :=
  cj_attach_ast_tree_node_children (cj_init_ast_tree_node "Program")
    (cj_ast_tree_node_children.NODE_TYPE "body" (some example_comment_a))

/-! ## Theorems -/


/-! ### The source file is never written -/

theorem cj_skip_whitespaces_loop_source_file (fuel : Nat) (process : cj_tokenization_process) :
    (cj_skip_whitespaces_loop fuel process).source_file = process.source_file := by
  induction fuel generalizing process with
  | zero => rfl
  | succ n ih =>
    simp only [cj_skip_whitespaces_loop]
    split_ifs <;> simp [ih]

theorem cj_skip_whitespaces_source_file (process : cj_tokenization_process) :
    (cj_skip_whitespaces process).source_file = process.source_file :=
  cj_skip_whitespaces_loop_source_file _ _

/-! ### Slices of the buffer -/

theorem cj_slice_length (f : cj_source_file) (s n : Nat) : (cj_slice f s n).length = n := by
  simp [cj_slice]

theorem cj_slice_zero (f : cj_source_file) (s : Nat) : cj_slice f s 0 = [] := rfl

theorem cj_slice_succ (f : cj_source_file) (s n : Nat) :
    cj_slice f s (n + 1) = f.content s :: cj_slice f (s + 1) n := by
  simp [cj_slice, List.range_succ_eq_map, Function.comp_def, Nat.add_comm, Nat.add_left_comm]

theorem cj_slice_two (f : cj_source_file) (s a b : Nat) :
    cj_slice f s 2 = [a, b] ↔ f.content s = a ∧ f.content (s + 1) = b := by
  simp [cj_slice, List.range_succ]

theorem cj_slice_three (f : cj_source_file) (s a b c : Nat) :
    cj_slice f s 3 = [a, b, c] ↔
      f.content s = a ∧ f.content (s + 1) = b ∧ f.content (s + 2) = c := by
  simp [cj_slice, List.range_succ]

/-! ### Punctuators -/

theorem cj_read_next_token_three (p q : cj_tokenization_process)
    (hq : q = cj_skip_whitespaces p)
    (hlen : q.current_position + 3 ≤ p.source_file.content_length)
    (h : cj_slice p.source_file q.current_position 3 = [0x3E, 0x3E, 0x3E]) :
    cj_read_next_token p = some (
      { type := cj_token_type.PUNCTUATOR, value_length := 0, value := [0x3E, 0x3E, 0x3E],
        start := cj_fixate_current_position p,
        end_ := cj_fixate_current_position
          { q with current_position := q.current_position + 3 } },
      { q with current_position := q.current_position + 3 }) := by
  rw [cj_slice_three] at h
  obtain ⟨h0, h1, h2⟩ := h
  have hs := cj_skip_whitespaces_source_file p
  rw [← hq] at hs
  rw [← hs] at h0 h1 h2 hlen
  unfold cj_read_next_token
  simp only [← hq]
  have hlt : ¬ q.current_position ≥ q.source_file.content_length := by omega
  have h3 : q.source_file.content_length - q.current_position ≥ 3 := by omega
  simp [cj_read_next_token_skipped, hlt, h0, h1, h2, cj_check_comment_start,
    cj_check_identifier_start, cj_check_alpha, cj_check_numeric, cj_check_character_quote,
    cj_check_string_quote, cj_scan_punctuator, cj_punctuator_cases, wcscmp_eq, wcs, h3,
    cj_new_token]


/-! ### Where the whitespace skip stops at once -/

theorem cj_skip_whitespaces_at_end (p : cj_tokenization_process)
    (h : p.current_position ≥ p.source_file.content_length) : cj_skip_whitespaces p = p := by
  have h0 : p.source_file.content_length - p.current_position = 0 := by omega
  simp [cj_skip_whitespaces, h0, cj_skip_whitespaces_loop]

theorem cj_skip_whitespaces_at_other (p : cj_tokenization_process)
    (h1 : cj_check_whitespace (p.source_file.content p.current_position) = false)
    (h2 : cj_check_line_terminator (p.source_file.content p.current_position) = false) :
    cj_skip_whitespaces p = p := by
  unfold cj_skip_whitespaces
  cases p.source_file.content_length - p.current_position with
  | zero => rfl
  | succ n => simp [cj_skip_whitespaces_loop, h1, h2]

/-! ### End of file -/

theorem cj_read_next_token_at_end (p : cj_tokenization_process)
    (h : p.current_position ≥ p.source_file.content_length) :
    cj_read_next_token p = some (
      { type := cj_token_type.END_OF_FILE, value_length := 0, value := [],
        start := cj_fixate_current_position p, end_ := cj_fixate_current_position p }, p) := by
  unfold cj_read_next_token
  simp only [cj_skip_whitespaces_at_end p h]
  simp [cj_read_next_token_skipped, h, cj_token_value_init, cj_new_token]

/-- C1. Longest match for the operator of three `>`: whenever the three code points at the
cursor that the whitespace skip leaves are `>>>` and lie inside the buffer,
`cj_read_next_token` returns a `PUNCTUATOR` with text `>>>` and leaves the cursor three
positions after the skipped whitespace, line bookkeeping as the skip left it.  In particular a
buffer that is `>>>` alone is tokenized by the driver loop as that punctuator followed by
`END_OF_FILE`. -/
theorem C1_longest_match_three (p q : cj_tokenization_process)
    (hq : q = cj_skip_whitespaces p)
    (hlen : q.current_position + 3 ≤ p.source_file.content_length)
    (h : cj_slice p.source_file q.current_position 3 = [0x3E, 0x3E, 0x3E]) :
    (∃ token, cj_read_next_token p
        = some (token, { q with current_position := q.current_position + 3 })
      ∧ token.type = cj_token_type.PUNCTUATOR ∧ token.value = [0x3E, 0x3E, 0x3E])
    ∧ (∀ (f : cj_source_file) (fuel : Nat), f.content_length = 3 →
        cj_slice f 0 3 = [0x3E, 0x3E, 0x3E] →
        ∃ first last, main_loop (fuel + 2) (cj_initial_process f) = Except.ok [first, last]
          ∧ first.type = cj_token_type.PUNCTUATOR ∧ first.value = [0x3E, 0x3E, 0x3E]
          ∧ last.type = cj_token_type.END_OF_FILE ∧ last.value = []) := by
  refine ⟨⟨_, cj_read_next_token_three p q hq hlen h, rfl, rfl⟩, ?_⟩
  intro f fuel hf hs
  have h0 : f.content 0 = 0x3E := ((cj_slice_three f 0 _ _ _).1 hs).1
  have hskip : cj_skip_whitespaces (cj_initial_process f) = cj_initial_process f :=
    cj_skip_whitespaces_at_other _
      (by simp [cj_initial_process, h0, cj_check_whitespace])
      (by simp [cj_initial_process, h0, cj_check_line_terminator])
  have hfirst := cj_read_next_token_three (cj_initial_process f) (cj_initial_process f)
    hskip.symm (by simp [cj_initial_process, hf]) (by simpa [cj_initial_process] using hs)
  have hm : main_loop (fuel + 2) (cj_initial_process f) = Except.ok
      [{ type := cj_token_type.PUNCTUATOR, value_length := 0, value := [0x3E, 0x3E, 0x3E],
         start := ⟨0, 0, 0⟩, end_ := ⟨3, 0, 3⟩ },
       { type := cj_token_type.END_OF_FILE, value_length := 0, value := [],
         start := ⟨3, 0, 3⟩, end_ := ⟨3, 0, 3⟩ }] := by
    rw [main_loop, hfirst]
    simp [main_loop, cj_read_next_token_at_end, cj_initial_process, hf,
      cj_fixate_current_position]
  exact ⟨_, _, hm, rfl, rfl, rfl, rfl⟩

/-- A witness of C1: in the buffer ` >>>` the whitespace skip stops at index `1`, where the
operator starts. -/
theorem C1_longest_match_three_witness :
    (cj_skip_whitespaces (cj_initial_process (cj_source_of [0x20, 0x3E, 0x3E, 0x3E] 0))).current_position = 1
    ∧ ∃ token, cj_read_next_token (cj_initial_process (cj_source_of [0x20, 0x3E, 0x3E, 0x3E] 0))
        = some (token,
          { cj_skip_whitespaces (cj_initial_process (cj_source_of [0x20, 0x3E, 0x3E, 0x3E] 0)) with
            current_position := 1 + 3 })
      ∧ token.type = cj_token_type.PUNCTUATOR ∧ token.value = [0x3E, 0x3E, 0x3E] :=
  ⟨by decide, (C1_longest_match_three
    (cj_initial_process (cj_source_of [0x20, 0x3E, 0x3E, 0x3E] 0)) _ rfl (by decide) (by decide)).1⟩

/-! ### Wide-string comparisons against literals -/

theorem wcs_eq_self (w : List Nat) (h : ∀ c ∈ w, c ≠ 0) : wcs w = w := by
  unfold wcs
  rw [List.takeWhile_eq_self_iff]
  intro c hc
  simpa using h c hc

theorem wcscmp_eq_of_nonzero (w l : List Nat) (hw : ∀ c ∈ w, c ≠ 0) (hl : ∀ c ∈ l, c ≠ 0) :
    wcscmp_eq w l = decide (w = l) := by
  unfold wcscmp_eq
  rw [wcs_eq_self w hw, wcs_eq_self l hl]
  by_cases h : w = l <;> simp [h]

theorem wcscmp_eq_three (a b c : Nat) :
    wcscmp_eq [a, b, c] [0x3E, 0x3E, 0x3E] = true ↔ a = 0x3E ∧ b = 0x3E ∧ c = 0x3E := by
  by_cases ha : a = 0 <;> by_cases hb : b = 0 <;> by_cases hc : c = 0 <;>
    simp [wcscmp_eq, wcs, List.takeWhile_cons, ha, hb, hc]

theorem wcscmp_eq_two (a b : Nat) :
    wcscmp_eq [a, b] [0x21, 0x3D] = true ↔ a = 0x21 ∧ b = 0x3D := by
  by_cases ha : a = 0 <;> by_cases hb : b = 0 <;>
    simp [wcscmp_eq, wcs, List.takeWhile_cons, ha, hb]

theorem wcschr_found_iff (s : List Nat) (c : Nat) (hs : ∀ x ∈ s, x ≠ 0) :
    wcschr_found s c = true ↔ c ∈ s ∨ c = 0 := by
  simp [wcschr_found, wcs_eq_self s hs]

/-- The dispatch of `cj_read_next_token` reaches `cj_scan_punctuator` on a code point that is
no comment start, letter, digit or quote. -/
theorem cj_read_next_token_punctuator (p q : cj_tokenization_process)
    (hq : q = cj_skip_whitespaces p)
    (hlt : q.current_position < q.source_file.content_length)
    (h1 : cj_check_comment_start (q.source_file.content q.current_position) = false)
    (h2 : cj_check_alpha (q.source_file.content q.current_position) = false)
    (h3 : cj_check_numeric (q.source_file.content q.current_position) = false)
    (h4 : cj_check_character_quote (q.source_file.content q.current_position) = false)
    (h5 : cj_check_string_quote (q.source_file.content q.current_position) = false) :
    cj_read_next_token p =
      match cj_scan_punctuator (cj_new_token (cj_fixate_current_position p)) q with
      | none => none
      | some (token, process) =>
        some ({ token with end_ := cj_fixate_current_position process }, process) := by
  unfold cj_read_next_token
  simp only [← hq]
  have hge : ¬ q.current_position ≥ q.source_file.content_length := by omega
  simp [cj_read_next_token_skipped, hge, h1, h2, h3, h4, h5, cj_check_identifier_start]

/-- C2. Two-character and single-character operators: when the cursor left by the whitespace
skip is inside the buffer and `>>>` does not start there, then (a) if the next two code points
lie inside the buffer and are one of `!=`, `<<`, `>>`, `&&`, `||`, `==`, the token is a
`PUNCTUATOR` with exactly these two code points as text and the position advances by two; and
(b) if the code point at the cursor is one of `< > = ! & |` and the next two code points are
none of the six operators, or only one code point remains, the token is a `PUNCTUATOR` with
that code point as text and the position advances by one. -/
theorem C2_two_and_one_character_operators (p q : cj_tokenization_process)
    (hq : q = cj_skip_whitespaces p)
    (hlt : q.current_position < p.source_file.content_length)
    (hno3 : ¬ (q.current_position + 3 ≤ p.source_file.content_length
      ∧ cj_slice p.source_file q.current_position 3 = [0x3E, 0x3E, 0x3E])) :
    (q.current_position + 2 ≤ p.source_file.content_length →
      cj_slice p.source_file q.current_position 2 ∈ spec_two_character_operators →
      ∃ token, cj_read_next_token p
          = some (token, { q with current_position := q.current_position + 2 })
        ∧ token.type = cj_token_type.PUNCTUATOR
        ∧ token.value = cj_slice p.source_file q.current_position 2)
    ∧ (p.source_file.content q.current_position ∈ spec_single_character_operators →
      (q.current_position + 2 ≤ p.source_file.content_length →
        cj_slice p.source_file q.current_position 2 ∉ spec_two_character_operators) →
      ∃ token, cj_read_next_token p
          = some (token, { q with current_position := q.current_position + 1 })
        ∧ token.type = cj_token_type.PUNCTUATOR
        ∧ token.value = [p.source_file.content q.current_position]) := by
  have hs : q.source_file = p.source_file := by rw [hq]; exact cj_skip_whitespaces_source_file p
  rw [← hs] at hlt hno3 ⊢
  rw [cj_slice_three] at hno3
  generalize hc0 : q.source_file.content q.current_position = c0 at *
  generalize hc1 : q.source_file.content (q.current_position + 1) = c1 at *
  generalize hc2 : q.source_file.content (q.current_position + 2) = c2 at *
  constructor
  · intro hlen hmem
    have hpair : cj_slice q.source_file q.current_position 2 = [c0, c1] :=
      (cj_slice_two _ _ _ _).2 ⟨hc0, hc1⟩
    rw [hpair] at hmem ⊢
    have hl2 : q.source_file.content_length - q.current_position ≥ 2 := by omega
    have hcases : (c0 = 0x21 ∧ c1 = 0x3D) ∨ (c0 = 0x3C ∧ c1 = 0x3C) ∨ (c0 = 0x3E ∧ c1 = 0x3E)
        ∨ (c0 = 0x26 ∧ c1 = 0x26) ∨ (c0 = 0x7C ∧ c1 = 0x7C) ∨ (c0 = 0x3D ∧ c1 = 0x3D) := by
      simpa [spec_two_character_operators] using hmem
    have hread := cj_read_next_token_punctuator p q hq hlt
      (by rcases hcases with h | h | h | h | h | h <;> simp [hc0, h.1, cj_check_comment_start])
      (by rcases hcases with h | h | h | h | h | h <;> simp [hc0, h.1, cj_check_alpha])
      (by rcases hcases with h | h | h | h | h | h <;> simp [hc0, h.1, cj_check_numeric])
      (by rcases hcases with h | h | h | h | h | h <;>
        simp [hc0, h.1, cj_check_character_quote])
      (by rcases hcases with h | h | h | h | h | h <;> simp [hc0, h.1, cj_check_string_quote])
    rw [hread]
    have h3f : (decide (q.source_file.content_length - q.current_position ≥ 3)
        && wcscmp_eq [c0, c1, c2] [0x3E, 0x3E, 0x3E]) = false := by
      rw [Bool.eq_false_iff]
      intro h
      rw [Bool.and_eq_true, decide_eq_true_eq, wcscmp_eq_three] at h
      exact hno3 ⟨by omega, h.2⟩
    have hsw : cj_punctuator_cases.contains c0 = false := by
      rcases hcases with h | h | h | h | h | h <;> rw [h.1] <;> decide
    have h2t : (decide (q.source_file.content_length - q.current_position ≥ 2)
        && (wcscmp_eq [c0, c1] [0x21, 0x3D]
          || (wcschr_found [0x3C, 0x3E, 0x26, 0x7C, 0x3D] c0 && c0 == c1))) = true := by
      rw [Bool.and_eq_true, decide_eq_true_eq]
      refine ⟨hl2, ?_⟩
      rcases hcases with h | h | h | h | h | h <;> rw [h.1, h.2] <;> decide
    simp only [cj_scan_punctuator, hc0, hc1, hc2]
    simp only [hsw, h3f, h2t, Bool.false_eq_true, if_false, if_true]
    exact ⟨_, rfl, rfl, rfl⟩
  · intro hmem hnot
    have hpair : cj_slice q.source_file q.current_position 2 = [c0, c1] :=
      (cj_slice_two _ _ _ _).2 ⟨hc0, hc1⟩
    rw [hpair] at hnot
    have hcases : c0 = 0x3C ∨ c0 = 0x3E ∨ c0 = 0x3D ∨ c0 = 0x21 ∨ c0 = 0x26 ∨ c0 = 0x7C := by
      simpa [spec_single_character_operators] using hmem
    have hread := cj_read_next_token_punctuator p q hq hlt
      (by rcases hcases with h | h | h | h | h | h <;> simp [hc0, h, cj_check_comment_start])
      (by rcases hcases with h | h | h | h | h | h <;> simp [hc0, h, cj_check_alpha])
      (by rcases hcases with h | h | h | h | h | h <;> simp [hc0, h, cj_check_numeric])
      (by rcases hcases with h | h | h | h | h | h <;>
        simp [hc0, h, cj_check_character_quote])
      (by rcases hcases with h | h | h | h | h | h <;> simp [hc0, h, cj_check_string_quote])
    rw [hread]
    have h3f : (decide (q.source_file.content_length - q.current_position ≥ 3)
        && wcscmp_eq [c0, c1, c2] [0x3E, 0x3E, 0x3E]) = false := by
      rw [Bool.eq_false_iff]
      intro h
      rw [Bool.and_eq_true, decide_eq_true_eq, wcscmp_eq_three] at h
      exact hno3 ⟨by omega, h.2⟩
    have h2f : (decide (q.source_file.content_length - q.current_position ≥ 2)
        && (wcscmp_eq [c0, c1] [0x21, 0x3D]
          || (wcschr_found [0x3C, 0x3E, 0x26, 0x7C, 0x3D] c0 && c0 == c1))) = false := by
      rw [Bool.eq_false_iff]
      intro h
      rw [Bool.and_eq_true, decide_eq_true_eq, Bool.or_eq_true, wcscmp_eq_two,
        Bool.and_eq_true, beq_iff_eq] at h
      apply hnot (by omega)
      rcases h.2 with h2 | ⟨h2, h3⟩
      · simp [spec_two_character_operators, h2.1, h2.2]
      · subst h3
        rcases hcases with h | h | h | h | h | h <;> subst h
        all_goals first
          | (simp [spec_two_character_operators]; done)
          | simp [wcschr_found, wcs] at h2
    have hsw : cj_punctuator_cases.contains c0 = false := by
      rcases hcases with h | h | h | h | h | h <;> rw [h] <;> decide
    have h1t : wcschr_found [0x3C, 0x3E, 0x3D, 0x21, 0x26, 0x7C] c0 = true := by
      rcases hcases with h | h | h | h | h | h <;> rw [h] <;> decide
    simp only [cj_scan_punctuator, hc0, hc1, hc2]
    simp only [hsw, h3f, h2f, h1t, Bool.false_eq_true, if_false, if_true]
    exact ⟨_, rfl, rfl, rfl⟩

/-- A witness of C2: `==` alone is one two-character punctuator, and `<` followed by `=` is
the one-character punctuator `<`. -/
theorem C2_two_and_one_character_operators_witness :
    (∃ token, cj_read_next_token (cj_initial_process (cj_source_of [0x3D, 0x3D] 0))
        = some (token,
          { source_file := cj_source_of [0x3D, 0x3D] 0, current_position := 2,
            current_line_number := 0, current_line_start_position := 0 })
      ∧ token.type = cj_token_type.PUNCTUATOR ∧ token.value = [0x3D, 0x3D])
    ∧ (∃ token, cj_read_next_token (cj_initial_process (cj_source_of [0x3C, 0x3D] 0))
        = some (token,
          { source_file := cj_source_of [0x3C, 0x3D] 0, current_position := 1,
            current_line_number := 0, current_line_start_position := 0 })
      ∧ token.type = cj_token_type.PUNCTUATOR ∧ token.value = [0x3C]) :=
  ⟨(C2_two_and_one_character_operators (cj_initial_process (cj_source_of [0x3D, 0x3D] 0)) _ rfl
      (by decide) (by decide)).1 (by decide) (by decide),
    (C2_two_and_one_character_operators (cj_initial_process (cj_source_of [0x3C, 0x3D] 0)) _ rfl
      (by decide) (by decide)).2 (by decide) (by decide)⟩

/-! ### Identifiers and reserved words -/

theorem cj_token_update_nil (token : cj_token) :
    { token with value := token.value ++ [], value_length := token.value_length + 0 } = token := by
  cases token; simp

/-- The loop of `cj_scan_identifier` consumes a run of identifier parts that ends at the end
of the buffer or before a code point that is no identifier part. -/
theorem cj_scan_identifier_loop_run (rest : List Nat) :
    ∀ (fuel : Nat) (token : cj_token) (p : cj_tokenization_process),
      (∀ c ∈ rest, cj_check_identifier_part c = true) →
      cj_slice p.source_file p.current_position rest.length = rest →
      p.current_position + rest.length ≤ p.source_file.content_length →
      (p.current_position + rest.length = p.source_file.content_length
        ∨ cj_check_identifier_part
            (p.source_file.content (p.current_position + rest.length)) = false) →
      fuel ≥ p.source_file.content_length - p.current_position →
      cj_scan_identifier_loop fuel token p =
        ({ token with
            value := token.value ++ rest
            value_length := token.value_length + rest.length },
          { p with current_position := p.current_position + rest.length }) := by
  induction rest with
  | nil =>
    intro fuel token p _ _ _ hterm _
    simp only [List.length_nil, Nat.add_zero] at hterm ⊢
    rw [List.append_nil]
    cases fuel with
    | zero => rfl
    | succ n =>
      simp only [cj_scan_identifier_loop]
      split_ifs with h1 h2
      · rcases hterm with h | h
        · omega
        · rw [h] at h2; exact absurd h2 (by simp)
      · rfl
      · rfl
  | cons c rest ih =>
    intro fuel token p hpart hslice hlen hterm hfuel
    rw [List.length_cons, cj_slice_succ] at hslice
    rw [List.length_cons] at hlen hterm
    injection hslice with hc hrest
    cases fuel with
    | zero => omega
    | succ n =>
      simp only [cj_scan_identifier_loop]
      have h1 : p.current_position < p.source_file.content_length := by omega
      have h2 : cj_check_identifier_part (p.source_file.content p.current_position) = true := by
        rw [hc]; exact hpart c (List.mem_cons_self _ _)
      rw [if_pos h1, if_pos h2]
      rw [ih n _ _ (fun x hx => hpart x (List.mem_cons_of_mem _ hx)) hrest
        (by simp only []; omega)
        (by simp only []; rw [Nat.add_assoc, Nat.add_comm 1]; exact hterm)
        (by simp only []; omega)]
      simp [cj_token_value_append, hc, Nat.add_assoc, Nat.add_comm 1]

theorem spec_identifier_shaped_iff (w : List Nat) :
    spec_identifier_shaped w = true ↔
      ∃ first rest, w = first :: rest ∧ cj_check_alpha first = true ∧
        ∀ c ∈ rest, cj_check_alpha c = true ∨ cj_check_numeric c = true := by
  cases w with
  | nil => simp [spec_identifier_shaped]
  | cons first rest =>
    simp only [spec_identifier_shaped, Bool.and_eq_true, List.all_eq_true, Bool.or_eq_true]
    constructor
    · rintro ⟨hf, hr⟩
      exact ⟨first, rest, rfl, hf, hr⟩
    · rintro ⟨a, l, heq, hf, hr⟩
      injection heq with h1 h2
      subst h1 h2
      exact ⟨hf, hr⟩

/-- The wide string literals of the model are the code points of the words they stand for. -/
theorem wide_literals_spelled :
    L_let = "let".toList.map Char.toNat ∧ L_import = "import".toList.map Char.toNat
    ∧ L_from = "from".toList.map Char.toNat ∧ L_null = "null".toList.map Char.toNat
    ∧ L_true = "true".toList.map Char.toNat ∧ L_false = "false".toList.map Char.toNat := by
  decide

theorem spec_identifier_shaped_nonzero (w : List Nat) (h : spec_identifier_shaped w = true) :
    ∀ c ∈ w, c ≠ 0 := by
  obtain ⟨first, rest, rfl, hf, hr⟩ := (spec_identifier_shaped_iff w).1 h
  intro c hc
  rcases List.mem_cons.1 hc with rfl | hc
  · intro h0; subst h0; simp [cj_check_alpha] at hf
  · intro h0; subst h0
    rcases hr 0 hc with h | h
    · simp [cj_check_alpha] at h
    · simp [cj_check_numeric] at h

/-- The routine `cj_scan_identifier` on an identifier-shaped lexeme `w` that is a maximal run
at the cursor: the text is `w` and the kind is the classification of the whole lexeme. -/
theorem cj_scan_identifier_run (token : cj_token) (q : cj_tokenization_process) (w : List Nat)
    (hshape : spec_identifier_shaped w = true)
    (hlen : q.current_position + w.length ≤ q.source_file.content_length)
    (hslice : cj_slice q.source_file q.current_position w.length = w)
    (hterm : q.current_position + w.length = q.source_file.content_length
      ∨ cj_check_identifier_part
          (q.source_file.content (q.current_position + w.length)) = false) :
    cj_scan_identifier token q = some (
      { token with
        type := spec_classify w
        value := w
        value_length := token.value_length + w.length },
      { q with current_position := q.current_position + w.length }) := by
  have hnz := spec_identifier_shaped_nonzero w hshape
  obtain ⟨first, rest, rfl, hf, hr⟩ := (spec_identifier_shaped_iff w).1 hshape
  rw [List.length_cons] at hlen hterm
  rw [List.length_cons, cj_slice_succ] at hslice
  injection hslice with hc hrest
  have hloop := cj_scan_identifier_loop_run rest
    (q.source_file.content_length - (q.current_position + 1))
    (cj_token_value_append (cj_token_value_init token) (q.source_file.content q.current_position))
    { q with current_position := q.current_position + 1 }
    (fun c hc => by
      rcases hr c hc with h | h <;> simp [cj_check_identifier_part, h])
    hrest (by simp only []; omega)
    (by simp only []; rw [Nat.add_assoc, Nat.add_comm 1]; exact hterm)
    (le_refl _)
  have hf' : cj_check_identifier_start (q.source_file.content q.current_position) = true := by
    rw [hc]; exact hf
  simp only [cj_scan_identifier, hf', Bool.not_true, Bool.false_eq_true, if_false, hloop]
  simp only [cj_token_value_append, cj_token_value_init, List.nil_append,
    List.singleton_append, hc]
  rw [wcscmp_eq_of_nonzero _ L_let hnz (by decide), wcscmp_eq_of_nonzero _ L_import hnz (by decide),
    wcscmp_eq_of_nonzero _ L_from hnz (by decide), wcscmp_eq_of_nonzero _ L_null hnz (by decide),
    wcscmp_eq_of_nonzero _ L_true hnz (by decide), wcscmp_eq_of_nonzero _ L_false hnz (by decide)]
  simp only [spec_classify, Bool.or_eq_true, decide_eq_true_eq, or_assoc]
  split_ifs <;> simp [Nat.add_assoc, Nat.add_comm 1]

/-- The dispatch of `cj_read_next_token` reaches `cj_scan_identifier` on a letter. -/
theorem cj_read_next_token_alpha (p q : cj_tokenization_process)
    (hq : q = cj_skip_whitespaces p)
    (hlt : q.current_position < q.source_file.content_length)
    (h : cj_check_alpha (q.source_file.content q.current_position) = true) :
    cj_read_next_token p =
      match cj_scan_identifier (cj_new_token (cj_fixate_current_position p)) q with
      | none => none
      | some (token, process) =>
        some ({ token with end_ := cj_fixate_current_position process }, process) := by
  unfold cj_read_next_token
  simp only [← hq]
  have hge : ¬ q.current_position ≥ q.source_file.content_length := by omega
  have h1 : cj_check_comment_start (q.source_file.content q.current_position) = false := by
    simp only [cj_check_comment_start, beq_eq_false_iff_ne]
    intro h0; rw [h0] at h; simp [cj_check_alpha] at h
  simp [cj_read_next_token_skipped, hge, h1, h, cj_check_identifier_start]

/-- On an identifier-shaped lexeme `w` that is a maximal run at the cursor left by the
whitespace skip, `cj_read_next_token` returns the token with text `w` whose kind is the
classification of the whole lexeme. -/
theorem cj_read_next_token_identifier (p q : cj_tokenization_process) (w : List Nat)
    (hq : q = cj_skip_whitespaces p)
    (hshape : spec_identifier_shaped w = true)
    (hlen : q.current_position + w.length ≤ p.source_file.content_length)
    (hslice : cj_slice p.source_file q.current_position w.length = w)
    (hterm : q.current_position + w.length = p.source_file.content_length
      ∨ cj_check_identifier_part
          (p.source_file.content (q.current_position + w.length)) = false) :
    cj_read_next_token p = some (
      { type := spec_classify w, value_length := w.length, value := w,
        start := cj_fixate_current_position p,
        end_ := cj_fixate_current_position
          { q with current_position := q.current_position + w.length } },
      { q with current_position := q.current_position + w.length }) := by
  have hs : q.source_file = p.source_file := by rw [hq]; exact cj_skip_whitespaces_source_file p
  rw [← hs] at hlen hslice hterm
  have hpos : 0 < w.length := by
    obtain ⟨first, rest, rfl, -, -⟩ := (spec_identifier_shaped_iff w).1 hshape
    simp
  have halpha : cj_check_alpha (q.source_file.content q.current_position) = true := by
    obtain ⟨first, rest, rfl, hf, -⟩ := (spec_identifier_shaped_iff w).1 hshape
    rw [List.length_cons, cj_slice_succ] at hslice
    injection hslice with hc _
    rw [hc]; exact hf
  rw [cj_read_next_token_alpha p q hq (by omega) halpha,
    cj_scan_identifier_run _ q w hshape hlen hslice hterm]
  simp [cj_new_token]

theorem spec_classify_not_reserved (w : List Nat) (h : w ∉ spec_reserved_words) :
    spec_classify w = cj_token_type.IDENTIFIER := by
  simp only [spec_reserved_words, List.mem_cons, List.mem_singleton, List.not_mem_nil,
    or_false, not_or] at h
  simp [spec_classify, h]

theorem spec_reserved_words_extension (r s : List Nat) (hr : r ∈ spec_reserved_words)
    (hs : s ≠ []) : r ++ s ∉ spec_reserved_words := by
  simp only [spec_reserved_words, List.mem_cons, List.mem_singleton, List.not_mem_nil,
    or_false] at hr ⊢
  rcases hr with rfl | rfl | rfl | rfl | rfl | rfl <;>
    simp [L_let, L_import, L_from, L_null, L_true, L_false, hs]

/-- C3. Every identifier-shaped lexeme `w` (a letter followed by letters or digits) that is
not one of `let`, `import`, `from`, `null`, `true`, `false`, and that stands at the cursor left
by the whitespace skip followed by the end of the buffer or by a code point that is neither
letter nor digit, is returned by `cj_read_next_token` as an `IDENTIFIER` with text `w`. -/
theorem C3_identifier (p q : cj_tokenization_process) (w : List Nat)
    (hq : q = cj_skip_whitespaces p)
    (hshape : spec_identifier_shaped w = true)
    (hnot : w ∉ spec_reserved_words)
    (hlen : q.current_position + w.length ≤ p.source_file.content_length)
    (hslice : cj_slice p.source_file q.current_position w.length = w)
    (hterm : q.current_position + w.length = p.source_file.content_length
      ∨ (cj_check_alpha (p.source_file.content (q.current_position + w.length)) = false
        ∧ cj_check_numeric (p.source_file.content (q.current_position + w.length)) = false)) :
    ∃ token, cj_read_next_token p
        = some (token, { q with current_position := q.current_position + w.length })
      ∧ token.type = cj_token_type.IDENTIFIER ∧ token.value = w := by
  refine ⟨_, cj_read_next_token_identifier p q w hq hshape hlen hslice ?_,
    spec_classify_not_reserved w hnot, rfl⟩
  rcases hterm with h | ⟨h1, h2⟩
  · exact Or.inl h
  · exact Or.inr (by simp [cj_check_identifier_part, h1, h2])

/-- A witness of C3: in the buffer `letx` followed by a space the lexeme `letx` is an
identifier. -/
theorem C3_identifier_witness :
    spec_identifier_shaped [0x6C, 0x65, 0x74, 0x78] = true
    ∧ [0x6C, 0x65, 0x74, 0x78] ∉ spec_reserved_words
    ∧ ∃ token, cj_read_next_token
          (cj_initial_process (cj_source_of [0x6C, 0x65, 0x74, 0x78, 0x20] 0))
        = some (token,
          { source_file := cj_source_of [0x6C, 0x65, 0x74, 0x78, 0x20] 0, current_position := 4,
            current_line_number := 0, current_line_start_position := 0 })
      ∧ token.type = cj_token_type.IDENTIFIER ∧ token.value = [0x6C, 0x65, 0x74, 0x78] :=
  ⟨by decide, by decide,
    C3_identifier (cj_initial_process (cj_source_of [0x6C, 0x65, 0x74, 0x78, 0x20] 0)) _
      [0x6C, 0x65, 0x74, 0x78] rfl (by decide) (by decide) (by decide)
      (by decide) (Or.inr (by decide))⟩

/-- C4. Reserved-word reclassification: when the maximal letter/digit run `w` at the cursor
left by the whitespace skip is exactly `let`, `import` or `from`, the token is a `KEYWORD`;
when it is exactly `null`, a `NULL_LITERAL`; when it is exactly `true` or `false`, a
`BOOLEAN_LITERAL`; the text is `w` in each case.  The comparison is on the whole lexeme and on
the exact code points: every other run is an `IDENTIFIER`, in particular one that extends a
reserved word by at least one more letter or digit. -/
theorem C4_reserved_words (p q : cj_tokenization_process) (w : List Nat)
    (hq : q = cj_skip_whitespaces p)
    (hshape : spec_identifier_shaped w = true)
    (hlen : q.current_position + w.length ≤ p.source_file.content_length)
    (hslice : cj_slice p.source_file q.current_position w.length = w)
    (hterm : q.current_position + w.length = p.source_file.content_length
      ∨ (cj_check_alpha (p.source_file.content (q.current_position + w.length)) = false
        ∧ cj_check_numeric (p.source_file.content (q.current_position + w.length)) = false)) :
    ∃ token, cj_read_next_token p
        = some (token, { q with current_position := q.current_position + w.length })
      ∧ token.value = w
      ∧ (w = L_let ∨ w = L_import ∨ w = L_from → token.type = cj_token_type.KEYWORD)
      ∧ (w = L_null → token.type = cj_token_type.NULL_LITERAL)
      ∧ (w = L_true ∨ w = L_false → token.type = cj_token_type.BOOLEAN_LITERAL)
      ∧ (w ∉ spec_reserved_words → token.type = cj_token_type.IDENTIFIER)
      ∧ (∀ r s, r ∈ spec_reserved_words → s ≠ [] → w = r ++ s →
          token.type = cj_token_type.IDENTIFIER) := by
  refine ⟨_, cj_read_next_token_identifier p q w hq hshape hlen hslice ?_, rfl, ?_, ?_, ?_,
    spec_classify_not_reserved w, ?_⟩
  · rcases hterm with h | ⟨h1, h2⟩
    · exact Or.inl h
    · exact Or.inr (by simp [cj_check_identifier_part, h1, h2])
  · intro h
    simp [spec_classify, h]
  · rintro rfl
    show spec_classify L_null = cj_token_type.NULL_LITERAL
    decide
  · rintro (rfl | rfl)
    · show spec_classify L_true = cj_token_type.BOOLEAN_LITERAL
      decide
    · show spec_classify L_false = cj_token_type.BOOLEAN_LITERAL
      decide
  · rintro r s hr hs rfl
    exact spec_classify_not_reserved _ (spec_reserved_words_extension r s hr hs)

/-- A witness of C4: the buffer `true` alone is a boolean literal. -/
theorem C4_reserved_words_witness :
    ∃ token, cj_read_next_token (cj_initial_process (cj_source_of L_true 0))
        = some (token,
          { source_file := cj_source_of L_true 0, current_position := 4,
            current_line_number := 0, current_line_start_position := 0 })
      ∧ token.value = L_true ∧ token.type = cj_token_type.BOOLEAN_LITERAL :=
  have h := C4_reserved_words (cj_initial_process (cj_source_of L_true 0)) _ L_true rfl
    (by decide) (by decide) (by decide) (Or.inl (by decide))
  h.imp fun _ ht => ⟨ht.1, ht.2.1, ht.2.2.2.2.1 (Or.inl rfl)⟩

/-! ### Whitespace-only buffers -/

/-- On a stretch of buffer that holds only spaces and line feeds up to its end, the loop of
`cj_skip_whitespaces` runs to the end of the buffer and counts the line feeds. -/
theorem cj_skip_whitespaces_loop_all (fuel : Nat) :
    ∀ (p : cj_tokenization_process),
      (∀ i, p.current_position ≤ i → i < p.source_file.content_length →
        p.source_file.content i = 0x20 ∨ p.source_file.content i = 0x0A) →
      p.current_position ≤ p.source_file.content_length →
      fuel ≥ p.source_file.content_length - p.current_position →
      (cj_skip_whitespaces_loop fuel p).current_position = p.source_file.content_length
      ∧ (cj_skip_whitespaces_loop fuel p).current_line_number
          = p.current_line_number
            + (cj_slice p.source_file p.current_position
                (p.source_file.content_length - p.current_position)).count 0x0A := by
  induction fuel with
  | zero =>
    intro p _ hle hfuel
    have h0 : p.source_file.content_length - p.current_position = 0 := by omega
    simp only [cj_skip_whitespaces_loop, h0, cj_slice_zero, List.count_nil, Nat.add_zero,
      and_true]
    omega
  | succ n ih =>
    intro p hall hle hfuel
    simp only [cj_skip_whitespaces_loop]
    by_cases hlt : p.current_position < p.source_file.content_length
    · have hsplit : p.source_file.content_length - p.current_position
          = (p.source_file.content_length - (p.current_position + 1)) + 1 := by omega
      rw [if_pos hlt, hsplit, cj_slice_succ]
      rcases hall p.current_position (le_refl _) hlt with h | h
      · have hw : cj_check_whitespace (p.source_file.content p.current_position) = true := by
          simp [cj_check_whitespace, h]
        rw [if_pos hw]
        have := ih { p with current_position := p.current_position + 1 }
          (fun i hi hi2 => hall i (by simp only [] at hi; omega) hi2)
          (by simp only []; omega) (by simp only []; omega)
        simp only [] at this
        rw [this.1, this.2, h]
        simp
      · have hw : cj_check_whitespace (p.source_file.content p.current_position) = false := by
          simp [cj_check_whitespace, h]
        have hl : cj_check_line_terminator (p.source_file.content p.current_position)
            = true := by
          simp [cj_check_line_terminator, h]
        rw [hw, if_neg (by simp), if_pos hl]
        have := ih { p with
            current_position := p.current_position + 1
            current_line_number := p.current_line_number + 1
            current_line_start_position := p.current_position + 1 }
          (fun i hi hi2 => hall i (by simp only [] at hi; omega) hi2)
          (by simp only []; omega) (by simp only []; omega)
        simp only [] at this
        rw [this.1, this.2, h]
        simp
        omega
    · have h0 : p.source_file.content_length - p.current_position = 0 := by omega
      rw [if_neg hlt, h0]
      simp only [cj_slice_zero, List.count_nil, Nat.add_zero, and_true]
      omega

/-- The driver loop on a buffer of spaces and line feeds only: one `END_OF_FILE` token, whose
start is the initial cursor and whose end is the end of the buffer. -/
theorem main_loop_whitespace_only (f : cj_source_file) (fuel : Nat)
    (hws : ∀ i, i < f.content_length → f.content i = 0x20 ∨ f.content i = 0x0A) :
    main_loop (fuel + 1) (cj_initial_process f) = Except.ok
      [{ type := cj_token_type.END_OF_FILE, value_length := 0, value := [],
         start := ⟨0, 0, 0⟩,
         end_ := cj_fixate_current_position (cj_skip_whitespaces (cj_initial_process f)) }]
    ∧ (cj_skip_whitespaces (cj_initial_process f)).current_position = f.content_length
    ∧ (cj_skip_whitespaces (cj_initial_process f)).current_line_number
        = (cj_slice f 0 f.content_length).count 0x0A := by
  have hskip := cj_skip_whitespaces_loop_all (f.content_length - 0) (cj_initial_process f)
    (fun i _ hi => hws i hi) (Nat.zero_le _) (le_refl _)
  have hsf := cj_skip_whitespaces_source_file (cj_initial_process f)
  have hpos : (cj_skip_whitespaces (cj_initial_process f)).current_position
      = f.content_length := hskip.1
  have hline : (cj_skip_whitespaces (cj_initial_process f)).current_line_number
      = (cj_slice f 0 f.content_length).count 0x0A := by
    have := hskip.2
    simpa [cj_initial_process] using this
  refine ⟨?_, hpos, hline⟩
  have hread : cj_read_next_token (cj_initial_process f) = some (
      { type := cj_token_type.END_OF_FILE, value_length := 0, value := [],
        start := ⟨0, 0, 0⟩,
        end_ := cj_fixate_current_position (cj_skip_whitespaces (cj_initial_process f)) },
      cj_skip_whitespaces (cj_initial_process f)) := by
    unfold cj_read_next_token
    have hge : (cj_skip_whitespaces (cj_initial_process f)).current_position
        ≥ (cj_skip_whitespaces (cj_initial_process f)).source_file.content_length := by
      rw [hsf, hpos]; exact le_refl _
    simp only [cj_read_next_token_skipped, if_pos hge]
    simp [cj_new_token, cj_token_value_init, cj_fixate_current_position, cj_initial_process]
  rw [main_loop, hread]
  simp

/-- C5 (amended). For every buffer consisting only of spaces and line feeds, the empty buffer
included, the driver loop yields exactly one token, of kind `END_OF_FILE` with empty text; its
end position has the number of line feeds of the buffer as line and the buffer length as
offset, while its start position is the initial cursor (offset 0, line 0, column 0), taken
before the whitespace is skipped. -/
theorem C5_whitespace_only (f : cj_source_file) (fuel : Nat)
    (hws : ∀ i, i < f.content_length → f.content i = 0x20 ∨ f.content i = 0x0A) :
    ∃ token, main_loop (fuel + 1) (cj_initial_process f) = Except.ok [token]
      ∧ token.type = cj_token_type.END_OF_FILE ∧ token.value = []
      ∧ token.start = ⟨0, 0, 0⟩
      ∧ token.end_.line = (cj_slice f 0 f.content_length).count 0x0A
      ∧ token.end_.position = f.content_length := by
  obtain ⟨hm, hpos, hline⟩ := main_loop_whitespace_only f fuel hws
  exact ⟨_, hm, rfl, rfl, rfl, hline, hpos⟩

/-- A witness of C5: a space, a line feed, a line feed. -/
theorem C5_whitespace_only_witness :
    ∃ token, main_loop 1 (cj_initial_process (cj_source_of [0x20, 0x0A, 0x0A] 0))
        = Except.ok [token]
      ∧ token.type = cj_token_type.END_OF_FILE ∧ token.value = []
      ∧ token.start = ⟨0, 0, 0⟩
      ∧ token.end_.line = 2
      ∧ token.end_.position = 3 :=
  C5_whitespace_only (cj_source_of [0x20, 0x0A, 0x0A] 0) 0 (by decide)

/-- C5 as stated fails on the buffer that holds one line feed: no run of the driver loop
yields a single `END_OF_FILE` token whose start line is the number of line feeds, `1`; the
start line is `0`. -/
theorem C5_counterexample :
    ¬ ∃ fuel token, main_loop fuel (cj_initial_process (cj_source_of [0x0A] 0))
        = Except.ok [token]
      ∧ token.type = cj_token_type.END_OF_FILE ∧ token.value = []
      ∧ token.start.line = (cj_slice (cj_source_of [0x0A] 0) 0 1).count 0x0A
      ∧ token.end_.line = (cj_slice (cj_source_of [0x0A] 0) 0 1).count 0x0A
      ∧ token.end_.position = 1 := by
  rintro ⟨fuel, token, hm, -, -, hstart, -, -⟩
  cases fuel with
  | zero => simp [main_loop] at hm
  | succ n =>
    rw [(main_loop_whitespace_only (cj_source_of [0x0A] 0) n (by decide)).1] at hm
    injection hm with hm
    injection hm with hm
    subst hm
    revert hstart
    decide

theorem cj_read_nth_at_end (p : cj_tokenization_process)
    (h : p.current_position ≥ p.source_file.content_length) (n : Nat) :
    cj_read_nth n p = cj_read_next_token p := by
  induction n with
  | zero => rfl
  | succ n ih =>
    rw [cj_read_nth, cj_read_next_token_at_end p h]
    simp only []
    rw [ih, cj_read_next_token_at_end p h]

/-- C6. `END_OF_FILE` is absorbing: on every cursor whose position is at or past the buffer
length, `cj_read_next_token` returns an `END_OF_FILE` token with empty text and start equal to
end, and leaves the cursor (position, line number, line start position) as it was; so each
later call returns the same token again. -/
theorem C6_end_of_file_absorbing (p : cj_tokenization_process)
    (h : p.current_position ≥ p.source_file.content_length) :
    ∃ token, cj_read_next_token p = some (token, p)
      ∧ token.type = cj_token_type.END_OF_FILE ∧ token.value = []
      ∧ token.start = token.end_
      ∧ ∀ n, cj_read_nth n p = some (token, p) := by
  refine ⟨_, cj_read_next_token_at_end p h, rfl, rfl, rfl, fun n => ?_⟩
  rw [cj_read_nth_at_end p h n, cj_read_next_token_at_end p h]

/-- A witness of C6: a cursor at position `5`, line `2`, line start `3`, on a buffer of length
one. -/
theorem C6_end_of_file_absorbing_witness :
    ∃ token, cj_read_next_token
          { source_file := cj_source_of [0x61] 0, current_position := 5,
            current_line_number := 2, current_line_start_position := 3 }
        = some (token,
          { source_file := cj_source_of [0x61] 0, current_position := 5,
            current_line_number := 2, current_line_start_position := 3 })
      ∧ token.type = cj_token_type.END_OF_FILE ∧ token.value = []
      ∧ token.start = token.end_
      ∧ ∀ n, cj_read_nth n
          { source_file := cj_source_of [0x61] 0, current_position := 5,
            current_line_number := 2, current_line_start_position := 3 }
        = some (token,
          { source_file := cj_source_of [0x61] 0, current_position := 5,
            current_line_number := 2, current_line_start_position := 3 }) :=
  C6_end_of_file_absorbing
    { source_file := cj_source_of [0x61] 0, current_position := 5,
      current_line_number := 2, current_line_start_position := 3 } (by decide)

/-! ### Comments -/

/-- The loop of `cj_scan_comment` consumes the code points up to the next line feed or the
end of the buffer and appends them to the text. -/
theorem cj_scan_comment_loop_spec (fuel : Nat) :
    ∀ (token : cj_token) (p : cj_tokenization_process),
      p.current_position ≤ p.source_file.content_length →
      fuel ≥ p.source_file.content_length - p.current_position →
      ∃ n, p.current_position + n ≤ p.source_file.content_length
        ∧ (∀ c ∈ cj_slice p.source_file p.current_position n, c ≠ 0x0A)
        ∧ (p.current_position + n = p.source_file.content_length
          ∨ p.source_file.content (p.current_position + n) = 0x0A)
        ∧ cj_scan_comment_loop fuel token p =
          ({ token with
              value := token.value ++ cj_slice p.source_file p.current_position n
              value_length := token.value_length + n },
            { p with current_position := p.current_position + n }) := by
  induction fuel with
  | zero =>
    intro token p hle hfuel
    refine ⟨0, by omega, by simp [cj_slice_zero], Or.inl (by omega), ?_⟩
    simp [cj_scan_comment_loop, cj_slice_zero]
  | succ k ih =>
    intro token p hle hfuel
    simp only [cj_scan_comment_loop]
    by_cases hlt : p.current_position < p.source_file.content_length
    · rw [if_pos hlt]
      by_cases hl : cj_check_line_terminator (p.source_file.content p.current_position) = true
      · rw [if_pos hl]
        refine ⟨0, by omega, by simp [cj_slice_zero], Or.inr ?_, by simp [cj_slice_zero]⟩
        simpa [cj_check_line_terminator] using hl
      · rw [if_neg hl]
        obtain ⟨n, hn1, hn2, hn3, hn4⟩ :=
          ih (cj_token_value_append token (p.source_file.content p.current_position))
            { p with current_position := p.current_position + 1 }
            (by simp only []; omega) (by simp only []; omega)
        simp only [] at hn1 hn2 hn3 hn4
        refine ⟨n + 1, by omega, ?_, ?_, ?_⟩
        · rw [cj_slice_succ]
          intro c hc
          rcases List.mem_cons.1 hc with rfl | hc
          · simpa [cj_check_line_terminator] using hl
          · exact hn2 c hc
        · rw [← Nat.add_assoc, Nat.add_right_comm]; exact hn3
        · rw [hn4, cj_slice_succ]
          simp [cj_token_value_append, Nat.add_assoc, Nat.add_comm 1]
    · rw [if_neg hlt]
      refine ⟨0, by omega, by simp [cj_slice_zero], Or.inl (by omega), by simp [cj_slice_zero]⟩

/-- The dispatch of `cj_read_next_token` reaches `cj_scan_comment` on `#`. -/
theorem cj_read_next_token_comment_start (p q : cj_tokenization_process)
    (hq : q = cj_skip_whitespaces p)
    (hlt : q.current_position < q.source_file.content_length)
    (h : q.source_file.content q.current_position = 0x23) :
    cj_read_next_token p =
      match cj_scan_comment (cj_new_token (cj_fixate_current_position p)) q with
      | none => none
      | some (token, process) =>
        some ({ token with end_ := cj_fixate_current_position process }, process) := by
  unfold cj_read_next_token
  simp only [← hq]
  have hge : ¬ q.current_position ≥ q.source_file.content_length := by omega
  simp [cj_read_next_token_skipped, hge, h, cj_check_comment_start]

/-- C7. When the cursor left by the whitespace skip is at `#`, `cj_read_next_token` returns a
`COMMENT` token whose text is exactly the `n` code points that follow the `#`, where `n` is
the distance from there to the next line feed, or to the end of the buffer if there is none:
the text starts after the `#`, holds no line feed, and the cursor is left on the line feed (or
at the end of the buffer) with the line number and line start position unchanged. -/
theorem C7_comment (p q : cj_tokenization_process)
    (hq : q = cj_skip_whitespaces p)
    (hlt : q.current_position < p.source_file.content_length)
    (hhash : p.source_file.content q.current_position = 0x23) :
    ∃ n token, q.current_position + 1 + n ≤ p.source_file.content_length
      ∧ (q.current_position + 1 + n = p.source_file.content_length
        ∨ p.source_file.content (q.current_position + 1 + n) = 0x0A)
      ∧ cj_read_next_token p
        = some (token, { q with current_position := q.current_position + 1 + n })
      ∧ token.type = cj_token_type.COMMENT
      ∧ token.value = cj_slice p.source_file (q.current_position + 1) n
      ∧ 0x0A ∉ token.value := by
  have hs : q.source_file = p.source_file := by rw [hq]; exact cj_skip_whitespaces_source_file p
  rw [← hs] at hlt hhash ⊢
  obtain ⟨n, hn1, hn2, hn3, hn4⟩ := cj_scan_comment_loop_spec
    (q.source_file.content_length - (q.current_position + 1))
    (cj_token_value_init (cj_new_token (cj_fixate_current_position p)))
    { q with current_position := q.current_position + 1 }
    (by simp only []; omega) (le_refl _)
  simp only [] at hn1 hn2 hn3 hn4
  have hread : cj_read_next_token p = some (
      { type := cj_token_type.COMMENT, value_length := n,
        value := cj_slice q.source_file (q.current_position + 1) n,
        start := cj_fixate_current_position p,
        end_ := cj_fixate_current_position
          { q with current_position := q.current_position + 1 + n } },
      { q with current_position := q.current_position + 1 + n }) := by
    rw [cj_read_next_token_comment_start p q hq hlt hhash]
    simp only [cj_scan_comment, hhash, cj_check_comment_start, beq_self_eq_true, Bool.not_true,
      Bool.false_eq_true, if_false, hn4]
    simp [cj_token_value_init, cj_new_token]
  exact ⟨n, _, hn1, hn3, hread, rfl, rfl, fun hmem => hn2 _ hmem rfl⟩

/-- A witness of C7: in the buffer `#ab` followed by a line feed and `c`, the comment text is
`ab` and the cursor stops at index `3`, on the line feed. -/
theorem C7_comment_witness :
    ∃ n token, 0 + 1 + n ≤ 5
      ∧ (0 + 1 + n = 5 ∨ (cj_source_of [0x23, 0x61, 0x62, 0x0A, 0x63] 0).content (0 + 1 + n) = 0x0A)
      ∧ cj_read_next_token (cj_initial_process (cj_source_of [0x23, 0x61, 0x62, 0x0A, 0x63] 0))
        = some (token,
          { source_file := cj_source_of [0x23, 0x61, 0x62, 0x0A, 0x63] 0,
            current_position := 0 + 1 + n,
            current_line_number := 0, current_line_start_position := 0 })
      ∧ token.type = cj_token_type.COMMENT
      ∧ token.value = cj_slice (cj_source_of [0x23, 0x61, 0x62, 0x0A, 0x63] 0) (0 + 1) n
      ∧ 0x0A ∉ token.value :=
  C7_comment (cj_initial_process (cj_source_of [0x23, 0x61, 0x62, 0x0A, 0x63] 0)) _ rfl
    (by decide) (by decide)

/-! ### String literals -/

theorem spec_line_start_after_no_line_feed (text : List Nat) :
    ∀ (position line_start : Nat), 0x0A ∉ text →
      spec_line_start_after position line_start text = line_start := by
  induction text with
  | nil => intro _ _ _; rfl
  | cons c text ih =>
    intro position line_start h
    have hc : ¬ c = 0x0A := fun hc => h (by simp [hc])
    have ht : 0x0A ∉ text := fun ht => h (List.mem_cons_of_mem _ ht)
    simp only [spec_line_start_after, if_neg hc]
    exact ih _ _ ht

theorem spec_line_start_after_last_line_feed (text : List Nat) :
    ∀ (position line_start k : Nat), text[k]? = some 0x0A →
      (∀ j, k < j → text[j]? ≠ some 0x0A) →
      spec_line_start_after position line_start text = position + k + 1 := by
  induction text with
  | nil => intro _ _ k h; simp at h
  | cons c text ih =>
    intro position line_start k hk hlater
    cases k with
    | zero =>
      have hc : c = 0x0A := by simpa using hk
      have ht : 0x0A ∉ text := by
        intro ht
        obtain ⟨j, hj⟩ := List.getElem?_of_mem ht
        exact hlater (j + 1) (Nat.succ_pos _) (by simpa using hj)
      simp only [spec_line_start_after, if_pos hc]
      rw [spec_line_start_after_no_line_feed text _ _ ht]
    | succ k =>
      have hk' : text[k]? = some 0x0A := by simpa using hk
      have hl' : ∀ j, k < j → text[j]? ≠ some 0x0A := by
        intro j hj
        have := hlater (j + 1) (by omega)
        simpa using this
      simp only [spec_line_start_after]
      split_ifs
      · rw [ih _ _ k hk' hl']; omega
      · rw [ih _ _ k hk' hl']; omega

/-- The loop of `cj_scan_string_literal` on a text without `"` that is followed by `"` inside
the buffer. -/
theorem cj_scan_string_literal_loop_closed (s : List Nat) :
    ∀ (fuel : Nat) (token : cj_token) (p : cj_tokenization_process),
      0x22 ∉ s →
      cj_slice p.source_file p.current_position s.length = s →
      p.current_position + s.length < p.source_file.content_length →
      p.source_file.content (p.current_position + s.length) = 0x22 →
      fuel ≥ p.source_file.content_length - p.current_position →
      cj_scan_string_literal_loop fuel token p = some (
        { token with
          type := cj_token_type.STRING_LITERAL
          value := token.value ++ s
          value_length := token.value_length + s.length },
        { p with
          current_position := p.current_position + s.length + 1
          current_line_number := p.current_line_number + s.count 0x0A
          current_line_start_position :=
            spec_line_start_after p.current_position p.current_line_start_position s }) := by
  induction s with
  | nil =>
    intro fuel token p _ _ hlt hquote hfuel
    simp only [List.length_nil, Nat.add_zero] at hlt hquote
    cases fuel with
    | zero => omega
    | succ n =>
      have hq : cj_check_string_quote (p.source_file.content p.current_position) = true := by
        simp [cj_check_string_quote, hquote]
      simp only [cj_scan_string_literal_loop, if_pos hlt, hq, if_true]
      simp [spec_line_start_after]
  | cons c s ih =>
    intro fuel token p hno hslice hlt hquote hfuel
    rw [List.length_cons, cj_slice_succ] at hslice
    rw [List.length_cons] at hlt hquote
    injection hslice with hc hrest
    have hcq : ¬ c = 0x22 := fun h => hno (by simp [h])
    have hno' : 0x22 ∉ s := fun h => hno (List.mem_cons_of_mem _ h)
    cases fuel with
    | zero => omega
    | succ n =>
      have h1 : p.current_position < p.source_file.content_length := by omega
      have hq : cj_check_string_quote (p.source_file.content p.current_position) = false := by
        simp [cj_check_string_quote, hc, hcq]
      simp only [cj_scan_string_literal_loop, if_pos h1, hq, Bool.false_eq_true, if_false]
      by_cases hl : c = 0x0A
      · have hlt' : cj_check_line_terminator (p.source_file.content p.current_position)
            = true := by
          simp [cj_check_line_terminator, hc, hl]
        rw [if_pos hlt']
        rw [ih n _ _ hno' hrest (by simp only []; omega)
          (by simp only []; rw [Nat.add_assoc, Nat.add_comm 1]; exact hquote)
          (by simp only []; omega)]
        simp [cj_token_value_append, hc, hl, spec_line_start_after, Nat.add_assoc,
          Nat.add_comm 1, Nat.add_left_comm]
      · have hlt' : cj_check_line_terminator (p.source_file.content p.current_position)
            = false := by
          simp [cj_check_line_terminator, hc, hl]
        rw [hlt', if_neg (by simp)]
        rw [ih n _ _ hno' hrest (by simp only []; omega)
          (by simp only []; rw [Nat.add_assoc, Nat.add_comm 1]; exact hquote)
          (by simp only []; omega)]
        have hl' : ¬ (0x0A = c) := fun h => hl h.symm
        simp [cj_token_value_append, hc, hl, hl', spec_line_start_after, Nat.add_assoc,
          Nat.add_comm 1, Nat.add_left_comm]

/-- The dispatch of `cj_read_next_token` reaches `cj_scan_string_literal` on `"`. -/
theorem cj_read_next_token_string_quote (p q : cj_tokenization_process)
    (hq : q = cj_skip_whitespaces p)
    (hlt : q.current_position < q.source_file.content_length)
    (h : q.source_file.content q.current_position = 0x22) :
    cj_read_next_token p =
      match cj_scan_string_literal (cj_new_token (cj_fixate_current_position p)) q with
      | none => none
      | some (token, process) =>
        some ({ token with end_ := cj_fixate_current_position process }, process) := by
  unfold cj_read_next_token
  simp only [← hq]
  have hge : ¬ q.current_position ≥ q.source_file.content_length := by omega
  simp [cj_read_next_token_skipped, hge, h, cj_check_comment_start, cj_check_identifier_start,
    cj_check_alpha, cj_check_numeric, cj_check_character_quote, cj_check_string_quote]

/-- C8. When the cursor left by the whitespace skip is at `"`, followed by a text `s` without
`"` and then by a closing `"` inside the buffer, `cj_read_next_token` returns a
`STRING_LITERAL` whose text is exactly `s`, advances the position by `|s| + 2`, adds the
number of line feeds of `s` to the line number, and sets the line start position just past
the last line feed of `s` when there is one (and leaves it unchanged when there is none). -/
theorem C8_string_literal (p q : cj_tokenization_process) (s : List Nat)
    (hq : q = cj_skip_whitespaces p)
    (hopen : p.source_file.content q.current_position = 0x22)
    (hno : 0x22 ∉ s)
    (hslice : cj_slice p.source_file (q.current_position + 1) s.length = s)
    (hin : q.current_position + 1 + s.length < p.source_file.content_length)
    (hclose : p.source_file.content (q.current_position + 1 + s.length) = 0x22) :
    ∃ token r, cj_read_next_token p = some (token, r)
      ∧ token.type = cj_token_type.STRING_LITERAL
      ∧ token.value = s
      ∧ r.current_position = q.current_position + s.length + 2
      ∧ r.current_line_number = q.current_line_number + s.count 0x0A
      ∧ (∀ k, s[k]? = some 0x0A → (∀ j, k < j → s[j]? ≠ some 0x0A) →
          r.current_line_start_position = q.current_position + 1 + k + 1)
      ∧ (0x0A ∉ s → r.current_line_start_position = q.current_line_start_position)
      ∧ r.source_file = p.source_file := by
  have hs : q.source_file = p.source_file := by rw [hq]; exact cj_skip_whitespaces_source_file p
  rw [← hs] at hopen hslice hin hclose ⊢
  have hloop := cj_scan_string_literal_loop_closed s
    (q.source_file.content_length - (q.current_position + 1))
    (cj_token_value_init (cj_new_token (cj_fixate_current_position p)))
    { q with current_position := q.current_position + 1 }
    hno hslice hin hclose (le_refl _)
  have hread : cj_read_next_token p = some (
      { type := cj_token_type.STRING_LITERAL, value_length := s.length, value := s,
        start := cj_fixate_current_position p,
        end_ := cj_fixate_current_position
          { q with
            current_position := q.current_position + 1 + s.length + 1
            current_line_number := q.current_line_number + s.count 0x0A
            current_line_start_position :=
              spec_line_start_after (q.current_position + 1)
                q.current_line_start_position s } },
      { q with
        current_position := q.current_position + 1 + s.length + 1
        current_line_number := q.current_line_number + s.count 0x0A
        current_line_start_position :=
          spec_line_start_after (q.current_position + 1) q.current_line_start_position s }) := by
    rw [cj_read_next_token_string_quote p q hq (by omega) hopen]
    simp only [cj_scan_string_literal, hopen, cj_check_string_quote, beq_self_eq_true,
      Bool.not_true, Bool.false_eq_true, if_false, hloop]
    simp [cj_token_value_init, cj_new_token]
  refine ⟨_, _, hread, rfl, rfl, ?_, rfl, ?_, ?_, rfl⟩
  · show q.current_position + 1 + s.length + 1 = q.current_position + s.length + 2
    omega
  · intro k hk hlater
    exact spec_line_start_after_last_line_feed s _ _ k hk hlater
  · intro hnl
    exact spec_line_start_after_no_line_feed s _ _ hnl

/-- A witness of C8: the buffer `"a`, line feed, `b"` gives the text `a`, line feed, `b`,
position `5`, line `1` and line start `3`. -/
theorem C8_string_literal_witness :
    ∃ token r, cj_read_next_token
          (cj_initial_process (cj_source_of [0x22, 0x61, 0x0A, 0x62, 0x22] 0))
        = some (token, r)
      ∧ token.type = cj_token_type.STRING_LITERAL
      ∧ token.value = [0x61, 0x0A, 0x62]
      ∧ r.current_position = 5
      ∧ r.current_line_number = 1
      ∧ r.current_line_start_position = 3 := by
  obtain ⟨token, r, h1, h2, h3, h4, h5, h6, -, -⟩ := C8_string_literal
    (cj_initial_process (cj_source_of [0x22, 0x61, 0x0A, 0x62, 0x22] 0)) _ [0x61, 0x0A, 0x62]
    rfl (by decide) (by decide) (by decide) (by decide) (by decide)
  refine ⟨token, r, h1, h2, h3, h4, h5, h6 1 (by decide) ?_⟩
  intro j hj
  match j, hj with
  | 2, _ => decide
  | j + 3, _ => simp

/-- The loop of `cj_scan_string_literal` on a buffer with no `"` from the cursor to its end:
the loop is left through its guard, and the `assert(NULL)` after it aborts. -/
theorem cj_scan_string_literal_loop_open (fuel : Nat) :
    ∀ (token : cj_token) (p : cj_tokenization_process),
      (∀ i, p.current_position ≤ i → i < p.source_file.content_length →
        p.source_file.content i ≠ 0x22) →
      cj_scan_string_literal_loop fuel token p = none := by
  induction fuel with
  | zero => intro _ _ _; rfl
  | succ n ih =>
    intro token p hno
    simp only [cj_scan_string_literal_loop]
    by_cases hlt : p.current_position < p.source_file.content_length
    · have hq : cj_check_string_quote (p.source_file.content p.current_position) = false := by
        simpa [cj_check_string_quote] using hno p.current_position (le_refl _) hlt
      rw [if_pos hlt]
      simp only [hq, Bool.false_eq_true, if_false]
      split_ifs
      · exact ih _ _ (fun i hi hi2 => hno i (by simp only [] at hi; omega) hi2)
      · exact ih _ _ (fun i hi hi2 => hno i (by simp only [] at hi; omega) hi2)
    · rw [if_neg hlt]

/-- C9. Unterminated strings are fatal: when the cursor left by the whitespace skip is at `"`
and no further `"` occurs before the end of the buffer, `cj_read_next_token` aborts and
returns no token. -/
theorem C9_unterminated_string (p q : cj_tokenization_process)
    (hq : q = cj_skip_whitespaces p)
    (hlt : q.current_position < p.source_file.content_length)
    (hopen : p.source_file.content q.current_position = 0x22)
    (hno : ∀ i, i < p.source_file.content_length → q.current_position < i →
      p.source_file.content i ≠ 0x22) :
    cj_read_next_token p = none := by
  have hs : q.source_file = p.source_file := by rw [hq]; exact cj_skip_whitespaces_source_file p
  rw [← hs] at hlt hopen hno
  rw [cj_read_next_token_string_quote p q hq hlt hopen]
  simp only [cj_scan_string_literal, hopen, cj_check_string_quote, beq_self_eq_true,
    Bool.not_true, Bool.false_eq_true, if_false]
  rw [cj_scan_string_literal_loop_open _ _ { q with current_position := q.current_position + 1 }
    (fun i hi hi2 => hno i hi2 (by simp only [] at hi; omega))]

/-- A witness of C9: the buffer of two spaces and `"ab` has no closing quote. -/
theorem C9_unterminated_string_witness :
    cj_read_next_token (cj_initial_process (cj_source_of [0x20, 0x20, 0x22, 0x61, 0x62] 0))
      = none :=
  C9_unterminated_string (cj_initial_process (cj_source_of [0x20, 0x20, 0x22, 0x61, 0x62] 0)) _
    rfl (by decide) (by decide) (by decide)

/-! ### Character literals -/

/-- The dispatch of `cj_read_next_token` reaches `cj_scan_character_literal` on `'`. -/
theorem cj_read_next_token_character_quote (p q : cj_tokenization_process)
    (hq : q = cj_skip_whitespaces p)
    (hlt : q.current_position < q.source_file.content_length)
    (h : q.source_file.content q.current_position = 0x27) :
    cj_read_next_token p =
      match cj_scan_character_literal (cj_new_token (cj_fixate_current_position p)) q with
      | none => none
      | some (token, process) =>
        some ({ token with end_ := cj_fixate_current_position process }, process) := by
  unfold cj_read_next_token
  simp only [← hq]
  have hge : ¬ q.current_position ≥ q.source_file.content_length := by omega
  simp [cj_read_next_token_skipped, hge, h, cj_check_comment_start, cj_check_identifier_start,
    cj_check_alpha, cj_check_numeric, cj_check_character_quote]

/-- What `cj_read_next_token` does at `'`: it succeeds exactly when the word read at the next
index is not `'` and the word read at the index after that is `'`, whether or not these two
indices lie inside the buffer; on success the token is a `CHARACTER_LITERAL` whose text is the
middle code point and the position advances by three. -/
theorem cj_read_next_token_character_literal (p q : cj_tokenization_process)
    (hq : q = cj_skip_whitespaces p)
    (hlt : q.current_position < p.source_file.content_length)
    (hopen : p.source_file.content q.current_position = 0x27) :
    cj_read_next_token p =
      if p.source_file.content (q.current_position + 1) ≠ 0x27
          ∧ p.source_file.content (q.current_position + 2) = 0x27 then
        some (
          { type := cj_token_type.CHARACTER_LITERAL, value_length := 1,
            value := [p.source_file.content (q.current_position + 1)],
            start := cj_fixate_current_position p,
            end_ := cj_fixate_current_position
              { q with current_position := q.current_position + 3 } },
          { q with current_position := q.current_position + 3 })
      else none := by
  have hs : q.source_file = p.source_file := by rw [hq]; exact cj_skip_whitespaces_source_file p
  rw [← hs] at hlt hopen ⊢
  rw [cj_read_next_token_character_quote p q hq hlt hopen]
  simp only [cj_scan_character_literal, hopen, cj_check_character_quote, beq_self_eq_true,
    Bool.not_true, Bool.false_eq_true, if_false]
  by_cases h1 : q.source_file.content (q.current_position + 1) = 0x27
  · simp [h1]
  · by_cases h2 : q.source_file.content (q.current_position + 2) = 0x27
    · simp [h1, h2, cj_token_value_append, cj_token_value_init, cj_new_token]
    · simp [h1, h2]

/-- C10, the code at the failing input.  The buffer is the two code points `'a`, so it ends
after one code point past the opening quote, and the memory word behind the buffer holds `'`.
The unguarded third read of `cj_scan_character_literal` takes that word for the closing quote:
the call returns a `CHARACTER_LITERAL` with text `a` and leaves the position at `3`, past the
buffer length `2`, where C10 says the call fails. -/
theorem C10_character_literal_past_buffer :
    (cj_source_of [0x27, 0x61] 0x27).content_length = 2
    ∧ cj_read_next_token (cj_initial_process (cj_source_of [0x27, 0x61] 0x27)) = some (
      { type := cj_token_type.CHARACTER_LITERAL, value_length := 1, value := [0x61],
        start := ⟨0, 0, 0⟩, end_ := ⟨3, 0, 3⟩ },
      { source_file := cj_source_of [0x27, 0x61] 0x27, current_position := 3,
        current_line_number := 0, current_line_start_position := 0 }) :=
  ⟨rfl, rfl⟩

/-! ### The whitespace skip runs to its guard -/

/-- The fuel of the loop of `cj_skip_whitespaces` is never what stops it: the loop ends at the
end of the buffer or on a code point that is neither a space nor a line feed. -/
theorem cj_skip_whitespaces_loop_stops (fuel : Nat) :
    ∀ (p : cj_tokenization_process),
      fuel ≥ p.source_file.content_length - p.current_position →
      (cj_skip_whitespaces_loop fuel p).current_position ≥ p.source_file.content_length
      ∨ (cj_check_whitespace (p.source_file.content
            (cj_skip_whitespaces_loop fuel p).current_position) = false
        ∧ cj_check_line_terminator (p.source_file.content
            (cj_skip_whitespaces_loop fuel p).current_position) = false) := by
  induction fuel with
  | zero =>
    intro p hfuel
    left
    simp only [cj_skip_whitespaces_loop]
    omega
  | succ n ih =>
    intro p hfuel
    simp only [cj_skip_whitespaces_loop]
    by_cases hlt : p.current_position < p.source_file.content_length
    · rw [if_pos hlt]
      by_cases hw : cj_check_whitespace (p.source_file.content p.current_position) = true
      · rw [if_pos hw]
        exact ih { p with current_position := p.current_position + 1 }
          (by simp only []; omega)
      · rw [if_neg hw]
        by_cases hl : cj_check_line_terminator (p.source_file.content p.current_position)
            = true
        · rw [if_pos hl]
          exact ih { p with
              current_position := p.current_position + 1
              current_line_number := p.current_line_number + 1
              current_line_start_position := p.current_position + 1 }
            (by simp only []; omega)
        · rw [if_neg hl]
          right
          exact ⟨by simpa using hw, by simpa using hl⟩
    · rw [if_neg hlt]
      left
      omega

theorem cj_skip_whitespaces_stops (p : cj_tokenization_process) :
    (cj_skip_whitespaces p).current_position ≥ p.source_file.content_length
    ∨ (cj_check_whitespace (p.source_file.content
          (cj_skip_whitespaces p).current_position) = false
      ∧ cj_check_line_terminator (p.source_file.content
          (cj_skip_whitespaces p).current_position) = false) :=
  cj_skip_whitespaces_loop_stops _ p (le_refl _)

/-! ### The three scanning loops as one -/

theorem cj_scan_comment_loop_eq (fuel : Nat) :
    ∀ (token : cj_token) (p : cj_tokenization_process),
      cj_scan_comment_loop fuel token p
        = scan_while_loop (fun c => !cj_check_line_terminator c) fuel token p := by
  induction fuel with
  | zero => intro _ _; rfl
  | succ n ih =>
    intro token p
    simp only [cj_scan_comment_loop, scan_while_loop, ih]
    by_cases h : cj_check_line_terminator (p.source_file.content p.current_position) = true
    · simp [h]
    · simp [h]

theorem cj_scan_identifier_loop_eq (fuel : Nat) :
    ∀ (token : cj_token) (p : cj_tokenization_process),
      cj_scan_identifier_loop fuel token p
        = scan_while_loop cj_check_identifier_part fuel token p := by
  induction fuel with
  | zero => intro _ _; rfl
  | succ n ih =>
    intro token p
    simp only [cj_scan_identifier_loop, scan_while_loop, ih]

theorem cj_scan_numeric_literal_loop_eq (fuel : Nat) :
    ∀ (token : cj_token) (p : cj_tokenization_process),
      cj_scan_numeric_literal_loop fuel token p
        = scan_while_loop cj_check_numeric fuel token p := by
  induction fuel with
  | zero => intro _ _; rfl
  | succ n ih =>
    intro token p
    simp only [cj_scan_numeric_literal_loop, scan_while_loop, ih]

/-- A scanning loop consumes the maximal run of accepted code points at the cursor: it stops
at the end of the buffer or on the first code point that is not accepted, appends the run to
the text and to the length counter, and changes nothing but the position. -/
theorem scan_while_loop_spec (accept : Nat → Bool) (fuel : Nat) :
    ∀ (token : cj_token) (p : cj_tokenization_process),
      p.current_position ≤ p.source_file.content_length →
      fuel ≥ p.source_file.content_length - p.current_position →
      ∃ n, p.current_position + n ≤ p.source_file.content_length
        ∧ (∀ c ∈ cj_slice p.source_file p.current_position n, accept c = true)
        ∧ (p.current_position + n = p.source_file.content_length
          ∨ accept (p.source_file.content (p.current_position + n)) = false)
        ∧ scan_while_loop accept fuel token p =
          ({ token with
              value := token.value ++ cj_slice p.source_file p.current_position n
              value_length := token.value_length + n },
            { p with current_position := p.current_position + n }) := by
  induction fuel with
  | zero =>
    intro token p hle hfuel
    refine ⟨0, by omega, by simp [cj_slice_zero], Or.inl (by omega), ?_⟩
    simp [scan_while_loop, cj_slice_zero]
  | succ k ih =>
    intro token p hle hfuel
    simp only [scan_while_loop]
    by_cases hlt : p.current_position < p.source_file.content_length
    · rw [if_pos hlt]
      by_cases ha : accept (p.source_file.content p.current_position) = true
      · rw [if_pos ha]
        obtain ⟨n, hn1, hn2, hn3, hn4⟩ :=
          ih (cj_token_value_append token (p.source_file.content p.current_position))
            { p with current_position := p.current_position + 1 }
            (by simp only []; omega) (by simp only []; omega)
        simp only [] at hn1 hn2 hn3 hn4
        refine ⟨n + 1, by omega, ?_, ?_, ?_⟩
        · rw [cj_slice_succ]
          intro c hc
          rcases List.mem_cons.1 hc with rfl | hc
          · exact ha
          · exact hn2 c hc
        · rw [← Nat.add_assoc, Nat.add_right_comm]; exact hn3
        · rw [hn4, cj_slice_succ]
          simp [cj_token_value_append, Nat.add_assoc, Nat.add_comm 1]
      · rw [if_neg ha]
        refine ⟨0, by omega, by simp [cj_slice_zero], Or.inr ?_, by simp [cj_slice_zero]⟩
        simpa using ha
    · rw [if_neg hlt]
      refine ⟨0, by omega, by simp [cj_slice_zero], Or.inl (by omega), by simp [cj_slice_zero]⟩

/-! ### Numeric literals -/

/-- The dispatch of `cj_read_next_token` reaches `cj_scan_numeric_literal` on a digit. -/
theorem cj_read_next_token_numeric (p q : cj_tokenization_process)
    (hq : q = cj_skip_whitespaces p)
    (hlt : q.current_position < q.source_file.content_length)
    (h : cj_check_numeric (q.source_file.content q.current_position) = true) :
    cj_read_next_token p =
      match cj_scan_numeric_literal (cj_new_token (cj_fixate_current_position p)) q with
      | none => none
      | some (token, process) =>
        some ({ token with end_ := cj_fixate_current_position process }, process) := by
  unfold cj_read_next_token
  simp only [← hq]
  have hge : ¬ q.current_position ≥ q.source_file.content_length := by omega
  have hb : 0x30 ≤ q.source_file.content q.current_position
      ∧ q.source_file.content q.current_position ≤ 0x39 := by
    simpa [cj_check_numeric] using h
  have h1 : cj_check_comment_start (q.source_file.content q.current_position) = false := by
    simp only [cj_check_comment_start, beq_eq_false_iff_ne]; omega
  have h2 : cj_check_identifier_start (q.source_file.content q.current_position) = false := by
    simp only [cj_check_identifier_start, cj_check_alpha, Bool.or_eq_false_iff,
      Bool.and_eq_false_iff, decide_eq_false_iff_not]
    omega
  simp [cj_read_next_token_skipped, hge, h1, h2, h]

/-- The routine `cj_scan_numeric_literal` on a digit: the token text is the maximal run of
digits at the cursor. -/
theorem cj_scan_numeric_literal_spec (token : cj_token) (q : cj_tokenization_process)
    (hlt : q.current_position < q.source_file.content_length)
    (h : cj_check_numeric (q.source_file.content q.current_position) = true) :
    ∃ n, 0 < n ∧ q.current_position + n ≤ q.source_file.content_length
      ∧ (∀ c ∈ cj_slice q.source_file q.current_position n, cj_check_numeric c = true)
      ∧ (q.current_position + n = q.source_file.content_length
        ∨ cj_check_numeric (q.source_file.content (q.current_position + n)) = false)
      ∧ cj_scan_numeric_literal token q = some (
        { token with
          type := cj_token_type.NUMERIC_LITERAL
          value := cj_slice q.source_file q.current_position n
          value_length := token.value_length + n },
        { q with current_position := q.current_position + n }) := by
  obtain ⟨n, hn1, hn2, hn3, hn4⟩ := scan_while_loop_spec cj_check_numeric
    (q.source_file.content_length - (q.current_position + 1))
    (cj_token_value_append (cj_token_value_init token) (q.source_file.content q.current_position))
    { q with current_position := q.current_position + 1 }
    (by simp only []; omega) (le_refl _)
  simp only [] at hn1 hn2 hn3 hn4
  refine ⟨n + 1, Nat.succ_pos _, by omega, ?_, ?_, ?_⟩
  · rw [cj_slice_succ]
    intro c hc
    rcases List.mem_cons.1 hc with rfl | hc
    · exact h
    · exact hn2 c hc
  · rw [← Nat.add_assoc, Nat.add_right_comm]; exact hn3
  · simp only [cj_scan_numeric_literal, h, Bool.not_true, Bool.false_eq_true, if_false,
      cj_scan_numeric_literal_loop_eq, hn4]
    rw [cj_slice_succ]
    simp [cj_token_value_append, cj_token_value_init, Nat.add_assoc, Nat.add_comm 1]

/-- C11. When the cursor left by the whitespace skip is at a decimal digit,
`cj_read_next_token` returns a `NUMERIC_LITERAL` whose text is the maximal run of decimal
digits starting there: the text is not empty, holds only the digits `0` to `9` (so no sign,
decimal point or exponent letter), and the code point at the new cursor position, if there is
one, is not a digit. -/
theorem C11_numeric_literal (p q : cj_tokenization_process)
    (hq : q = cj_skip_whitespaces p)
    (hlt : q.current_position < p.source_file.content_length)
    (hdigit : cj_check_numeric (p.source_file.content q.current_position) = true) :
    ∃ n token, q.current_position + n ≤ p.source_file.content_length
      ∧ cj_read_next_token p
        = some (token, { q with current_position := q.current_position + n })
      ∧ token.type = cj_token_type.NUMERIC_LITERAL
      ∧ token.value = cj_slice p.source_file q.current_position n
      ∧ token.value ≠ []
      ∧ (∀ c ∈ token.value, 0x30 ≤ c ∧ c ≤ 0x39)
      ∧ (∀ c ∈ token.value, c ≠ 0x2B ∧ c ≠ 0x2D ∧ c ≠ 0x2E ∧ c ≠ 0x45 ∧ c ≠ 0x65)
      ∧ (q.current_position + n < p.source_file.content_length →
          cj_check_numeric (p.source_file.content (q.current_position + n)) = false) := by
  have hs : q.source_file = p.source_file := by rw [hq]; exact cj_skip_whitespaces_source_file p
  rw [← hs] at hlt hdigit ⊢
  obtain ⟨n, hn0, hn1, hn2, hn3, hn4⟩ := cj_scan_numeric_literal_spec
    (cj_new_token (cj_fixate_current_position p)) q hlt hdigit
  have hread : cj_read_next_token p = some (
      { type := cj_token_type.NUMERIC_LITERAL, value_length := n,
        value := cj_slice q.source_file q.current_position n,
        start := cj_fixate_current_position p,
        end_ := cj_fixate_current_position
          { q with current_position := q.current_position + n } },
      { q with current_position := q.current_position + n }) := by
    rw [cj_read_next_token_numeric p q hq hlt hdigit, hn4]
    simp [cj_new_token]
  have hrange : ∀ c ∈ cj_slice q.source_file q.current_position n, 0x30 ≤ c ∧ c ≤ 0x39 := by
    intro c hc
    simpa [cj_check_numeric] using hn2 c hc
  refine ⟨n, _, hn1, hread, rfl, rfl, ?_, hrange, ?_, ?_⟩
  · intro hnil
    have := congrArg List.length hnil
    rw [cj_slice_length] at this
    simp at this
    omega
  · intro c hc
    have := hrange c hc
    omega
  · intro hlt2
    rcases hn3 with h | h
    · omega
    · exact h

/-- A witness of C11: in the buffer `42;` the numeric literal is `42` and the cursor stops on
the `;`. -/
theorem C11_numeric_literal_witness :
    ∃ n token, 0 + n ≤ 3
      ∧ cj_read_next_token (cj_initial_process (cj_source_of [0x34, 0x32, 0x3B] 0))
        = some (token,
          { source_file := cj_source_of [0x34, 0x32, 0x3B] 0, current_position := 0 + n,
            current_line_number := 0, current_line_start_position := 0 })
      ∧ token.type = cj_token_type.NUMERIC_LITERAL
      ∧ token.value = cj_slice (cj_source_of [0x34, 0x32, 0x3B] 0) 0 n
      ∧ token.value ≠ []
      ∧ (∀ c ∈ token.value, 0x30 ≤ c ∧ c ≤ 0x39)
      ∧ (∀ c ∈ token.value, c ≠ 0x2B ∧ c ≠ 0x2D ∧ c ≠ 0x2E ∧ c ≠ 0x45 ∧ c ≠ 0x65)
      ∧ (0 + n < 3 →
          cj_check_numeric ((cj_source_of [0x34, 0x32, 0x3B] 0).content (0 + n)) = false) :=
  C11_numeric_literal (cj_initial_process (cj_source_of [0x34, 0x32, 0x3B] 0)) _ rfl
    (by decide) (by decide)

/-! ### What each scan routine returns, on any buffer -/

/-- The routine `cj_scan_comment` at `#` returns a `COMMENT` whose text is the slice after the
`#`, and moves only the position, by one more than the length of the text. -/
theorem cj_scan_comment_result (token : cj_token) (q : cj_tokenization_process)
    (hlt : q.current_position < q.source_file.content_length)
    (h : q.source_file.content q.current_position = 0x23) :
    ∃ n, q.current_position + 1 + n ≤ q.source_file.content_length
      ∧ cj_scan_comment token q = some (
        { token with
          type := cj_token_type.COMMENT
          value := cj_slice q.source_file (q.current_position + 1) n
          value_length := token.value_length + n },
        { q with current_position := q.current_position + 1 + n }) := by
  obtain ⟨n, hn1, -, -, hn4⟩ := scan_while_loop_spec (fun c => !cj_check_line_terminator c)
    (q.source_file.content_length - (q.current_position + 1))
    (cj_token_value_init token)
    { q with current_position := q.current_position + 1 }
    (by simp only []; omega) (le_refl _)
  simp only [] at hn1 hn4
  refine ⟨n, hn1, ?_⟩
  simp only [cj_scan_comment, h, cj_check_comment_start, beq_self_eq_true, Bool.not_true,
    Bool.false_eq_true, if_false, cj_scan_comment_loop_eq, hn4]
  simp [cj_token_value_init]

/-- The routine `cj_scan_identifier` at a letter returns a token of one of the four kinds of
the reserved-word chain whose text is a non-empty slice at the cursor, and moves only the
position, by the length of the text. -/
theorem cj_scan_identifier_result (token : cj_token) (q : cj_tokenization_process)
    (hlt : q.current_position < q.source_file.content_length)
    (h : cj_check_alpha (q.source_file.content q.current_position) = true) :
    ∃ n kind, 0 < n ∧ q.current_position + n ≤ q.source_file.content_length
      ∧ (kind = cj_token_type.KEYWORD ∨ kind = cj_token_type.NULL_LITERAL
        ∨ kind = cj_token_type.BOOLEAN_LITERAL ∨ kind = cj_token_type.IDENTIFIER)
      ∧ cj_scan_identifier token q = some (
        { token with
          type := kind
          value := cj_slice q.source_file q.current_position n
          value_length := token.value_length + n },
        { q with current_position := q.current_position + n }) := by
  obtain ⟨n, hn1, -, -, hn4⟩ := scan_while_loop_spec cj_check_identifier_part
    (q.source_file.content_length - (q.current_position + 1))
    (cj_token_value_append (cj_token_value_init token) (q.source_file.content q.current_position))
    { q with current_position := q.current_position + 1 }
    (by simp only []; omega) (le_refl _)
  simp only [] at hn1 hn4
  have hstart : cj_check_identifier_start (q.source_file.content q.current_position) = true := h
  have hval : (cj_token_value_append (cj_token_value_init token)
      (q.source_file.content q.current_position)).value
        ++ cj_slice q.source_file (q.current_position + 1) n
      = cj_slice q.source_file q.current_position (n + 1) := by
    rw [cj_slice_succ]; simp [cj_token_value_append, cj_token_value_init]
  simp only [cj_scan_identifier, hstart, Bool.not_true, Bool.false_eq_true, if_false,
    cj_scan_identifier_loop_eq, hn4, hval]
  split_ifs
  · exact ⟨n + 1, _, Nat.succ_pos _, by omega, Or.inl rfl, by
      simp [cj_token_value_append, cj_token_value_init, Nat.add_assoc, Nat.add_comm 1]⟩
  · exact ⟨n + 1, _, Nat.succ_pos _, by omega, Or.inr (Or.inl rfl), by
      simp [cj_token_value_append, cj_token_value_init, Nat.add_assoc, Nat.add_comm 1]⟩
  · exact ⟨n + 1, _, Nat.succ_pos _, by omega, Or.inr (Or.inr (Or.inl rfl)), by
      simp [cj_token_value_append, cj_token_value_init, Nat.add_assoc, Nat.add_comm 1]⟩
  · exact ⟨n + 1, _, Nat.succ_pos _, by omega, Or.inr (Or.inr (Or.inr rfl)), by
      simp [cj_token_value_append, cj_token_value_init, Nat.add_assoc, Nat.add_comm 1]⟩

/-- The routine `cj_scan_character_literal`, when it returns, returns a `CHARACTER_LITERAL`
with a text of one code point and has moved only the position, by three. -/
theorem cj_scan_character_literal_result (token t : cj_token) (q r : cj_tokenization_process)
    (h : cj_scan_character_literal token q = some (t, r)) :
    t = { token with
          type := cj_token_type.CHARACTER_LITERAL
          value := [q.source_file.content (q.current_position + 1)]
          value_length := token.value_length + 1 }
    ∧ r = { q with current_position := q.current_position + 3 } := by
  simp only [cj_scan_character_literal] at h
  split_ifs at h
  simp only [Option.some.injEq, Prod.mk.injEq] at h
  obtain ⟨h1, h2⟩ := h
  subst h1 h2
  simp [cj_token_value_append, cj_token_value_init]

theorem spec_line_start_after_bounds (text : List Nat) :
    ∀ (position line_start : Nat), line_start ≤ position →
      line_start ≤ spec_line_start_after position line_start text
      ∧ spec_line_start_after position line_start text ≤ position + text.length := by
  induction text with
  | nil => intro position line_start h; simp [spec_line_start_after]; exact h
  | cons c text ih =>
    intro position line_start h
    simp only [spec_line_start_after, List.length_cons]
    split_ifs
    · have := ih (position + 1) (position + 1) (le_refl _)
      omega
    · have := ih (position + 1) line_start (by omega)
      omega

/-- The loop of `cj_scan_string_literal`, when it returns, has appended some text `s` that
lies at the cursor, stands one past the closing quote, and has counted the line feeds of
`s`. -/
theorem cj_scan_string_literal_loop_result (fuel : Nat) :
    ∀ (token t : cj_token) (p r : cj_tokenization_process),
      cj_scan_string_literal_loop fuel token p = some (t, r) →
      ∃ s, s = cj_slice p.source_file p.current_position s.length
        ∧ p.current_position + s.length < p.source_file.content_length
        ∧ t = { token with
              type := cj_token_type.STRING_LITERAL
              value := token.value ++ s
              value_length := token.value_length + s.length }
        ∧ r = { p with
              current_position := p.current_position + s.length + 1
              current_line_number := p.current_line_number + s.count 0x0A
              current_line_start_position :=
                spec_line_start_after p.current_position p.current_line_start_position s } := by
  induction fuel with
  | zero => intro token t p r h; simp [cj_scan_string_literal_loop] at h
  | succ n ih =>
    intro token t p r h
    simp only [cj_scan_string_literal_loop] at h
    by_cases hlt : p.current_position < p.source_file.content_length
    · rw [if_pos hlt] at h
      by_cases hq : cj_check_string_quote (p.source_file.content p.current_position) = true
      · rw [if_pos hq] at h
        simp only [Option.some.injEq, Prod.mk.injEq] at h
        obtain ⟨h1, h2⟩ := h
        subst h1 h2
        exact ⟨[], by simp [cj_slice_zero], by simpa using hlt, by simp,
          by simp [spec_line_start_after]⟩
      · rw [if_neg hq] at h
        by_cases hl : cj_check_line_terminator (p.source_file.content p.current_position)
            = true
        · rw [if_pos hl] at h
          obtain ⟨s, hs1, hs2, hs3, hs4⟩ := ih _ _ _ _ h
          simp only [] at hs1 hs2 hs3 hs4
          have hc : p.source_file.content p.current_position = 0x0A := by
            simpa [cj_check_line_terminator] using hl
          refine ⟨p.source_file.content p.current_position :: s, ?_, ?_, ?_, ?_⟩
          · rw [List.length_cons, cj_slice_succ, ← hs1]
          · rw [List.length_cons]; omega
          · rw [hs3]
            simp [cj_token_value_append, Nat.add_assoc, Nat.add_comm 1]
          · rw [hs4, hc]
            simp [spec_line_start_after, Nat.add_assoc, Nat.add_comm 1, Nat.add_left_comm]
        · rw [if_neg hl] at h
          obtain ⟨s, hs1, hs2, hs3, hs4⟩ := ih _ _ _ _ h
          simp only [] at hs1 hs2 hs3 hs4
          have hc : ¬ p.source_file.content p.current_position = 0x0A := by
            simpa [cj_check_line_terminator] using hl
          have hc' : ¬ 0x0A = p.source_file.content p.current_position := fun e => hc e.symm
          refine ⟨p.source_file.content p.current_position :: s, ?_, ?_, ?_, ?_⟩
          · rw [List.length_cons, cj_slice_succ, ← hs1]
          · rw [List.length_cons]; omega
          · rw [hs3]
            simp [cj_token_value_append, Nat.add_assoc, Nat.add_comm 1]
          · rw [hs4]
            simp [spec_line_start_after, hc, hc', Nat.add_assoc, Nat.add_comm 1,
              Nat.add_left_comm]
    · rw [if_neg hlt] at h
      simp at h

/-- The routine `cj_scan_string_literal`, when it returns, returns a `STRING_LITERAL` whose
text `s` lies after the opening quote, and has moved the position by `|s| + 2`, the line
number by the line feeds of `s`, and the line start past the last of them. -/
theorem cj_scan_string_literal_result (token t : cj_token) (q r : cj_tokenization_process)
    (h : cj_scan_string_literal token q = some (t, r)) :
    ∃ s, s = cj_slice q.source_file (q.current_position + 1) s.length
      ∧ q.current_position + 1 + s.length < q.source_file.content_length
      ∧ t = { token with
            type := cj_token_type.STRING_LITERAL
            value := s
            value_length := token.value_length + s.length }
      ∧ r = { q with
            current_position := q.current_position + 1 + s.length + 1
            current_line_number := q.current_line_number + s.count 0x0A
            current_line_start_position :=
              spec_line_start_after (q.current_position + 1) q.current_line_start_position s } := by
  simp only [cj_scan_string_literal] at h
  split_ifs at h
  obtain ⟨s, hs1, hs2, hs3, hs4⟩ := cj_scan_string_literal_loop_result _ _ _ _ _ h
  simp only [] at hs1 hs2 hs3 hs4
  exact ⟨s, hs1, hs2, by rw [hs3]; simp [cj_token_value_init], hs4⟩

/-- The routine `cj_scan_punctuator`, when it returns, returns a `PUNCTUATOR` whose text is
the slice of one, two or three code points at the cursor, and has moved only the position, by
the length of the text. -/
theorem cj_scan_punctuator_result (token t : cj_token) (q r : cj_tokenization_process)
    (h : cj_scan_punctuator token q = some (t, r)) :
    ∃ n, (n = 1 ∨ n = 2 ∨ n = 3)
      ∧ t.type = cj_token_type.PUNCTUATOR
      ∧ t.value = cj_slice q.source_file q.current_position n
      ∧ t.start = token.start
      ∧ r = { q with current_position := q.current_position + n } := by
  simp only [cj_scan_punctuator] at h
  split_ifs at h <;> simp only [Option.some.injEq, Prod.mk.injEq] at h <;>
    obtain ⟨h1, h2⟩ := h <;> subst h1 h2
  · exact ⟨1, Or.inl rfl, rfl, by simp [cj_slice, List.range_succ, cj_token_value_append, cj_token_value_init],
      rfl, rfl⟩
  · exact ⟨3, Or.inr (Or.inr rfl), rfl, by simp [cj_slice, List.range_succ], rfl, rfl⟩
  · exact ⟨2, Or.inr (Or.inl rfl), rfl, by simp [cj_slice, List.range_succ], rfl, rfl⟩
  · exact ⟨1, Or.inl rfl, rfl, by simp [cj_slice, List.range_succ, cj_token_value_append, cj_token_value_init],
      rfl, rfl⟩

/-! ### What the whitespace skip does, on any buffer -/

/-- The loop of `cj_skip_whitespaces` passes some run of spaces and line feeds at the cursor,
counts its line feeds and leaves the line start past the last of them. -/
theorem cj_skip_whitespaces_loop_spec (fuel : Nat) :
    ∀ (p : cj_tokenization_process),
      ∃ n, (n = 0 ∨ p.current_position + n ≤ p.source_file.content_length)
        ∧ (∀ c ∈ cj_slice p.source_file p.current_position n, c = 0x20 ∨ c = 0x0A)
        ∧ cj_skip_whitespaces_loop fuel p =
          { p with
            current_position := p.current_position + n
            current_line_number := p.current_line_number
              + (cj_slice p.source_file p.current_position n).count 0x0A
            current_line_start_position :=
              spec_line_start_after p.current_position p.current_line_start_position
                (cj_slice p.source_file p.current_position n) } := by
  induction fuel with
  | zero =>
    intro p
    exact ⟨0, Or.inl rfl, by simp [cj_slice_zero],
      by simp [cj_skip_whitespaces_loop, cj_slice_zero, spec_line_start_after]⟩
  | succ k ih =>
    intro p
    simp only [cj_skip_whitespaces_loop]
    by_cases hlt : p.current_position < p.source_file.content_length
    · rw [if_pos hlt]
      by_cases hw : cj_check_whitespace (p.source_file.content p.current_position) = true
      · rw [if_pos hw]
        have hc : p.source_file.content p.current_position = 0x20 := by
          simpa [cj_check_whitespace] using hw
        obtain ⟨n, hn1, hn2, hn3⟩ := ih { p with current_position := p.current_position + 1 }
        simp only [] at hn1 hn2 hn3
        refine ⟨n + 1, Or.inr (by omega), ?_, ?_⟩
        · rw [cj_slice_succ]
          intro c hc'
          rcases List.mem_cons.1 hc' with rfl | hc'
          · exact Or.inl hc
          · exact hn2 c hc'
        · rw [hn3, cj_slice_succ, hc]
          simp [spec_line_start_after, Nat.add_assoc, Nat.add_comm 1]
      · rw [if_neg hw]
        by_cases hl : cj_check_line_terminator (p.source_file.content p.current_position)
            = true
        · rw [if_pos hl]
          have hc : p.source_file.content p.current_position = 0x0A := by
            simpa [cj_check_line_terminator] using hl
          obtain ⟨n, hn1, hn2, hn3⟩ := ih { p with
              current_position := p.current_position + 1
              current_line_number := p.current_line_number + 1
              current_line_start_position := p.current_position + 1 }
          simp only [] at hn1 hn2 hn3
          refine ⟨n + 1, Or.inr (by omega), ?_, ?_⟩
          · rw [cj_slice_succ]
            intro c hc'
            rcases List.mem_cons.1 hc' with rfl | hc'
            · exact Or.inr hc
            · exact hn2 c hc'
          · rw [hn3, cj_slice_succ, hc]
            simp [spec_line_start_after, Nat.add_assoc, Nat.add_comm 1, Nat.add_left_comm]
        · rw [if_neg hl]
          exact ⟨0, Or.inl rfl, by simp [cj_slice_zero],
            by simp [cj_slice_zero, spec_line_start_after]⟩
    · rw [if_neg hlt]
      exact ⟨0, Or.inl rfl, by simp [cj_slice_zero],
        by simp [cj_slice_zero, spec_line_start_after]⟩

/-- The whitespace skip never moves a cursor field back, provided the line start position is
not beyond the position on entry; position and line number never move back at all. -/
theorem cj_skip_whitespaces_monotone (p : cj_tokenization_process) :
    p.current_position ≤ (cj_skip_whitespaces p).current_position
    ∧ p.current_line_number ≤ (cj_skip_whitespaces p).current_line_number
    ∧ (p.current_line_start_position ≤ p.current_position →
        p.current_line_start_position ≤ (cj_skip_whitespaces p).current_line_start_position
        ∧ (cj_skip_whitespaces p).current_line_start_position
            ≤ (cj_skip_whitespaces p).current_position) := by
  obtain ⟨n, -, -, hn⟩ := cj_skip_whitespaces_loop_spec
    (p.source_file.content_length - p.current_position) p
  unfold cj_skip_whitespaces
  rw [hn]
  refine ⟨Nat.le_add_right _ _, Nat.le_add_right _ _, fun hle => ?_⟩
  have := spec_line_start_after_bounds (cj_slice p.source_file p.current_position n) _ _ hle
  rw [cj_slice_length] at this
  exact this

/-! ### What `cj_read_next_token` returns, on any buffer -/

/-- Every token `cj_read_next_token` returns, by kind: where the cursor `q` is the one the
whitespace skip leaves, the text is a slice of the buffer at `q` (after the `#` or the opening
quote for comments and strings), and the cursor moves from `q` by the length of the text, plus
one for a comment and plus two for a string literal, or by three for a character literal.
The token starts at the cursor on entry and ends at the cursor on return. -/
theorem cj_read_next_token_result (p q r : cj_tokenization_process) (token : cj_token)
    (hq : q = cj_skip_whitespaces p)
    (h : cj_read_next_token p = some (token, r)) :
    token.start = cj_fixate_current_position p
    ∧ token.end_ = cj_fixate_current_position r
    ∧ ((token.type = cj_token_type.END_OF_FILE ∧ token.value = [] ∧ r = q
          ∧ q.current_position ≥ q.source_file.content_length)
      ∨ (q.current_position < q.source_file.content_length
          ∧ token.type = cj_token_type.COMMENT
          ∧ token.value = cj_slice q.source_file (q.current_position + 1) token.value.length
          ∧ r = { q with current_position := q.current_position + 1 + token.value.length })
      ∨ (q.current_position < q.source_file.content_length
          ∧ (token.type = cj_token_type.KEYWORD ∨ token.type = cj_token_type.NULL_LITERAL
            ∨ token.type = cj_token_type.BOOLEAN_LITERAL
            ∨ token.type = cj_token_type.IDENTIFIER
            ∨ token.type = cj_token_type.NUMERIC_LITERAL
            ∨ token.type = cj_token_type.PUNCTUATOR)
          ∧ 0 < token.value.length
          ∧ token.value = cj_slice q.source_file q.current_position token.value.length
          ∧ r = { q with current_position := q.current_position + token.value.length })
      ∨ (q.current_position < q.source_file.content_length
          ∧ token.type = cj_token_type.CHARACTER_LITERAL
          ∧ token.value = [q.source_file.content (q.current_position + 1)]
          ∧ r = { q with current_position := q.current_position + 3 })
      ∨ (q.current_position < q.source_file.content_length
          ∧ token.type = cj_token_type.STRING_LITERAL
          ∧ token.value = cj_slice q.source_file (q.current_position + 1) token.value.length
          ∧ r = { q with
              current_position := q.current_position + token.value.length + 2
              current_line_number := q.current_line_number + token.value.count 0x0A
              current_line_start_position :=
                spec_line_start_after (q.current_position + 1)
                  q.current_line_start_position token.value })) := by
  unfold cj_read_next_token at h
  simp only [← hq, cj_read_next_token_skipped] at h
  by_cases hge : q.current_position ≥ q.source_file.content_length
  · rw [if_pos hge] at h
    simp only [Option.some.injEq, Prod.mk.injEq] at h
    obtain ⟨h1, h2⟩ := h
    subst h1 h2
    exact ⟨rfl, rfl, Or.inl ⟨rfl, rfl, rfl, hge⟩⟩
  · rw [if_neg hge] at h
    have hlt : q.current_position < q.source_file.content_length := by omega
    by_cases h1 : cj_check_comment_start (q.source_file.content q.current_position) = true
    · simp only [h1, if_true] at h
      obtain ⟨n, -, hn⟩ := cj_scan_comment_result
        (cj_new_token (cj_fixate_current_position p)) q hlt
        (by simpa [cj_check_comment_start] using h1)
      rw [hn] at h
      simp only [Option.some.injEq, Prod.mk.injEq] at h
      obtain ⟨h1, h2⟩ := h
      subst h1 h2
      refine ⟨rfl, rfl, Or.inr (Or.inl ⟨hlt, rfl, ?_, ?_⟩)⟩
      · simp [cj_slice_length]
      · simp [cj_slice_length]
    · simp only [h1, Bool.false_eq_true, if_false] at h
      by_cases h2 : cj_check_identifier_start (q.source_file.content q.current_position)
          = true
      · simp only [h2, if_true] at h
        obtain ⟨n, kind, hn0, -, hkind, hn⟩ := cj_scan_identifier_result
          (cj_new_token (cj_fixate_current_position p)) q hlt h2
        rw [hn] at h
        simp only [Option.some.injEq, Prod.mk.injEq] at h
        obtain ⟨h1, h2⟩ := h
        subst h1 h2
        refine ⟨rfl, rfl, Or.inr (Or.inr (Or.inl ⟨hlt, ?_, ?_, ?_, ?_⟩))⟩
        · rcases hkind with hk | hk | hk | hk
          · exact Or.inl hk
          · exact Or.inr (Or.inl hk)
          · exact Or.inr (Or.inr (Or.inl hk))
          · exact Or.inr (Or.inr (Or.inr (Or.inl hk)))
        · simpa [cj_slice_length] using hn0
        · simp [cj_slice_length]
        · simp [cj_slice_length]
      · simp only [h2, Bool.false_eq_true, if_false] at h
        by_cases h3 : cj_check_numeric (q.source_file.content q.current_position) = true
        · simp only [h3, if_true] at h
          obtain ⟨n, hn0, -, -, -, hn⟩ := cj_scan_numeric_literal_spec
            (cj_new_token (cj_fixate_current_position p)) q hlt h3
          rw [hn] at h
          simp only [Option.some.injEq, Prod.mk.injEq] at h
          obtain ⟨h1, h2⟩ := h
          subst h1 h2
          refine ⟨rfl, rfl, Or.inr (Or.inr (Or.inl ⟨hlt, ?_, ?_, ?_, ?_⟩))⟩
          · exact Or.inr (Or.inr (Or.inr (Or.inr (Or.inl rfl))))
          · simpa [cj_slice_length] using hn0
          · simp [cj_slice_length]
          · simp [cj_slice_length]
        · simp only [h3, Bool.false_eq_true, if_false] at h
          by_cases h4 : cj_check_character_quote (q.source_file.content q.current_position)
              = true
          · simp only [h4, if_true] at h
            cases hscan : cj_scan_character_literal
                (cj_new_token (cj_fixate_current_position p)) q with
            | none => rw [hscan] at h; simp at h
            | some res =>
              obtain ⟨t, r'⟩ := res
              rw [hscan] at h
              simp only [Option.some.injEq, Prod.mk.injEq] at h
              obtain ⟨ht, hr⟩ := cj_scan_character_literal_result _ _ _ _ hscan
              obtain ⟨h1, h2⟩ := h
              subst h1 h2 ht hr
              exact ⟨rfl, rfl, Or.inr (Or.inr (Or.inr (Or.inl ⟨hlt, rfl, rfl, rfl⟩)))⟩
          · simp only [h4, Bool.false_eq_true, if_false] at h
            by_cases h5 : cj_check_string_quote (q.source_file.content q.current_position)
                = true
            · simp only [h5, if_true] at h
              cases hscan : cj_scan_string_literal
                  (cj_new_token (cj_fixate_current_position p)) q with
              | none => rw [hscan] at h; simp at h
              | some res =>
                obtain ⟨t, r'⟩ := res
                rw [hscan] at h
                simp only [Option.some.injEq, Prod.mk.injEq] at h
                obtain ⟨s, hs1, -, ht, hr⟩ := cj_scan_string_literal_result _ _ _ _ hscan
                obtain ⟨h1, h2⟩ := h
                subst h1 h2 ht hr
                refine ⟨rfl, rfl, Or.inr (Or.inr (Or.inr (Or.inr ⟨hlt, rfl, hs1, ?_⟩)))⟩
                simp [Nat.add_assoc, Nat.add_comm 1]
            · simp only [h5, Bool.false_eq_true, if_false] at h
              cases hscan : cj_scan_punctuator
                  (cj_new_token (cj_fixate_current_position p)) q with
              | none => rw [hscan] at h; simp at h
              | some res =>
                obtain ⟨t, r'⟩ := res
                rw [hscan] at h
                simp only [Option.some.injEq, Prod.mk.injEq] at h
                obtain ⟨n, hn, hty, hval, hst, hr⟩ := cj_scan_punctuator_result _ _ _ _ hscan
                obtain ⟨h1, h2⟩ := h
                subst h1 h2 hr
                have hlen : t.value.length = n := by rw [hval, cj_slice_length]
                refine ⟨hst, rfl, Or.inr (Or.inr (Or.inl ⟨hlt, ?_, ?_, ?_, ?_⟩))⟩
                · exact Or.inr (Or.inr (Or.inr (Or.inr (Or.inr hty))))
                · show 0 < t.value.length
                  omega
                · show t.value = cj_slice q.source_file q.current_position t.value.length
                  rw [hlen]; exact hval
                · show _ = { q with current_position := q.current_position + t.value.length }
                  rw [hlen]

/-- C12 (amended). For every token `cj_read_next_token` returns, `end.offset - start.offset`
is the number of spaces and line feeds skipped before the token plus the length of the token
text when the token is a punctuator or a null, boolean or numeric literal, and that plus two,
for the two quotes, when it is a character or string literal.  So the difference is the
length of the text exactly for a punctuator or a null, boolean or numeric literal that has no
whitespace before it. -/
theorem C12_token_extent (p q r : cj_tokenization_process) (token : cj_token)
    (hq : q = cj_skip_whitespaces p)
    (h : cj_read_next_token p = some (token, r)) :
    token.start.position = p.current_position
    ∧ p.current_position ≤ q.current_position
    ∧ (token.type = cj_token_type.PUNCTUATOR ∨ token.type = cj_token_type.NULL_LITERAL
        ∨ token.type = cj_token_type.BOOLEAN_LITERAL
        ∨ token.type = cj_token_type.NUMERIC_LITERAL →
      token.end_.position - token.start.position
        = (q.current_position - p.current_position) + token.value.length)
    ∧ (token.type = cj_token_type.CHARACTER_LITERAL
        ∨ token.type = cj_token_type.STRING_LITERAL →
      token.end_.position - token.start.position
        = (q.current_position - p.current_position) + token.value.length + 2) := by
  obtain ⟨hstart, hend, hcases⟩ := cj_read_next_token_result p q r token hq h
  have hmono : p.current_position ≤ q.current_position := by
    rw [hq]; exact (cj_skip_whitespaces_monotone p).1
  rw [hstart, hend]
  simp only [cj_fixate_current_position]
  refine ⟨trivial, hmono, ?_, ?_⟩
  · intro hty
    rcases hcases with ⟨ht, -⟩ | ⟨-, ht, -⟩ | ⟨-, -, -, -, hr⟩ | ⟨-, ht, -⟩ | ⟨-, ht, -⟩
    · rw [ht] at hty; simp at hty
    · rw [ht] at hty; simp at hty
    · rw [hr]; simp only []; omega
    · rw [ht] at hty; simp at hty
    · rw [ht] at hty; simp at hty
  · intro hty
    rcases hcases with ⟨ht, -⟩ | ⟨-, ht, -⟩ | ⟨-, ht, -⟩ | ⟨-, -, hv, hr⟩ | ⟨-, -, -, hr⟩
    · rw [ht] at hty; simp at hty
    · rw [ht] at hty; simp at hty
    · rcases ht with ht | ht | ht | ht | ht | ht <;> rw [ht] at hty <;> simp at hty
    · rw [hr, hv]; simp only [List.length_singleton]; omega
    · rw [hr]; simp only []; omega

/-- A witness of C12: in the buffer of a space and `42` the numeric literal has a text of
length two and extends over three offsets, one of them the skipped space. -/
theorem C12_token_extent_witness :
    ∃ token r, cj_read_next_token (cj_initial_process (cj_source_of [0x20, 0x34, 0x32] 0))
        = some (token, r)
      ∧ token.type = cj_token_type.NUMERIC_LITERAL
      ∧ token.end_.position - token.start.position = (1 - 0) + token.value.length :=
  ⟨_, _, rfl, rfl,
    (C12_token_extent (cj_initial_process (cj_source_of [0x20, 0x34, 0x32] 0)) _ _ _ rfl
      rfl).2.2.1 (Or.inr (Or.inr (Or.inr rfl)))⟩

/-- C12 as stated fails twice.  In the buffer of a space and `;` the punctuator `;`, whose
consumed text holds no line terminator, has a text of length one but extends over two offsets,
because its start is taken before the space is skipped.  In the buffer `'a'` the character
literal has a text of length one but extends over three offsets, because the quotes are
consumed and not part of the text. -/
theorem C12_counterexample :
    (∃ token r, cj_read_next_token (cj_initial_process (cj_source_of [0x20, 0x3B] 0))
        = some (token, r)
      ∧ token.type = cj_token_type.PUNCTUATOR
      ∧ 0x0A ∉ cj_slice (cj_source_of [0x20, 0x3B] 0) token.start.position
          (token.end_.position - token.start.position)
      ∧ token.end_.position - token.start.position ≠ token.value.length)
    ∧ (∃ token r, cj_read_next_token (cj_initial_process (cj_source_of [0x27, 0x61, 0x27] 0))
        = some (token, r)
      ∧ token.type = cj_token_type.CHARACTER_LITERAL
      ∧ 0x0A ∉ cj_slice (cj_source_of [0x27, 0x61, 0x27] 0) token.start.position
          (token.end_.position - token.start.position)
      ∧ token.end_.position - token.start.position ≠ token.value.length) :=
  ⟨⟨_, _, rfl, rfl, by decide, by decide⟩, ⟨_, _, rfl, rfl, by decide, by decide⟩⟩

/-- A successful `cj_read_next_token` never moves the position or the line number back; on a
cursor whose line start position is not beyond its position it never moves the line start
position back either, and it keeps that relation.  The token it returns does not end before
it starts. -/
theorem cj_read_next_token_monotone (p r : cj_tokenization_process) (token : cj_token)
    (h : cj_read_next_token p = some (token, r)) :
    p.current_position ≤ r.current_position
    ∧ p.current_line_number ≤ r.current_line_number
    ∧ (p.current_line_start_position ≤ p.current_position →
        p.current_line_start_position ≤ r.current_line_start_position
        ∧ r.current_line_start_position ≤ r.current_position)
    ∧ token.start.position ≤ token.end_.position
    ∧ token.start.line ≤ token.end_.line := by
  obtain ⟨hstart, hend, hcases⟩ :=
    cj_read_next_token_result p (cj_skip_whitespaces p) r token rfl h
  obtain ⟨hm1, hm2, hm3⟩ := cj_skip_whitespaces_monotone p
  have key : p.current_position ≤ r.current_position
      ∧ p.current_line_number ≤ r.current_line_number
      ∧ (p.current_line_start_position ≤ p.current_position →
          p.current_line_start_position ≤ r.current_line_start_position
          ∧ r.current_line_start_position ≤ r.current_position) := by
    rcases hcases with ⟨-, -, hr, -⟩ | ⟨-, -, -, hr⟩ | ⟨-, -, -, -, hr⟩ | ⟨-, -, -, hr⟩
        | ⟨-, -, -, hr⟩
    · rw [hr]; exact ⟨hm1, hm2, hm3⟩
    · rw [hr]; simp only []
      exact ⟨by omega, hm2, fun hle => ⟨(hm3 hle).1, by have := (hm3 hle).2; omega⟩⟩
    · rw [hr]; simp only []
      exact ⟨by omega, hm2, fun hle => ⟨(hm3 hle).1, by have := (hm3 hle).2; omega⟩⟩
    · rw [hr]; simp only []
      exact ⟨by omega, hm2, fun hle => ⟨(hm3 hle).1, by have := (hm3 hle).2; omega⟩⟩
    · rw [hr]; simp only []
      refine ⟨by omega, by omega, fun hle => ?_⟩
      have hb := spec_line_start_after_bounds token.value
        ((cj_skip_whitespaces p).current_position + 1)
        (cj_skip_whitespaces p).current_line_start_position
        (by have := (hm3 hle).2; omega)
      have := (hm3 hle).1
      omega
  refine ⟨key.1, key.2.1, key.2.2, ?_, ?_⟩
  · rw [hstart, hend]; exact key.1
  · rw [hstart, hend]; exact key.2.1

/-- The relation `line start position <= position` holds on every cursor of a run from a
cursor on which it holds. -/
theorem cj_read_nth_line_start (n : Nat) :
    ∀ (p0 p : cj_tokenization_process) (t : cj_token),
      p0.current_line_start_position ≤ p0.current_position →
      cj_read_nth n p0 = some (t, p) →
      p.current_line_start_position ≤ p.current_position := by
  induction n with
  | zero =>
    intro p0 p t h0 h
    exact ((cj_read_next_token_monotone p0 p t h).2.2.1 h0).2
  | succ n ih =>
    intro p0 p t h0 h
    rw [cj_read_nth] at h
    cases hread : cj_read_next_token p0 with
    | none => rw [hread] at h; simp at h
    | some res =>
      obtain ⟨t0, q⟩ := res
      rw [hread] at h
      exact ih q p t ((cj_read_next_token_monotone p0 q t0 hread).2.2.1 h0).2 h

/-- C13. The cursor is never rewound along a run: on the initial cursor, and on the cursor
that any number of successful calls made one after the other from the initial cursor have
left, a successful `cj_read_next_token` leaves each of position, line number and line start
position greater than or equal to its value before the call; the token it returns satisfies
`end.offset >= start.offset` and `end.line >= start.line`. -/
theorem C13_cursor_never_rewound (f : cj_source_file) :
    (∀ token r, cj_read_next_token (cj_initial_process f) = some (token, r) →
        (cj_initial_process f).current_position ≤ r.current_position
        ∧ (cj_initial_process f).current_line_number ≤ r.current_line_number
        ∧ (cj_initial_process f).current_line_start_position ≤ r.current_line_start_position
        ∧ token.start.position ≤ token.end_.position
        ∧ token.start.line ≤ token.end_.line)
    ∧ (∀ n t p token r, cj_read_nth n (cj_initial_process f) = some (t, p) →
        cj_read_next_token p = some (token, r) →
        p.current_position ≤ r.current_position
        ∧ p.current_line_number ≤ r.current_line_number
        ∧ p.current_line_start_position ≤ r.current_line_start_position
        ∧ token.start.position ≤ token.end_.position
        ∧ token.start.line ≤ token.end_.line) := by
  constructor
  · intro token r h
    obtain ⟨h1, h2, h3, h4, h5⟩ := cj_read_next_token_monotone _ r token h
    exact ⟨h1, h2, (h3 (le_refl _)).1, h4, h5⟩
  · intro n t p token r hn h
    have hrel := cj_read_nth_line_start n (cj_initial_process f) p t (le_refl _) hn
    obtain ⟨h1, h2, h3, h4, h5⟩ := cj_read_next_token_monotone p r token h
    exact ⟨h1, h2, (h3 hrel).1, h4, h5⟩

/-- A witness of C13: the buffer `a`, line feed, `"`, line feed, `"`.  The first call returns
the identifier and leaves the cursor at position 1; the call on that cursor skips a line feed
and reads a string with a line feed in it, and leaves position 5, line 2, line start 4. -/
theorem C13_cursor_never_rewound_witness :
    ∃ t p token r,
      cj_read_nth 0 (cj_initial_process (cj_source_of [0x61, 0x0A, 0x22, 0x0A, 0x22] 0))
        = some (t, p)
      ∧ cj_read_next_token p = some (token, r)
      ∧ r.current_position = 5 ∧ r.current_line_number = 2
      ∧ r.current_line_start_position = 4
      ∧ p.current_position ≤ r.current_position
      ∧ p.current_line_number ≤ r.current_line_number
      ∧ p.current_line_start_position ≤ r.current_line_start_position
      ∧ token.start.position ≤ token.end_.position
      ∧ token.start.line ≤ token.end_.line :=
  ⟨_, _, _, _, rfl, rfl, rfl, rfl, rfl,
    (C13_cursor_never_rewound (cj_source_of [0x61, 0x0A, 0x22, 0x0A, 0x22] 0)).2 0 _ _ _ _
      rfl rfl⟩

/-- The relation `line start position <= position` is needed for the line start position:
on a cursor that no run reaches, with line start `5` at position `0`, the call on the buffer
of one line feed leaves the line start position at `1`. -/
theorem cj_read_next_token_line_start_relation :
    ∃ token r, cj_read_next_token
          { source_file := cj_source_of [0x0A] 0, current_position := 0,
            current_line_number := 0, current_line_start_position := 5 } = some (token, r)
      ∧ r.current_line_start_position < 5 :=
  ⟨_, _, rfl, by decide⟩

/-! ### Code points that no rule classifies -/

/-- Every code point other than `0` that is no `#`, letter, digit or quote, none of the
punctuators of the `switch` and none of `< > = ! & |` makes `cj_read_next_token` abort when
the whitespace skip leaves the cursor on it. -/
theorem cj_read_next_token_unclassified (p q : cj_tokenization_process)
    (hq : q = cj_skip_whitespaces p)
    (hlt : q.current_position < p.source_file.content_length)
    (h0 : p.source_file.content q.current_position ≠ 0)
    (h1 : p.source_file.content q.current_position ≠ 0x23)
    (h2 : cj_check_alpha (p.source_file.content q.current_position) = false)
    (h3 : cj_check_numeric (p.source_file.content q.current_position) = false)
    (h4 : p.source_file.content q.current_position ≠ 0x27)
    (h5 : p.source_file.content q.current_position ≠ 0x22)
    (h6 : p.source_file.content q.current_position ∉ cj_punctuator_cases)
    (h7 : p.source_file.content q.current_position ∉ spec_single_character_operators) :
    cj_read_next_token p = none := by
  have hs : q.source_file = p.source_file := by rw [hq]; exact cj_skip_whitespaces_source_file p
  rw [← hs] at hlt h0 h1 h2 h3 h4 h5 h6 h7
  rw [cj_read_next_token_punctuator p q hq hlt
    (by simpa [cj_check_comment_start] using h1) h2 h3
    (by simpa [cj_check_character_quote] using h4)
    (by simpa [cj_check_string_quote] using h5)]
  simp only [cj_scan_punctuator]
  generalize q.source_file.content q.current_position = c at *
  have h7' : c ≠ 0x3C ∧ c ≠ 0x3E ∧ c ≠ 0x3D ∧ c ≠ 0x21 ∧ c ≠ 0x26 ∧ c ≠ 0x7C := by
    simpa [spec_single_character_operators] using h7
  obtain ⟨a1, a2, a3, a4, a5, a6⟩ := h7'
  have hsw : cj_punctuator_cases.contains c = false := by
    simpa using h6
  have h3f : ∀ x y, wcscmp_eq [c, x, y] [0x3E, 0x3E, 0x3E] = false := by
    intro x y
    rw [Bool.eq_false_iff]
    intro h
    exact a2 ((wcscmp_eq_three c x y).1 h).1
  have h2f : ∀ x, wcscmp_eq [c, x] [0x21, 0x3D] = false := by
    intro x
    rw [Bool.eq_false_iff]
    intro h
    exact a4 ((wcscmp_eq_two c x).1 h).1
  have hd : wcschr_found [0x3C, 0x3E, 0x26, 0x7C, 0x3D] c = false := by
    rw [Bool.eq_false_iff]
    intro h
    rcases (wcschr_found_iff _ c (by decide)).1 h with h | h
    · simp at h; omega
    · exact h0 h
  have h1f : wcschr_found [0x3C, 0x3E, 0x3D, 0x21, 0x26, 0x7C] c = false := by
    rw [Bool.eq_false_iff]
    intro h
    rcases (wcschr_found_iff _ c (by decide)).1 h with h | h
    · simp at h; omega
    · exact h0 h
  simp only [hsw, h3f, h2f, hd, h1f, Bool.and_false, Bool.false_and,
    Bool.or_false, Bool.false_eq_true, if_false]

/-- C14, the code at the failing input.  The buffer holds the single code point `0`, which is
none of the code points any rule names.  The last test of `cj_scan_punctuator`,
`wcschr(L"<>=!&|", character) != NULL`, holds for it, because `wcschr` finds the terminating
`0` of the string it searches: the call returns a `PUNCTUATOR` whose buffer holds the code
point `0` and advances by one, where C14 says the call fails. -/
theorem C14_code_point_zero_accepted :
    cj_read_next_token (cj_initial_process (cj_source_of [0] 0)) = some (
      { type := cj_token_type.PUNCTUATOR, value_length := 1, value := [0],
        start := ⟨0, 0, 0⟩, end_ := ⟨1, 0, 1⟩ },
      { source_file := cj_source_of [0] 0, current_position := 1,
        current_line_number := 0, current_line_start_position := 0 }) :=
  rfl

/-! ### The example buffers -/

/-- The example buffers are the code points of the texts they stand for. -/
theorem example_buffers_spelled :
    example_import = "import \x7b a, b \x7d from \"x\";".toList.map Char.toNat
    ∧ example_let = "let n : Int = 42;".toList.map Char.toNat
    ∧ example_let_optional = "let n : Int? = null;".toList.map Char.toNat
    ∧ example_let_no_colon = "let n Int = 1;".toList.map Char.toNat := by
  decide

/-! ### The primitives of the parser -/

/-- A successful `cj_get_next_token` has read one token from the tokenizer, made it the
lookahead, and released the lookahead it found. -/
theorem cj_get_next_token_ok (p p' : cj_parsing_process)
    (h : cj_get_next_token p = Except.ok p') :
    ∃ token, cj_read_next_token p.tokenization_process = some (token, p'.tokenization_process)
      ∧ p'.next_token = some token
      ∧ (p.next_token.isSome = true → p'.released = p.released + 1) := by
  unfold cj_get_next_token at h
  cases hread : cj_read_next_token p.tokenization_process with
  | none => rw [hread] at h; simp at h
  | some res =>
    obtain ⟨token, tp⟩ := res
    rw [hread] at h
    simp only [Except.ok.injEq] at h
    subst h
    refine ⟨token, rfl, rfl, ?_⟩
    intro hsome
    cases hnt : p.next_token with
    | none => rw [hnt] at hsome; simp at hsome
    | some t => rfl

/-- The routine `cj_expect_keyword` is the test of the lookahead followed by
`cj_get_next_token`. -/
theorem cj_expect_keyword_eq (p : cj_parsing_process) (keyword : List Nat) :
    cj_expect_keyword p keyword =
      if cj_lookahead_is p cj_token_type.KEYWORD keyword = true then cj_get_next_token p
      else Except.error cj_stop.aborted := by
  unfold cj_expect_keyword cj_lookahead_is
  cases p.next_token with
  | none => simp
  | some token =>
    by_cases h1 : token.type = cj_token_type.KEYWORD
    · by_cases h2 : wcscmp_eq token.value keyword = true
      · have h2' : (wcs token.value == wcs keyword) = true := h2
        simp [h1, h2, h2']
      · have h2' : ¬ (wcs token.value == wcs keyword) = true := h2
        simp [h1, h2, h2']
    · simp [h1]

/-- The routine `cj_expect_punctuator` is the test of the lookahead followed by
`cj_get_next_token`. -/
theorem cj_expect_punctuator_eq (p : cj_parsing_process) (punctuator : List Nat) :
    cj_expect_punctuator p punctuator =
      if cj_lookahead_is p cj_token_type.PUNCTUATOR punctuator = true then cj_get_next_token p
      else Except.error cj_stop.aborted := by
  unfold cj_expect_punctuator cj_lookahead_is
  cases p.next_token with
  | none => simp
  | some token =>
    by_cases h1 : token.type = cj_token_type.PUNCTUATOR
    · by_cases h2 : wcscmp_eq token.value punctuator = true
      · have h2' : (wcs token.value == wcs punctuator) = true := h2
        simp [h1, h2, h2']
      · have h2' : ¬ (wcs token.value == wcs punctuator) = true := h2
        simp [h1, h2, h2']
    · simp [h1]

theorem cj_expect_keyword_ok (p p' : cj_parsing_process) (keyword : List Nat)
    (h : cj_expect_keyword p keyword = Except.ok p') :
    cj_lookahead_is p cj_token_type.KEYWORD keyword = true ∧ cj_get_next_token p = Except.ok p' := by
  rw [cj_expect_keyword_eq] at h
  split_ifs at h with hl
  exact ⟨hl, h⟩

theorem cj_expect_punctuator_ok (p p' : cj_parsing_process) (punctuator : List Nat)
    (h : cj_expect_punctuator p punctuator = Except.ok p') :
    cj_lookahead_is p cj_token_type.PUNCTUATOR punctuator = true
    ∧ cj_get_next_token p = Except.ok p' := by
  rw [cj_expect_punctuator_eq] at h
  split_ifs at h with hl
  exact ⟨hl, h⟩

/-- The test `cj_match_punctuator` in terms of the lookahead. -/
theorem cj_match_punctuator_eq (p : cj_parsing_process) (punctuator : List Nat)
    (token : cj_token) (hnt : p.next_token = some token) :
    cj_match_punctuator p punctuator
      = some (cj_lookahead_is p cj_token_type.PUNCTUATOR punctuator) := by
  unfold cj_match_punctuator cj_lookahead_is
  rw [hnt]
  rfl

/-- A successful `cj_parse_identifier` found an `IDENTIFIER` as lookahead, returns an
`Identifier` node whose `value` points at the text of that token, and has advanced by one
token: the token the node points into is released when the node is returned. -/
theorem cj_parse_identifier_ok (p p' : cj_parsing_process) (node : cj_ast_tree_node)
    (h : cj_parse_identifier p = Except.ok (node, p')) :
    ∃ token, p.next_token = some token ∧ token.type = cj_token_type.IDENTIFIER
      ∧ node = cj_ast_tree_node.mk "Identifier"
          [cj_ast_tree_node_children.STRING_TYPE "value" ⟨p.released, token.value⟩]
      ∧ cj_get_next_token p = Except.ok p'
      ∧ cj_token_text_allocated p' ⟨p.released, token.value⟩ = false := by
  unfold cj_parse_identifier at h
  cases hnt : p.next_token with
  | none => rw [hnt] at h; simp at h
  | some token =>
    rw [hnt] at h
    simp only [] at h
    split_ifs at h with hty
    cases hget : cj_get_next_token p with
    | error e => rw [hget] at h; simp at h
    | ok p2 =>
      rw [hget] at h
      simp only [Except.ok.injEq, Prod.mk.injEq] at h
      obtain ⟨h1, h2⟩ := h
      subst h1 h2
      obtain ⟨t2, -, hnt2, hrel⟩ := cj_get_next_token_ok p p2 hget
      refine ⟨token, rfl, by simpa using hty, rfl, rfl, ?_⟩
      have := hrel (by rw [hnt]; rfl)
      simp [cj_token_text_allocated, hnt2, this]

/-- A successful `cj_parse_primary_expression` has advanced by one token and returns the node
of the lookahead it found: an `Identifier` node for an identifier, and for a literal a
`Literal` node with the single child `value`, of the kind of the literal. -/
theorem cj_parse_primary_expression_ok (p p' : cj_parsing_process) (node : cj_ast_tree_node)
    (h : cj_parse_primary_expression p = Except.ok (node, p')) :
    cj_get_next_token p = Except.ok p'
    ∧ ∃ token, p.next_token = some token
      ∧ ((token.type = cj_token_type.IDENTIFIER
          ∧ node = cj_ast_tree_node.mk "Identifier"
              [cj_ast_tree_node_children.STRING_TYPE "value" ⟨p.released, token.value⟩])
        ∨ (token.type = cj_token_type.STRING_LITERAL
          ∧ node = cj_ast_tree_node.mk "Literal"
              [cj_ast_tree_node_children.STRING_TYPE "value" ⟨p.released, token.value⟩])
        ∨ (token.type = cj_token_type.NUMERIC_LITERAL
          ∧ node = cj_ast_tree_node.mk "Literal"
              [cj_ast_tree_node_children.NUMBER_TYPE "value" (swscanf_Lf token.value)])
        ∨ (token.type = cj_token_type.CHARACTER_LITERAL
          ∧ node = cj_ast_tree_node.mk "Literal"
              [cj_ast_tree_node_children.CHARACTER_TYPE "value" (token.value.headD 0)])
        ∨ (token.type = cj_token_type.BOOLEAN_LITERAL
          ∧ node = cj_ast_tree_node.mk "Literal"
              [cj_ast_tree_node_children.BOOLEAN_TYPE "value"
                (wcscmp_eq token.value L_true)])
        ∨ (token.type = cj_token_type.NULL_LITERAL
          ∧ node = cj_ast_tree_node.mk "Literal"
              [cj_ast_tree_node_children.NULL_TYPE "value"])) := by
  unfold cj_parse_primary_expression at h
  cases hnt : p.next_token with
  | none => rw [hnt] at h; simp at h
  | some token =>
    rw [hnt] at h
    simp only [] at h
    cases hty : token.type <;> rw [hty] at h <;> simp only [] at h <;>
      first
        | (exact absurd h (by simp))
        | (obtain ⟨t, ht1, ht2, ht3, ht4, -⟩ := cj_parse_identifier_ok p p' node h
           rw [hnt] at ht1
           injection ht1 with ht1
           subst ht1
           exact ⟨ht4, _, rfl, Or.inl ⟨hty, ht3⟩⟩)
        | (unfold cj_parse_literal at h
           rw [hnt] at h
           simp only [hty] at h
           cases hget : cj_get_next_token p with
           | error e => rw [hget] at h; simp at h
           | ok p2 =>
             rw [hget] at h
             simp only [Except.ok.injEq, Prod.mk.injEq] at h
             obtain ⟨h1, h2⟩ := h
             subst h1 h2
             refine ⟨rfl, _, rfl, ?_⟩
             simp [hty, cj_init_ast_tree_node, cj_add_ast_tree_node_string_value,
               cj_add_ast_tree_node_number_value, cj_add_ast_tree_node_character_value,
               cj_add_ast_tree_node_boolean_value, cj_add_ast_tree_node_null_value,
               cj_attach_ast_tree_node_children, cj_next_token_value])

/-! ### Declarations: the text pointers of the tree -/

/-- C15, the code at the failing input `import { a, b } from "x";`.  The rule
`cj_parse_import_declaration` succeeds and returns an `ImportDeclaration` node with two
`specifier` children and one `source` child, in this order, and its lookahead is then the
`END_OF_FILE` that follows the `;`.  But the `value` of each `Identifier` node and of the
`Literal` node is the pointer to the text of token number 2, 4 and 7, and when the node is
returned ten tokens have been read and tokens 0 to 8 are released, these three among them:
none of the three pointers points at an allocated buffer, where C15 says the children hold
the strings `a`, `b` and `x`. -/
theorem C15_import_text_released (fuel : Nat) :
    ∃ process process',
      cj_parsing_process_at_start (cj_source_of example_import 0) = Except.ok process
      ∧ cj_parse_import_declaration (fuel + 2) process = Except.ok (
          cj_ast_tree_node.mk "ImportDeclaration"
            [cj_ast_tree_node_children.NODE_TYPE "specifier"
              (some (cj_ast_tree_node.mk "Identifier"
                [cj_ast_tree_node_children.STRING_TYPE "value" ⟨2, [0x61]⟩])),
             cj_ast_tree_node_children.NODE_TYPE "specifier"
              (some (cj_ast_tree_node.mk "Identifier"
                [cj_ast_tree_node_children.STRING_TYPE "value" ⟨4, [0x62]⟩])),
             cj_ast_tree_node_children.NODE_TYPE "source"
              (some (cj_ast_tree_node.mk "Literal"
                [cj_ast_tree_node_children.STRING_TYPE "value" ⟨7, [0x78]⟩]))],
          process')
      ∧ cj_lookahead_is process' cj_token_type.END_OF_FILE [] = true
      ∧ process'.released = 9
      ∧ cj_token_text_allocated process' ⟨2, [0x61]⟩ = false
      ∧ cj_token_text_allocated process' ⟨4, [0x62]⟩ = false
      ∧ cj_token_text_allocated process' ⟨7, [0x78]⟩ = false :=
  ⟨_, _, rfl, rfl, rfl, rfl, rfl, rfl, rfl⟩

/-- C16, the code at the failing input `let n : Int = 42;`.  The rule
`cj_parse_variable_declaration` succeeds and returns a `VariableDeclaration` node with the
four children `id`, `type`, `optional` and `init`, in this order, with `optional` false and
`init` a `Literal` holding the number 42.  But the `value` of the two `Identifier` nodes is
the pointer to the text of token number 1 and 3, and when the node is returned eight tokens
have been read and tokens 0 to 6 are released: neither pointer points at an allocated buffer,
where C16 says that `id` is the identifier `n` and `type` the identifier `Int`. -/
theorem C16_variable_text_released :
    ∃ process process',
      cj_parsing_process_at_start (cj_source_of example_let 0) = Except.ok process
      ∧ cj_parse_variable_declaration process = Except.ok (
          cj_ast_tree_node.mk "VariableDeclaration"
            [cj_ast_tree_node_children.NODE_TYPE "id"
              (some (cj_ast_tree_node.mk "Identifier"
                [cj_ast_tree_node_children.STRING_TYPE "value" ⟨1, [0x6E]⟩])),
             cj_ast_tree_node_children.NODE_TYPE "type"
              (some (cj_ast_tree_node.mk "Identifier"
                [cj_ast_tree_node_children.STRING_TYPE "value" ⟨3, [0x49, 0x6E, 0x74]⟩])),
             cj_ast_tree_node_children.BOOLEAN_TYPE "optional" false,
             cj_ast_tree_node_children.NODE_TYPE "init"
              (some (cj_ast_tree_node.mk "Literal"
                [cj_ast_tree_node_children.NUMBER_TYPE "value" 42]))],
          process')
      ∧ cj_lookahead_is process' cj_token_type.END_OF_FILE [] = true
      ∧ process'.released = 7
      ∧ cj_token_text_allocated process' ⟨1, [0x6E]⟩ = false
      ∧ cj_token_text_allocated process' ⟨3, [0x49, 0x6E, 0x74]⟩ = false :=
  ⟨_, _, rfl, rfl, rfl, rfl, rfl, rfl⟩

theorem cj_advance_succ (n : Nat) (p p1 : cj_parsing_process)
    (h : cj_get_next_token p = Except.ok p1) : cj_advance (n + 1) p = cj_advance n p1 := by
  simp [cj_advance, h]

/-- C17. Whenever `cj_parse_variable_declaration` succeeds, the node it returns is a
`VariableDeclaration` with the children `id`, `type`, `optional`, `init`, and `optional` is
the Boolean that tells whether the token after the type identifier, the fifth of the
declaration, is the punctuator `?`.  When it is, the `?` is consumed: the `=` is the token
after it and the initializer the seventh token; when it is not, the `=` is that fifth token
and the initializer the sixth.  An initializer token of kind `NULL_LITERAL` gives as `init` a
`Literal` node whose single child `value` is of the Null kind. -/
theorem C17_optional_marker (process process' : cj_parsing_process) (node : cj_ast_tree_node)
    (h : cj_parse_variable_declaration process = Except.ok (node, process')) :
    ∃ id type optional init p4 p_init,
      node = cj_ast_tree_node.mk "VariableDeclaration"
        [cj_ast_tree_node_children.NODE_TYPE "id" (some id),
         cj_ast_tree_node_children.NODE_TYPE "type" (some type),
         cj_ast_tree_node_children.BOOLEAN_TYPE "optional" optional,
         cj_ast_tree_node_children.NODE_TYPE "init" (some init)]
      ∧ cj_advance 4 process = Except.ok p4
      ∧ optional = cj_lookahead_is p4 cj_token_type.PUNCTUATOR [0x3F]
      ∧ (optional = true → ∃ p5, cj_advance 5 process = Except.ok p5
          ∧ cj_lookahead_is p5 cj_token_type.PUNCTUATOR [0x3D] = true)
      ∧ (optional = false → cj_lookahead_is p4 cj_token_type.PUNCTUATOR [0x3D] = true)
      ∧ cj_advance (if optional = true then 6 else 5) process = Except.ok p_init
      ∧ (∀ token, p_init.next_token = some token →
          token.type = cj_token_type.NULL_LITERAL →
          init = cj_ast_tree_node.mk "Literal"
            [cj_ast_tree_node_children.NULL_TYPE "value"]) := by
  unfold cj_parse_variable_declaration at h
  cases h1 : cj_expect_keyword process L_let with
  | error e => rw [h1] at h; simp at h
  | ok p1 =>
  rw [h1] at h; simp only [] at h
  cases h2 : cj_parse_identifier p1 with
  | error e => rw [h2] at h; simp at h
  | ok r2 =>
  obtain ⟨id, p2⟩ := r2
  rw [h2] at h; simp only [] at h
  cases h3 : cj_expect_punctuator p2 [0x3A] with
  | error e => rw [h3] at h; simp at h
  | ok p3 =>
  rw [h3] at h; simp only [] at h
  cases h4 : cj_parse_identifier p3 with
  | error e => rw [h4] at h; simp at h
  | ok r4 =>
  obtain ⟨type, p4⟩ := r4
  rw [h4] at h; simp only [] at h
  have g1 := (cj_expect_keyword_ok _ _ _ h1).2
  obtain ⟨_, -, -, -, g2, -⟩ := cj_parse_identifier_ok _ _ _ h2
  have g3 := (cj_expect_punctuator_ok _ _ _ h3).2
  obtain ⟨_, -, -, -, g4, -⟩ := cj_parse_identifier_ok _ _ _ h4
  have a4 : cj_advance 4 process = Except.ok p4 := by
    rw [cj_advance_succ 3 _ _ g1, cj_advance_succ 2 _ _ g2, cj_advance_succ 1 _ _ g3,
      cj_advance_succ 0 _ _ g4]
    rfl
  obtain ⟨tok4, -, hnt4, -⟩ := cj_get_next_token_ok _ _ g4
  rw [cj_match_punctuator_eq p4 [0x3F] tok4 hnt4] at h
  cases hopt : cj_lookahead_is p4 cj_token_type.PUNCTUATOR [0x3F] with
  | true =>
    rw [hopt] at h; simp only [] at h
    cases h5 : cj_get_next_token p4 with
    | error e => rw [h5] at h; simp at h
    | ok p5 =>
    rw [h5] at h; simp only [] at h
    cases h6 : cj_expect_punctuator p5 [0x3D] with
    | error e => rw [h6] at h; simp at h
    | ok p6 =>
    rw [h6] at h; simp only [] at h
    cases h7 : cj_parse_primary_expression p6 with
    | error e => rw [h7] at h; simp at h
    | ok r7 =>
    obtain ⟨init, p7⟩ := r7
    rw [h7] at h; simp only [] at h
    cases h8 : cj_expect_punctuator p7 [0x3B] with
    | error e => rw [h8] at h; simp at h
    | ok p8 =>
    rw [h8] at h
    simp only [Except.ok.injEq, Prod.mk.injEq] at h
    obtain ⟨hnode, -⟩ := h
    obtain ⟨hl6, g6⟩ := cj_expect_punctuator_ok _ _ _ h6
    have a5 : cj_advance 5 process = Except.ok p5 := by
      rw [cj_advance_succ 4 _ _ g1, cj_advance_succ 3 _ _ g2, cj_advance_succ 2 _ _ g3,
        cj_advance_succ 1 _ _ g4, cj_advance_succ 0 _ _ h5]
      rfl
    have a6 : cj_advance 6 process = Except.ok p6 := by
      rw [cj_advance_succ 5 _ _ g1, cj_advance_succ 4 _ _ g2, cj_advance_succ 3 _ _ g3,
        cj_advance_succ 2 _ _ g4, cj_advance_succ 1 _ _ h5, cj_advance_succ 0 _ _ g6]
      rfl
    obtain ⟨-, tok, hnt, hkinds⟩ := cj_parse_primary_expression_ok _ _ _ h7
    refine ⟨id, type, true, init, p4, p6, ?_, a4, hopt.symm, fun _ => ⟨p5, a5, hl6⟩,
      fun hf => absurd hf (by simp), by simpa using a6, ?_⟩
    · rw [← hnode]
      simp [cj_init_ast_tree_node, cj_add_ast_tree_node_relation,
        cj_add_ast_tree_node_boolean_value, cj_attach_ast_tree_node_children]
    · intro token htok hty
      rw [hnt] at htok
      injection htok with htok
      subst htok
      rcases hkinds with ⟨hk, -⟩ | ⟨hk, -⟩ | ⟨hk, -⟩ | ⟨hk, -⟩ | ⟨hk, -⟩ | ⟨-, hn⟩
      · rw [hk] at hty; simp at hty
      · rw [hk] at hty; simp at hty
      · rw [hk] at hty; simp at hty
      · rw [hk] at hty; simp at hty
      · rw [hk] at hty; simp at hty
      · exact hn
  | false =>
    rw [hopt] at h; simp only [] at h
    cases h6 : cj_expect_punctuator p4 [0x3D] with
    | error e => rw [h6] at h; simp at h
    | ok p6 =>
    rw [h6] at h; simp only [] at h
    cases h7 : cj_parse_primary_expression p6 with
    | error e => rw [h7] at h; simp at h
    | ok r7 =>
    obtain ⟨init, p7⟩ := r7
    rw [h7] at h; simp only [] at h
    cases h8 : cj_expect_punctuator p7 [0x3B] with
    | error e => rw [h8] at h; simp at h
    | ok p8 =>
    rw [h8] at h
    simp only [Except.ok.injEq, Prod.mk.injEq] at h
    obtain ⟨hnode, -⟩ := h
    obtain ⟨hl6, g6⟩ := cj_expect_punctuator_ok _ _ _ h6
    have a5 : cj_advance 5 process = Except.ok p6 := by
      rw [cj_advance_succ 4 _ _ g1, cj_advance_succ 3 _ _ g2, cj_advance_succ 2 _ _ g3,
        cj_advance_succ 1 _ _ g4, cj_advance_succ 0 _ _ g6]
      rfl
    obtain ⟨-, tok, hnt, hkinds⟩ := cj_parse_primary_expression_ok _ _ _ h7
    refine ⟨id, type, false, init, p4, p6, ?_, a4, hopt.symm, fun hf => absurd hf (by simp),
      fun _ => hl6, by simpa using a5, ?_⟩
    · rw [← hnode]
      simp [cj_init_ast_tree_node, cj_add_ast_tree_node_relation,
        cj_add_ast_tree_node_boolean_value, cj_attach_ast_tree_node_children]
    · intro token htok hty
      rw [hnt] at htok
      injection htok with htok
      subst htok
      rcases hkinds with ⟨hk, -⟩ | ⟨hk, -⟩ | ⟨hk, -⟩ | ⟨hk, -⟩ | ⟨hk, -⟩ | ⟨-, hn⟩
      · rw [hk] at hty; simp at hty
      · rw [hk] at hty; simp at hty
      · rw [hk] at hty; simp at hty
      · rw [hk] at hty; simp at hty
      · rw [hk] at hty; simp at hty
      · exact hn

/-- A witness of C17: on the buffer `let n : Int? = null;`, entered with `let` as lookahead,
the declaration has `optional` true and `init` a `Literal` with the Null child. -/
theorem C17_optional_marker_witness :
    cj_parsing_process_at_start (cj_source_of example_let_optional 0)
      = Except.ok example_let_optional_start
    ∧ ∃ node process' id type,
      cj_parse_variable_declaration example_let_optional_start = Except.ok (node, process')
      ∧ node = cj_ast_tree_node.mk "VariableDeclaration"
        [cj_ast_tree_node_children.NODE_TYPE "id" (some id),
         cj_ast_tree_node_children.NODE_TYPE "type" (some type),
         cj_ast_tree_node_children.BOOLEAN_TYPE "optional" true,
         cj_ast_tree_node_children.NODE_TYPE "init"
           (some (cj_ast_tree_node.mk "Literal"
             [cj_ast_tree_node_children.NULL_TYPE "value"]))] := by
  refine ⟨rfl, ?_⟩
  have hparse : ∃ node process',
      cj_parse_variable_declaration example_let_optional_start = Except.ok (node, process') :=
    ⟨_, _, rfl⟩
  obtain ⟨node, process', hparse⟩ := hparse
  obtain ⟨id, type, optional, init, p4, p_init, hnode, a4, hopt, -, -, hadv, hnull⟩ :=
    C17_optional_marker example_let_optional_start process' node hparse
  have e4 : ∃ q, cj_advance 4 example_let_optional_start = Except.ok q
      ∧ cj_lookahead_is q cj_token_type.PUNCTUATOR [0x3F] = true := ⟨_, rfl, rfl⟩
  obtain ⟨q, hq1, hq2⟩ := e4
  rw [hq1] at a4
  injection a4 with a4
  subst a4
  rw [hq2] at hopt
  subst hopt
  have e6 : ∃ q6 token, cj_advance 6 example_let_optional_start = Except.ok q6
      ∧ q6.next_token = some token ∧ token.type = cj_token_type.NULL_LITERAL :=
    ⟨_, _, rfl, rfl, rfl⟩
  obtain ⟨q6, token, h61, h62, h63⟩ := e6
  simp only [if_true] at hadv
  rw [h61] at hadv
  injection hadv with hadv
  subst hadv
  have hinit := hnull token h62 h63
  subst hinit
  exact ⟨node, process', id, type, hparse, hnode⟩

/-! ### Expectations -/

/-- C18 (amended). `cj_expect_keyword(k)` aborts unless the lookahead has kind `KEYWORD` and
text `k`, and `cj_expect_punctuator(p)` aborts unless the lookahead has kind `PUNCTUATOR` and
text `p`.  When the lookahead matches, the call reads the next token: it aborts if the
tokenizer aborts on that token, and otherwise succeeds with the lookahead replaced by it.
Parsing `let n Int = 1;`, where the `:` is missing, aborts and produces no tree. -/
theorem C18_expect_or_abort (process : cj_parsing_process) (keyword punctuator : List Nat) :
    (cj_lookahead_is process cj_token_type.KEYWORD keyword = false →
      cj_expect_keyword process keyword = Except.error cj_stop.aborted)
    ∧ (cj_lookahead_is process cj_token_type.KEYWORD keyword = true →
      cj_expect_keyword process keyword =
        match cj_read_next_token process.tokenization_process with
        | none => Except.error cj_stop.aborted
        | some (token, tokenization_process) =>
          Except.ok
            { tokenization_process := tokenization_process
              next_token := some token
              released := process.released + 1 })
    ∧ (cj_lookahead_is process cj_token_type.PUNCTUATOR punctuator = false →
      cj_expect_punctuator process punctuator = Except.error cj_stop.aborted)
    ∧ (cj_lookahead_is process cj_token_type.PUNCTUATOR punctuator = true →
      cj_expect_punctuator process punctuator =
        match cj_read_next_token process.tokenization_process with
        | none => Except.error cj_stop.aborted
        | some (token, tokenization_process) =>
          Except.ok
            { tokenization_process := tokenization_process
              next_token := some token
              released := process.released + 1 })
    ∧ (∀ fuel, cj_parse (fuel + 1) (cj_source_of example_let_no_colon 0)
        = Except.error cj_stop.aborted)
    ∧ (∀ fuel tree process', cj_parse fuel (cj_source_of example_let_no_colon 0)
        ≠ Except.ok (tree, process')) := by
  have hget : ∀ kind text, cj_lookahead_is process kind text = true →
      cj_get_next_token process =
        match cj_read_next_token process.tokenization_process with
        | none => Except.error cj_stop.aborted
        | some (token, tokenization_process) =>
          Except.ok
            { tokenization_process := tokenization_process
              next_token := some token
              released := process.released + 1 } := by
    intro kind text hl
    unfold cj_lookahead_is at hl
    unfold cj_get_next_token
    cases hnt : process.next_token with
    | none => rw [hnt] at hl; simp at hl
    | some t => rfl
  have habort : ∀ fuel, cj_parse (fuel + 1) (cj_source_of example_let_no_colon 0)
      = Except.error cj_stop.aborted := fun _ => rfl
  refine ⟨?_, ?_, ?_, ?_, habort, ?_⟩
  · intro h
    rw [cj_expect_keyword_eq, h]
    simp
  · intro h
    rw [cj_expect_keyword_eq, h, if_pos rfl]
    exact hget _ _ h
  · intro h
    rw [cj_expect_punctuator_eq, h]
    simp
  · intro h
    rw [cj_expect_punctuator_eq, h, if_pos rfl]
    exact hget _ _ h
  · intro fuel tree process' h
    cases fuel with
    | zero =>
      have h0 : cj_parse 0 (cj_source_of example_let_no_colon 0)
          = Except.error cj_stop.out_of_fuel := rfl
      rw [h0] at h
      exact absurd h (by simp)
    | succ n => rw [habort n] at h; exact absurd h (by simp)

/-- A witness of C18: on the buffer `let n : Int? = null;` with `let` as lookahead,
`cj_expect_keyword` with `let` succeeds and the lookahead becomes the identifier `n`, while
`cj_expect_punctuator` with `:` aborts. -/
theorem C18_expect_or_abort_witness :
    cj_lookahead_is example_let_optional_start cj_token_type.KEYWORD L_let = true
    ∧ (∃ process', cj_expect_keyword example_let_optional_start L_let = Except.ok process'
        ∧ cj_lookahead_is process' cj_token_type.IDENTIFIER [0x6E] = true)
    ∧ cj_lookahead_is example_let_optional_start cj_token_type.PUNCTUATOR [0x3A] = false
    ∧ cj_expect_punctuator example_let_optional_start [0x3A] = Except.error cj_stop.aborted :=
  ⟨rfl,
    ⟨_, ((C18_expect_or_abort example_let_optional_start L_let [0x3A]).2.1 rfl).trans rfl, rfl⟩,
    rfl, (C18_expect_or_abort example_let_optional_start L_let [0x3A]).2.2.1 rfl⟩

/-- C18 as stated fails on the buffer `let "`: the lookahead is the keyword `let`, so kind and
text match, but `cj_expect_keyword` with `let` does not succeed, because the tokenizer aborts
on the unterminated string that is the next token. -/
theorem C18_counterexample :
    ∃ process,
      cj_parsing_process_at_start (cj_source_of [0x6C, 0x65, 0x74, 0x20, 0x22] 0)
        = Except.ok process
      ∧ cj_lookahead_is process cj_token_type.KEYWORD L_let = true
      ∧ cj_expect_keyword process L_let = Except.error cj_stop.aborted :=
  ⟨_, rfl, rfl, rfl⟩

/-! ### Program elements -/

/-- On a lookahead that is neither a comment nor the keyword `import` or `let`,
`cj_parse_program_element` returns the `NULL` node and the parsing process it was given. -/
theorem cj_parse_program_element_unrecognized (fuel : Nat) (process : cj_parsing_process)
    (token : cj_token)
    (hnt : process.next_token = some token)
    (hc : token.type ≠ cj_token_type.COMMENT)
    (hk : ¬ (token.type = cj_token_type.KEYWORD
      ∧ (wcs token.value = L_import ∨ wcs token.value = L_let))) :
    cj_parse_program_element fuel process = Except.ok (none, process) := by
  unfold cj_parse_program_element
  rw [hnt]
  simp only [if_neg hc]
  by_cases hkw : token.type = cj_token_type.KEYWORD
  · have h1 : wcscmp_eq token.value L_import = false := by
      rw [Bool.eq_false_iff]
      intro h
      apply hk
      refine ⟨hkw, Or.inl ?_⟩
      have : wcs token.value = wcs L_import := by simpa [wcscmp_eq] using h
      rw [this]; decide
    have h2 : wcscmp_eq token.value L_let = false := by
      rw [Bool.eq_false_iff]
      intro h
      apply hk
      refine ⟨hkw, Or.inr ?_⟩
      have : wcs token.value = wcs L_let := by simpa [wcscmp_eq] using h
      rw [this]; decide
    simp [hkw, h1, h2]
  · simp [hkw]

/-- C19. For every parser state whose lookahead is neither a `COMMENT` token nor a `KEYWORD`
token with text `import` or `let`, `cj_parse_program_element` returns the absent node and
leaves the parser state unchanged: lookahead and tokenizer cursor are as before the call. -/
theorem C19_unrecognized_element (fuel : Nat) (process : cj_parsing_process)
    (token : cj_token)
    (hnt : process.next_token = some token)
    (hc : token.type ≠ cj_token_type.COMMENT)
    (hk : ¬ (token.type = cj_token_type.KEYWORD
      ∧ (wcs token.value = L_import ∨ wcs token.value = L_let))) :
    cj_parse_program_element fuel process = Except.ok (none, process) :=
  cj_parse_program_element_unrecognized fuel process token hnt hc hk

/-- A witness of C19: the lookahead is the identifier `x`. -/
theorem C19_unrecognized_element_witness :
    cj_parse_program_element 0 example_identifier_start
      = Except.ok (none, example_identifier_start) :=
  C19_unrecognized_element 0 example_identifier_start _ rfl (by decide) (by decide)

/-- On a lookahead that is neither `END_OF_FILE`, nor a comment, nor the keyword `import` or
`let`, the loop of `cj_parse_program` is never left: each iteration attaches one more `NULL`
child named `body` and finds the parsing process as it was. -/
theorem cj_parse_program_loop_stuck (fuel : Nat) :
    ∀ (program : cj_ast_tree_node) (process : cj_parsing_process) (token : cj_token),
      process.next_token = some token →
      token.type ≠ cj_token_type.END_OF_FILE →
      token.type ≠ cj_token_type.COMMENT →
      ¬ (token.type = cj_token_type.KEYWORD
        ∧ (wcs token.value = L_import ∨ wcs token.value = L_let)) →
      cj_parse_program_loop fuel program process = Except.error cj_stop.out_of_fuel := by
  induction fuel with
  | zero => intro _ _ _ _ _ _ _; rfl
  | succ n ih =>
    intro program process token hnt he hc hk
    simp only [cj_parse_program_loop, hnt, if_pos he,
      cj_parse_program_element_unrecognized n process token hnt hc hk]
    exact ih _ process token hnt he hc hk

/-- C20, the code at the failing input `x`.  The first token is fetched, the identifier `x`;
from then on `cj_parse_program` loops: whatever the fuel, the loop has not been left when the
fuel is used up, where C20 says that every parse completes or aborts. -/
theorem C20_parse_runs_forever :
    cj_parsing_process_at_start (cj_source_of [0x78] 0) = Except.ok example_identifier_start
    ∧ ∀ fuel, cj_parse fuel (cj_source_of [0x78] 0) = Except.error cj_stop.out_of_fuel := by
  refine ⟨rfl, fun fuel => ?_⟩
  have hstart : cj_get_next_token (cj_initial_parsing_process (cj_source_of [0x78] 0))
      = Except.ok example_identifier_start := rfl
  simp only [cj_parse, hstart, cj_parse_program]
  exact cj_parse_program_loop_stuck fuel _ example_identifier_start _ rfl (by decide)
    (by decide) (by decide)

/-! ### Token spans tile the buffer -/

/-- The call number `n + 1` is the call made on the cursor that call number `n` left. -/
theorem cj_read_nth_succ (n : Nat) :
    ∀ (p : cj_tokenization_process),
      cj_read_nth (n + 1) p =
        match cj_read_nth n p with
        | none => none
        | some (_, q) => cj_read_next_token q := by
  induction n with
  | zero => intro p; rfl
  | succ n ih =>
    intro p
    rw [cj_read_nth]
    cases hread : cj_read_next_token p with
    | none => simp [cj_read_nth, hread]
    | some res =>
      obtain ⟨t, q⟩ := res
      simp only []
      rw [ih q]
      conv_rhs => rw [cj_read_nth]
      simp [hread]

/-- Every token ends at the cursor its call returns. -/
theorem cj_read_nth_end (n : Nat) (p0 p : cj_tokenization_process) (t : cj_token)
    (h : cj_read_nth n p0 = some (t, p)) : t.end_ = cj_fixate_current_position p := by
  cases n with
  | zero => exact (cj_read_next_token_result p0 _ p t rfl h).2.1
  | succ n =>
    rw [cj_read_nth_succ] at h
    cases hn : cj_read_nth n p0 with
    | none => rw [hn] at h; simp at h
    | some res =>
      obtain ⟨t0, q⟩ := res
      rw [hn] at h
      exact (cj_read_next_token_result q _ p t rfl h).2.1

/-- C23. The start of a token is recorded before the whitespace is skipped, so the spans of
the tokens tile the buffer: in the sequence of tokens that repeated calls of
`cj_read_next_token` return from the initial cursor, the first token starts at offset 0,
line 0, column 0, and every later token starts, field for field, where the token before it
ends. -/
theorem C23_token_spans_tile (f : cj_source_file) :
    (∀ t p, cj_read_nth 0 (cj_initial_process f) = some (t, p) → t.start = ⟨0, 0, 0⟩)
    ∧ (∀ n t p t' p', cj_read_nth n (cj_initial_process f) = some (t, p) →
        cj_read_nth (n + 1) (cj_initial_process f) = some (t', p') →
        t'.start = t.end_) := by
  constructor
  · intro t p h
    have := (cj_read_next_token_result (cj_initial_process f) _ p t rfl h).1
    rw [this]
    simp [cj_fixate_current_position, cj_initial_process]
  · intro n t p t' p' h h'
    rw [cj_read_nth_succ, h] at h'
    simp only [] at h'
    rw [(cj_read_next_token_result p _ p' t' rfl h').1, cj_read_nth_end n _ p t h]

/-- A witness of C23: in the buffer of a space, `a`, a line feed and `b` the first token, `a`,
spans offsets 0 to 2 and the second, `b`, starts at offset 2, line 0, column 2. -/
theorem C23_token_spans_tile_witness :
    ∃ t p t' p',
      cj_read_nth 0 (cj_initial_process (cj_source_of [0x20, 0x61, 0x0A, 0x62] 0)) = some (t, p)
      ∧ cj_read_nth 1 (cj_initial_process (cj_source_of [0x20, 0x61, 0x0A, 0x62] 0))
          = some (t', p')
      ∧ t.start = ⟨0, 0, 0⟩ ∧ t.end_ = ⟨2, 0, 2⟩ ∧ t'.start = ⟨2, 0, 2⟩
      ∧ t'.start = t.end_ :=
  ⟨_, _, _, _, rfl, rfl,
    (C23_token_spans_tile (cj_source_of [0x20, 0x61, 0x0A, 0x62] 0)).1 _ _ rfl, rfl, rfl,
    (C23_token_spans_tile (cj_source_of [0x20, 0x61, 0x0A, 0x62] 0)).2 0 _ _ _ _ rfl rfl⟩

/-! ### Progress of the tokenizer -/

/-- A successful call that returns a token other than `END_OF_FILE` found the cursor left by
the whitespace skip inside the buffer and has moved the position beyond it. -/
theorem cj_read_next_token_progress (p r : cj_tokenization_process) (token : cj_token)
    (h : cj_read_next_token p = some (token, r))
    (hne : token.type ≠ cj_token_type.END_OF_FILE) :
    p.current_position < p.source_file.content_length
    ∧ p.current_position < r.current_position
    ∧ r.source_file = p.source_file := by
  obtain ⟨-, -, hcases⟩ := cj_read_next_token_result p (cj_skip_whitespaces p) r token rfl h
  have hm := (cj_skip_whitespaces_monotone p).1
  have hs := cj_skip_whitespaces_source_file p
  rcases hcases with ⟨ht, -⟩ | ⟨hlt, -, -, hr⟩ | ⟨hlt, -, hpos, -, hr⟩ | ⟨hlt, -, -, hr⟩
      | ⟨hlt, -, -, hr⟩
  · exact absurd ht hne
  · rw [hs] at hlt; rw [hr]; simp only []; exact ⟨by omega, by omega, hs⟩
  · rw [hs] at hlt; rw [hr]; simp only []; exact ⟨by omega, by omega, hs⟩
  · rw [hs] at hlt; rw [hr]; simp only []; exact ⟨by omega, by omega, hs⟩
  · rw [hs] at hlt; rw [hr]; simp only []; exact ⟨by omega, by omega, hs⟩

/-- The driver loop never runs out of a fuel that exceeds the number of code points left in
the buffer: each token but the last moves the position forward inside the buffer. -/
theorem main_loop_fuel_enough (fuel : Nat) :
    ∀ (p : cj_tokenization_process),
      p.source_file.content_length - p.current_position < fuel →
      main_loop fuel p ≠ Except.error cj_stop.out_of_fuel := by
  induction fuel with
  | zero => intro p h; omega
  | succ n ih =>
    intro p hfuel
    rw [main_loop]
    cases hread : cj_read_next_token p with
    | none => simp
    | some res =>
      obtain ⟨t, r⟩ := res
      simp only []
      by_cases he : t.type = cj_token_type.END_OF_FILE
      · simp [he]
      · rw [if_neg he]
        obtain ⟨h1, h2, h3⟩ := cj_read_next_token_progress p r t hread he
        have := ih r (by rw [h3]; omega)
        cases hm : main_loop n r with
        | ok ts => simp
        | error e =>
          simp only []
          intro hc
          injection hc with hc
          subst hc
          exact this hm

/-- A run of the driver loop returns at most one token per code point left in the buffer,
plus the final `END_OF_FILE`. -/
theorem main_loop_length (fuel : Nat) :
    ∀ (p : cj_tokenization_process) (tokens : List cj_token),
      main_loop fuel p = Except.ok tokens →
      tokens.length ≤ (p.source_file.content_length - p.current_position) + 1 := by
  induction fuel with
  | zero => intro p tokens h; simp [main_loop] at h
  | succ n ih =>
    intro p tokens h
    rw [main_loop] at h
    cases hread : cj_read_next_token p with
    | none => rw [hread] at h; simp at h
    | some res =>
      obtain ⟨t, r⟩ := res
      rw [hread] at h
      simp only [] at h
      by_cases he : t.type = cj_token_type.END_OF_FILE
      · rw [if_pos he] at h
        injection h with h
        subst h
        simp
      · rw [if_neg he] at h
        obtain ⟨h1, h2, h3⟩ := cj_read_next_token_progress p r t hread he
        cases hm : main_loop n r with
        | error e => rw [hm] at h; simp at h
        | ok ts =>
          rw [hm] at h
          simp only [] at h
          injection h with h
          subst h
          have := ih r ts hm
          rw [h3] at this
          simp only [List.length_cons]
          omega

/-- C25, the code at the failing input.  The buffer is the two code points `'a` and the
memory word behind it holds `'`; the initial cursor satisfies
`0 <= line start position <= position <= buffer length`.  The call succeeds, returns a token
other than `END_OF_FILE`, and leaves the position at `3`, beyond the buffer length `2`, where
C25 says that the position stays within the buffer length after any successful call. -/
theorem C25_position_past_buffer :
    ∃ token r,
      (cj_initial_process (cj_source_of [0x27, 0x61] 0x27)).current_line_start_position
        ≤ (cj_initial_process (cj_source_of [0x27, 0x61] 0x27)).current_position
      ∧ (cj_initial_process (cj_source_of [0x27, 0x61] 0x27)).current_position
        ≤ (cj_source_of [0x27, 0x61] 0x27).content_length
      ∧ cj_read_next_token (cj_initial_process (cj_source_of [0x27, 0x61] 0x27))
        = some (token, r)
      ∧ token.type = cj_token_type.CHARACTER_LITERAL
      ∧ r.current_position = 3
      ∧ ¬ r.current_position ≤ (cj_source_of [0x27, 0x61] 0x27).content_length :=
  ⟨_, _, by decide, by decide, rfl, rfl, rfl, by decide⟩

/-- C26, the code at the failing input.  The buffer is `'`, a line feed, `'`: a character
literal whose one character is the line feed.  After the one successful call from the initial
cursor the position is `3` and one line feed lies before it, at index `1`, but the line
number is still `0` and the line start position still `0`, where C26 says they are `1` and
`2`. -/
theorem C26_line_feed_in_character_literal :
    cj_read_next_token (cj_initial_process (cj_source_of [0x27, 0x0A, 0x27] 0)) = some (
      { type := cj_token_type.CHARACTER_LITERAL, value_length := 1, value := [0x0A],
        start := ⟨0, 0, 0⟩, end_ := ⟨3, 0, 3⟩ },
      { source_file := cj_source_of [0x27, 0x0A, 0x27] 0, current_position := 3,
        current_line_number := 0, current_line_start_position := 0 })
    ∧ (cj_slice (cj_source_of [0x27, 0x0A, 0x27] 0) 0 3).count 0x0A = 1
    ∧ (cj_source_of [0x27, 0x0A, 0x27] 0).content 1 = 0x0A :=
  ⟨rfl, by decide, rfl⟩

/-- C27, the code at the failing inputs.  On the buffer `>>>` the token has a text of three
code points and on the buffer `==` a text of two, but in both the field `value_length` is `0`:
`cj_scan_punctuator` stores the copied characters as the text without setting the counter,
where C27 says the counter is 3 and 2. -/
theorem C27_value_length_not_set :
    (∃ token r, cj_read_next_token (cj_initial_process (cj_source_of [0x3E, 0x3E, 0x3E] 0))
        = some (token, r)
      ∧ token.type = cj_token_type.PUNCTUATOR ∧ token.value = [0x3E, 0x3E, 0x3E]
      ∧ token.value_length = 0)
    ∧ (∃ token r, cj_read_next_token (cj_initial_process (cj_source_of [0x3D, 0x3D] 0))
        = some (token, r)
      ∧ token.type = cj_token_type.PUNCTUATOR ∧ token.value = [0x3D, 0x3D]
      ∧ token.value_length = 0) :=
  ⟨⟨_, _, rfl, rfl, rfl, rfl⟩, ⟨_, _, rfl, rfl, rfl, rfl⟩⟩

/-! ### Consuming tokens -/

theorem cj_lookahead_is_eq (p : cj_parsing_process) (token : cj_token)
    (kind : cj_token_type) (text : List Nat) (h : p.next_token = some token) :
    cj_lookahead_is p kind text = spec_token_is token kind text := by
  simp [cj_lookahead_is, spec_token_is, h]

theorem cj_lookahead_is_true (p : cj_parsing_process) (kind : cj_token_type)
    (text : List Nat) (h : cj_lookahead_is p kind text = true) :
    ∃ token, p.next_token = some token ∧ spec_token_is token kind text = true := by
  unfold cj_lookahead_is at h
  cases hnt : p.next_token with
  | none => rw [hnt] at h; simp at h
  | some t => rw [hnt] at h; exact ⟨t, rfl, h⟩

theorem cj_consumes_one (token : cj_token) (p p' : cj_parsing_process) :
    cj_consumes [token] p p' ↔
      p.next_token = some token ∧ cj_get_next_token p = Except.ok p' := by
  simp only [cj_consumes]
  constructor
  · rintro ⟨h1, p1, h2, h3⟩
    subst h3
    exact ⟨h1, h2⟩
  · rintro ⟨h1, h2⟩
    exact ⟨h1, p', h2, rfl⟩

theorem cj_consumes_append (tokens : List cj_token) :
    ∀ (more : List cj_token) (p p1 p2 : cj_parsing_process),
      cj_consumes tokens p p1 → cj_consumes more p1 p2 → cj_consumes (tokens ++ more) p p2 := by
  induction tokens with
  | nil =>
    intro more p p1 p2 h1 h2
    simp only [cj_consumes] at h1
    subst h1
    simpa using h2
  | cons t tokens ih =>
    intro more p p1 p2 h1 h2
    obtain ⟨hnt, q, hq, hrest⟩ := h1
    exact ⟨hnt, q, hq, ih more q p1 p2 hrest h2⟩

theorem cj_consumes_split (tokens : List cj_token) :
    ∀ (more : List cj_token) (p p2 : cj_parsing_process),
      cj_consumes (tokens ++ more) p p2 →
      ∃ p1, cj_consumes tokens p p1 ∧ cj_consumes more p1 p2 := by
  induction tokens with
  | nil => intro more p p2 h; exact ⟨p, rfl, by simpa using h⟩
  | cons t tokens ih =>
    intro more p p2 h
    obtain ⟨hnt, q, hq, hrest⟩ := h
    obtain ⟨p1, h1, h2⟩ := ih more q p2 hrest
    exact ⟨p1, ⟨hnt, q, hq, h1⟩, h2⟩

/-- Each consumed token is released. -/
theorem cj_consumes_released (tokens : List cj_token) :
    ∀ (p p' : cj_parsing_process), cj_consumes tokens p p' →
      p'.released = p.released + tokens.length := by
  induction tokens with
  | nil => intro p p' h; simp only [cj_consumes] at h; subst h; rfl
  | cons t tokens ih =>
    intro p p' h
    obtain ⟨hnt, q, hq, hrest⟩ := h
    obtain ⟨_, -, -, hrel⟩ := cj_get_next_token_ok p q hq
    rw [ih q p' hrest, hrel (by rw [hnt]; rfl), List.length_cons]
    omega

/-- After a token is consumed there is a lookahead. -/
theorem cj_consumes_lookahead (tokens : List cj_token) :
    ∀ (p p' : cj_parsing_process), cj_consumes tokens p p' → tokens ≠ [] →
      ∃ token, p'.next_token = some token := by
  induction tokens with
  | nil => intro p p' _ h; exact absurd rfl h
  | cons t tokens ih =>
    intro p p' h _
    obtain ⟨hnt, q, hq, hrest⟩ := h
    cases tokens with
    | nil =>
      simp only [cj_consumes] at hrest
      subst hrest
      obtain ⟨t2, -, h2, -⟩ := cj_get_next_token_ok p p' hq
      exact ⟨t2, h2⟩
    | cons t2 tokens => exact ih q p' hrest (by simp)

/-! ### The primitives of the parser as consumers of one token -/

theorem cj_expect_keyword_iff (p p' : cj_parsing_process) (keyword : List Nat) :
    cj_expect_keyword p keyword = Except.ok p' ↔
      ∃ token, cj_consumes [token] p p'
        ∧ spec_token_is token cj_token_type.KEYWORD keyword = true := by
  constructor
  · intro h
    obtain ⟨hl, hg⟩ := cj_expect_keyword_ok p p' keyword h
    obtain ⟨t, hnt, ht⟩ := cj_lookahead_is_true p _ _ hl
    exact ⟨t, (cj_consumes_one t p p').2 ⟨hnt, hg⟩, ht⟩
  · rintro ⟨t, hc, ht⟩
    obtain ⟨hnt, hg⟩ := (cj_consumes_one t p p').1 hc
    rw [cj_expect_keyword_eq, cj_lookahead_is_eq p t _ _ hnt, ht, if_pos rfl, hg]

theorem cj_expect_punctuator_iff (p p' : cj_parsing_process) (punctuator : List Nat) :
    cj_expect_punctuator p punctuator = Except.ok p' ↔
      ∃ token, cj_consumes [token] p p'
        ∧ spec_token_is token cj_token_type.PUNCTUATOR punctuator = true := by
  constructor
  · intro h
    obtain ⟨hl, hg⟩ := cj_expect_punctuator_ok p p' punctuator h
    obtain ⟨t, hnt, ht⟩ := cj_lookahead_is_true p _ _ hl
    exact ⟨t, (cj_consumes_one t p p').2 ⟨hnt, hg⟩, ht⟩
  · rintro ⟨t, hc, ht⟩
    obtain ⟨hnt, hg⟩ := (cj_consumes_one t p p').1 hc
    rw [cj_expect_punctuator_eq, cj_lookahead_is_eq p t _ _ hnt, ht, if_pos rfl, hg]

theorem cj_parse_identifier_iff (p p' : cj_parsing_process) (node : cj_ast_tree_node) :
    cj_parse_identifier p = Except.ok (node, p') ↔
      ∃ token, cj_consumes [token] p p' ∧ token.type = cj_token_type.IDENTIFIER
        ∧ node = spec_identifier_node p.released token := by
  constructor
  · intro h
    obtain ⟨t, hnt, hty, hnode, hg, -⟩ := cj_parse_identifier_ok p p' node h
    exact ⟨t, (cj_consumes_one t p p').2 ⟨hnt, hg⟩, hty, hnode⟩
  · rintro ⟨t, hc, hty, hnode⟩
    obtain ⟨hnt, hg⟩ := (cj_consumes_one t p p').1 hc
    subst hnode
    simp [cj_parse_identifier, hnt, hty, hg, spec_identifier_node, cj_init_ast_tree_node,
      cj_add_ast_tree_node_string_value, cj_attach_ast_tree_node_children, cj_next_token_value]

theorem cj_parse_comment_iff (p p' : cj_parsing_process) (node : cj_ast_tree_node) :
    cj_parse_comment p = Except.ok (node, p') ↔
      ∃ token, cj_consumes [token] p p' ∧ spec_comment_node p.released [token] = some node := by
  constructor
  · intro h
    unfold cj_parse_comment at h
    cases hnt : p.next_token with
    | none => rw [hnt] at h; simp at h
    | some token =>
      rw [hnt] at h
      simp only [] at h
      split_ifs at h with hty
      cases hget : cj_get_next_token p with
      | error e => rw [hget] at h; simp at h
      | ok p2 =>
        rw [hget] at h
        simp only [Except.ok.injEq, Prod.mk.injEq] at h
        obtain ⟨h1, h2⟩ := h
        subst h1 h2
        have hty' : token.type = cj_token_type.COMMENT := by simpa using hty
        refine ⟨token, (cj_consumes_one token p _).2 ⟨hnt, hget⟩, ?_⟩
        simp [spec_comment_node, hty', cj_init_ast_tree_node,
          cj_add_ast_tree_node_string_value, cj_attach_ast_tree_node_children,
          cj_next_token_value]
  · rintro ⟨t, hc, hnode⟩
    obtain ⟨hnt, hg⟩ := (cj_consumes_one t p p').1 hc
    simp only [spec_comment_node] at hnode
    split_ifs at hnode with hty
    injection hnode with hnode
    subst hnode
    simp [cj_parse_comment, hnt, hty, hg, cj_init_ast_tree_node,
      cj_add_ast_tree_node_string_value, cj_attach_ast_tree_node_children, cj_next_token_value]

theorem cj_parse_literal_iff (p p' : cj_parsing_process) (node : cj_ast_tree_node) :
    cj_parse_literal p = Except.ok (node, p') ↔
      ∃ token, cj_consumes [token] p p' ∧ spec_literal_node p.released token = some node := by
  constructor
  · intro h
    unfold cj_parse_literal at h
    cases hnt : p.next_token with
    | none => rw [hnt] at h; simp at h
    | some token =>
      rw [hnt] at h
      simp only [] at h
      cases hget : cj_get_next_token p with
      | error e =>
        rw [hget] at h
        cases hty : token.type <;> rw [hty] at h <;> simp at h
      | ok p2 =>
        rw [hget] at h
        refine ⟨token, ?_⟩
        cases hty : token.type <;> rw [hty] at h <;>
          first
            | (simp only [Except.ok.injEq, Prod.mk.injEq] at h
               obtain ⟨h1, h2⟩ := h
               subst h1 h2
               refine ⟨(cj_consumes_one token p _).2 ⟨hnt, hget⟩, ?_⟩
               simp [spec_literal_node, hty, cj_init_ast_tree_node,
                   cj_add_ast_tree_node_string_value, cj_add_ast_tree_node_number_value,
                   cj_add_ast_tree_node_character_value, cj_add_ast_tree_node_boolean_value,
                   cj_add_ast_tree_node_null_value, cj_attach_ast_tree_node_children,
                   cj_next_token_value])
            | (cases h)
  · rintro ⟨t, hc, hnode⟩
    obtain ⟨hnt, hg⟩ := (cj_consumes_one t p p').1 hc
    unfold cj_parse_literal
    rw [hnt]
    simp only [spec_literal_node] at hnode
    cases hty : t.type <;> rw [hty] at hnode <;> simp only [] at hnode <;>
      first
        | (cases hnode; done)
        | (injection hnode with hnode
           subst hnode
           simp [hty, hg, cj_init_ast_tree_node,
             cj_add_ast_tree_node_string_value, cj_add_ast_tree_node_number_value,
             cj_add_ast_tree_node_character_value, cj_add_ast_tree_node_boolean_value,
             cj_add_ast_tree_node_null_value, cj_attach_ast_tree_node_children,
             cj_next_token_value])

theorem cj_parse_primary_expression_iff (p p' : cj_parsing_process)
    (node : cj_ast_tree_node) :
    cj_parse_primary_expression p = Except.ok (node, p') ↔
      ∃ token, cj_consumes [token] p p' ∧ spec_primary_node p.released token = some node := by
  constructor
  · intro h
    unfold cj_parse_primary_expression at h
    cases hnt : p.next_token with
    | none => rw [hnt] at h; simp at h
    | some token =>
      rw [hnt] at h
      simp only [] at h
      have hsame : ∀ t, cj_consumes [t] p p' → t = token := by
        intro t hc
        have := ((cj_consumes_one t p p').1 hc).1
        rw [hnt] at this
        injection this with this
        exact this.symm
      cases hty : token.type <;> rw [hty] at h <;> simp only [] at h <;>
        first
          | (have h2 := (cj_parse_identifier_iff p p' node).1 h
             obtain ⟨t, hc, ht, hn⟩ := h2
             have := hsame t hc
             subst this
             refine ⟨t, hc, ?_⟩
             simp [spec_primary_node, ht, hn])
          | (have h2 := (cj_parse_literal_iff p p' node).1 h
             obtain ⟨t, hc, hn⟩ := h2
             have := hsame t hc
             subst this
             refine ⟨t, hc, ?_⟩
             simp [spec_primary_node, hty, hn])
          | (cases h)
  · rintro ⟨t, hc, hnode⟩
    have hnt := ((cj_consumes_one t p p').1 hc).1
    unfold cj_parse_primary_expression
    rw [hnt]
    simp only [spec_primary_node] at hnode
    by_cases hid : t.type = cj_token_type.IDENTIFIER
    · rw [if_pos hid] at hnode
      injection hnode with hnode
      simp only [hid]
      exact (cj_parse_identifier_iff p p' node).2 ⟨t, hc, hid, hnode.symm⟩
    · rw [if_neg hid] at hnode
      have hlit := (cj_parse_literal_iff p p' node).2 ⟨t, hc, hnode⟩
      simp only []
      cases hty : t.type <;>
        first
          | (exact absurd hty hid)
          | (rw [spec_literal_node, hty] at hnode
             cases hnode
             done)
          | (simp only []
             exact hlit)


theorem cj_consumes_one_released (token : cj_token) (p p' : cj_parsing_process)
    (h : cj_consumes [token] p p') : p'.released = p.released + 1 :=
  cj_consumes_released [token] p p' h

theorem cj_consumes_one_lookahead (token : cj_token) (p p' : cj_parsing_process)
    (h : cj_consumes [token] p p') : ∃ next, p'.next_token = some next :=
  cj_consumes_lookahead [token] p p' h (by simp)

theorem cj_match_punctuator_consumed (p : cj_parsing_process) (punctuator : List Nat)
    (token : cj_token) (hnt : p.next_token = some token) :
    cj_match_punctuator p punctuator
      = some (spec_token_is token cj_token_type.PUNCTUATOR punctuator) := by
  unfold cj_match_punctuator spec_token_is
  rw [hnt]
  rfl

/-- A token has one text only. -/
theorem spec_token_is_other (token : cj_token) (kind : cj_token_type) (a b : List Nat)
    (h : spec_token_is token kind a = true) (hab : wcs a ≠ wcs b) :
    spec_token_is token kind b = false := by
  unfold spec_token_is at h ⊢
  simp only [Bool.and_eq_true, decide_eq_true_eq, beq_iff_eq] at h
  rw [Bool.eq_false_iff]
  intro hb
  simp only [Bool.and_eq_true, decide_eq_true_eq, beq_iff_eq] at hb
  exact hab (h.2.symm.trans hb.2)

theorem spec_token_is_type (token : cj_token) (kind : cj_token_type) (a : List Nat)
    (h : spec_token_is token kind a = true) : token.type = kind := by
  unfold spec_token_is at h
  simp only [Bool.and_eq_true, decide_eq_true_eq] at h
  exact h.1

/-! ### The rule of the variable declaration -/

/-- A variable declaration the parser returns was read from a token sequence of the rule, and
is the node of the rule. -/
theorem cj_parse_variable_declaration_sound (p p' : cj_parsing_process)
    (node : cj_ast_tree_node)
    (h : cj_parse_variable_declaration p = Except.ok (node, p')) :
    ∃ tokens, cj_consumes tokens p p'
      ∧ spec_variable_declaration_node p.released tokens = some node := by
  unfold cj_parse_variable_declaration at h
  cases h1 : cj_expect_keyword p L_let with
  | error e => rw [h1] at h; cases h
  | ok p1 =>
    simp only [h1] at h
    cases h2 : cj_parse_identifier p1 with
    | error e => rw [h2] at h; cases h
    | ok r2 =>
      obtain ⟨id, p2⟩ := r2
      simp only [h2] at h
      cases h3 : cj_expect_punctuator p2 [0x3A] with
      | error e => rw [h3] at h; cases h
      | ok p3 =>
        simp only [h3] at h
        cases h4 : cj_parse_identifier p3 with
        | error e => rw [h4] at h; cases h
        | ok r4 =>
          obtain ⟨type, p4⟩ := r4
          simp only [h4] at h
          obtain ⟨t1, c1, s1⟩ := (cj_expect_keyword_iff p p1 _).1 h1
          obtain ⟨t2, c2, ty2, n2⟩ := (cj_parse_identifier_iff p1 p2 _).1 h2
          obtain ⟨t3, c3, s3⟩ := (cj_expect_punctuator_iff p2 p3 _).1 h3
          obtain ⟨t4, c4, ty4, n4⟩ := (cj_parse_identifier_iff p3 p4 _).1 h4
          have r1 := cj_consumes_one_released t1 p p1 c1
          have r2 := cj_consumes_one_released t2 p1 p2 c2
          have r3 := cj_consumes_one_released t3 p2 p3 c3
          have r4 := cj_consumes_one_released t4 p3 p4 c4
          obtain ⟨hn1, hg1⟩ := (cj_consumes_one t1 p p1).1 c1
          obtain ⟨hn2, hg2⟩ := (cj_consumes_one t2 p1 p2).1 c2
          obtain ⟨hn3, hg3⟩ := (cj_consumes_one t3 p2 p3).1 c3
          obtain ⟨hn4, hg4⟩ := (cj_consumes_one t4 p3 p4).1 c4
          obtain ⟨t5, hn5⟩ := cj_consumes_one_lookahead t4 p3 p4 c4
          rw [cj_match_punctuator_consumed p4 _ t5 hn5] at h
          cases hq : spec_token_is t5 cj_token_type.PUNCTUATOR [0x3F] with
          | true =>
            simp only [hq] at h
            cases hg5 : cj_get_next_token p4 with
            | error e => rw [hg5] at h; cases h
            | ok p5 =>
              simp only [hg5] at h
              have c5 := (cj_consumes_one t5 p4 p5).2 ⟨hn5, hg5⟩
              have r5 := cj_consumes_one_released t5 p4 p5 c5
              cases h6 : cj_expect_punctuator p5 [0x3D] with
              | error e => rw [h6] at h; cases h
              | ok p6 =>
                simp only [h6] at h
                cases h7 : cj_parse_primary_expression p6 with
                | error e => rw [h7] at h; cases h
                | ok r7 =>
                  obtain ⟨init, p7⟩ := r7
                  simp only [h7] at h
                  cases h8 : cj_expect_punctuator p7 [0x3B] with
                  | error e => rw [h8] at h; cases h
                  | ok p8 =>
                    simp only [h8, Except.ok.injEq, Prod.mk.injEq] at h
                    obtain ⟨hnode, hp⟩ := h
                    subst hp
                    obtain ⟨t6, c6, s6⟩ := (cj_expect_punctuator_iff p5 p6 _).1 h6
                    obtain ⟨t7, c7, n7⟩ := (cj_parse_primary_expression_iff p6 p7 _).1 h7
                    obtain ⟨t8, c8, s8⟩ := (cj_expect_punctuator_iff p7 p8 _).1 h8
                    have r6 := cj_consumes_one_released t6 p5 p6 c6
                    obtain ⟨hn6, hg6⟩ := (cj_consumes_one t6 p5 p6).1 c6
                    obtain ⟨hn7, hg7⟩ := (cj_consumes_one t7 p6 p7).1 c7
                    obtain ⟨hn8, hg8⟩ := (cj_consumes_one t8 p7 p8).1 c8
                    have e1 : p1.released = p.released + 1 := r1
                    have e3 : p3.released = p.released + 3 := by omega
                    have e6 : p6.released = p.released + 6 := by omega
                    rw [e1] at n2
                    rw [e3] at n4
                    rw [e6] at n7
                    refine ⟨[t1, t2, t3, t4, t5, t6, t7, t8],
                      ⟨hn1, p1, hg1, hn2, p2, hg2, hn3, p3, hg3, hn4, p4, hg4, hn5, p5, hg5,
                        hn6, p6, hg6, hn7, p7, hg7, hn8, p8, hg8, rfl⟩, ?_⟩
                    subst hnode n2 n4
                    simp [spec_variable_declaration_node, s1, ty2, s3, ty4, hq, s6, s8, n7,
                      cj_add_ast_tree_node_relation, cj_add_ast_tree_node_boolean_value,
                      cj_attach_ast_tree_node_children, cj_init_ast_tree_node]
          | false =>
            simp only [hq] at h
            cases h6 : cj_expect_punctuator p4 [0x3D] with
            | error e => rw [h6] at h; cases h
            | ok p6 =>
              simp only [h6] at h
              cases h7 : cj_parse_primary_expression p6 with
              | error e => rw [h7] at h; cases h
              | ok r7 =>
                obtain ⟨init, p7⟩ := r7
                simp only [h7] at h
                cases h8 : cj_expect_punctuator p7 [0x3B] with
                | error e => rw [h8] at h; cases h
                | ok p8 =>
                  simp only [h8, Except.ok.injEq, Prod.mk.injEq] at h
                  obtain ⟨hnode, hp⟩ := h
                  subst hp
                  obtain ⟨t6, c6, s6⟩ := (cj_expect_punctuator_iff p4 p6 _).1 h6
                  obtain ⟨t7, c7, n7⟩ := (cj_parse_primary_expression_iff p6 p7 _).1 h7
                  obtain ⟨t8, c8, s8⟩ := (cj_expect_punctuator_iff p7 p8 _).1 h8
                  have r6 := cj_consumes_one_released t6 p4 p6 c6
                  obtain ⟨hn6, hg6⟩ := (cj_consumes_one t6 p4 p6).1 c6
                  obtain ⟨hn7, hg7⟩ := (cj_consumes_one t7 p6 p7).1 c7
                  obtain ⟨hn8, hg8⟩ := (cj_consumes_one t8 p7 p8).1 c8
                  have e1 : p1.released = p.released + 1 := r1
                  have e3 : p3.released = p.released + 3 := by omega
                  have e6 : p6.released = p.released + 5 := by omega
                  rw [e1] at n2
                  rw [e3] at n4
                  rw [e6] at n7
                  refine ⟨[t1, t2, t3, t4, t6, t7, t8],
                    ⟨hn1, p1, hg1, hn2, p2, hg2, hn3, p3, hg3, hn4, p4, hg4,
                      hn6, p6, hg6, hn7, p7, hg7, hn8, p8, hg8, rfl⟩, ?_⟩
                  subst hnode n2 n4
                  simp [spec_variable_declaration_node, s1, ty2, s3, ty4, s6, s8, n7,
                    cj_add_ast_tree_node_relation, cj_add_ast_tree_node_boolean_value,
                    cj_attach_ast_tree_node_children, cj_init_ast_tree_node]

/-- On a token sequence of the rule the parser returns the node of the rule. -/
theorem cj_parse_variable_declaration_complete (p p' : cj_parsing_process)
    (tokens : List cj_token) (node : cj_ast_tree_node)
    (hc : cj_consumes tokens p p')
    (hs : spec_variable_declaration_node p.released tokens = some node) :
    cj_parse_variable_declaration p = Except.ok (node, p') := by
  unfold spec_variable_declaration_node at hs
  split at hs
  · rename_i kw id colon type question equals init semicolon
    split_ifs at hs with hcond
    simp only [Bool.and_eq_true, decide_eq_true_eq] at hcond
    obtain ⟨⟨⟨⟨⟨⟨s1, ty2⟩, s3⟩, ty4⟩, s5⟩, s6⟩, s8⟩ := hcond
    obtain ⟨hn1, p1, hg1, hn2, p2, hg2, hn3, p3, hg3, hn4, p4, hg4, hn5, p5, hg5,
      hn6, p6, hg6, hn7, p7, hg7, hn8, p8, hg8, hp⟩ := hc
    subst hp
    have c1 := (cj_consumes_one _ p p1).2 ⟨hn1, hg1⟩
    have c2 := (cj_consumes_one _ p1 p2).2 ⟨hn2, hg2⟩
    have c3 := (cj_consumes_one _ p2 p3).2 ⟨hn3, hg3⟩
    have c4 := (cj_consumes_one _ p3 p4).2 ⟨hn4, hg4⟩
    have c5 := (cj_consumes_one _ p4 p5).2 ⟨hn5, hg5⟩
    have c6 := (cj_consumes_one _ p5 p6).2 ⟨hn6, hg6⟩
    have c7 := (cj_consumes_one _ p6 p7).2 ⟨hn7, hg7⟩
    have c8 := (cj_consumes_one _ p7 p').2 ⟨hn8, hg8⟩
    have r1 := cj_consumes_one_released _ p p1 c1
    have r2 := cj_consumes_one_released _ p1 p2 c2
    have r3 := cj_consumes_one_released _ p2 p3 c3
    have r4 := cj_consumes_one_released _ p3 p4 c4
    have r5 := cj_consumes_one_released _ p4 p5 c5
    have r6 := cj_consumes_one_released _ p5 p6 c6
    have e3 : p3.released = p.released + 3 := by omega
    have e6 : p6.released = p.released + 6 := by omega
    cases hprim : spec_primary_node (p.released + 6) init with
    | none => rw [hprim] at hs; cases hs
    | some init_node =>
      rw [hprim] at hs
      simp only [Option.some.injEq] at hs
      subst hs
      have h1 := (cj_expect_keyword_iff p p1 L_let).2 ⟨kw, c1, s1⟩
      have h2 := (cj_parse_identifier_iff p1 p2 _).2 ⟨id, c2, ty2, rfl⟩
      have h3 := (cj_expect_punctuator_iff p2 p3 [0x3A]).2 ⟨colon, c3, s3⟩
      have h4 := (cj_parse_identifier_iff p3 p4 _).2 ⟨type, c4, ty4, rfl⟩
      have h5 := cj_match_punctuator_consumed p4 [0x3F] question hn5
      have h6 := (cj_expect_punctuator_iff p5 p6 [0x3D]).2 ⟨equals, c6, s6⟩
      have h7 := (cj_parse_primary_expression_iff p6 p7 init_node).2
        ⟨init, c7, by rw [e6]; exact hprim⟩
      have h8 := (cj_expect_punctuator_iff p7 p' [0x3B]).2 ⟨semicolon, c8, s8⟩
      unfold cj_parse_variable_declaration
      simp only [h1, h2, h3, h4, h5, s5, hg5, h6, h7, h8, r1, e3]
      rfl
  · rename_i kw id colon type equals init semicolon
    split_ifs at hs with hcond
    simp only [Bool.and_eq_true, decide_eq_true_eq] at hcond
    obtain ⟨⟨⟨⟨⟨s1, ty2⟩, s3⟩, ty4⟩, s6⟩, s8⟩ := hcond
    obtain ⟨hn1, p1, hg1, hn2, p2, hg2, hn3, p3, hg3, hn4, p4, hg4,
      hn6, p6, hg6, hn7, p7, hg7, hn8, p8, hg8, hp⟩ := hc
    subst hp
    have c1 := (cj_consumes_one _ p p1).2 ⟨hn1, hg1⟩
    have c2 := (cj_consumes_one _ p1 p2).2 ⟨hn2, hg2⟩
    have c3 := (cj_consumes_one _ p2 p3).2 ⟨hn3, hg3⟩
    have c4 := (cj_consumes_one _ p3 p4).2 ⟨hn4, hg4⟩
    have c6 := (cj_consumes_one _ p4 p6).2 ⟨hn6, hg6⟩
    have c7 := (cj_consumes_one _ p6 p7).2 ⟨hn7, hg7⟩
    have c8 := (cj_consumes_one _ p7 p').2 ⟨hn8, hg8⟩
    have r1 := cj_consumes_one_released _ p p1 c1
    have r2 := cj_consumes_one_released _ p1 p2 c2
    have r3 := cj_consumes_one_released _ p2 p3 c3
    have r4 := cj_consumes_one_released _ p3 p4 c4
    have r6 := cj_consumes_one_released _ p4 p6 c6
    have e3 : p3.released = p.released + 3 := by omega
    have e6 : p6.released = p.released + 5 := by omega
    cases hprim : spec_primary_node (p.released + 5) init with
    | none => rw [hprim] at hs; cases hs
    | some init_node =>
      rw [hprim] at hs
      simp only [Option.some.injEq] at hs
      subst hs
      have h1 := (cj_expect_keyword_iff p p1 L_let).2 ⟨kw, c1, s1⟩
      have h2 := (cj_parse_identifier_iff p1 p2 _).2 ⟨id, c2, ty2, rfl⟩
      have h3 := (cj_expect_punctuator_iff p2 p3 [0x3A]).2 ⟨colon, c3, s3⟩
      have h4 := (cj_parse_identifier_iff p3 p4 _).2 ⟨type, c4, ty4, rfl⟩
      have h5 := cj_match_punctuator_consumed p4 [0x3F] equals hn6
      have s5 : spec_token_is equals cj_token_type.PUNCTUATOR [0x3F] = false :=
        spec_token_is_other equals _ [0x3D] [0x3F] s6 (by decide)
      have h6 := (cj_expect_punctuator_iff p4 p6 [0x3D]).2 ⟨equals, c6, s6⟩
      have h7 := (cj_parse_primary_expression_iff p6 p7 init_node).2
        ⟨init, c7, by rw [e6]; exact hprim⟩
      have h8 := (cj_expect_punctuator_iff p7 p' [0x3B]).2 ⟨semicolon, c8, s8⟩
      unfold cj_parse_variable_declaration
      simp only [h1, h2, h3, h4, h5, s5, h6, h7, h8, r1, e3]
      rfl
  · cases hs


/-! ### The rule of the import declaration -/

/-- The specifier loop, when it returns, has consumed identifiers separated by `,`, has
attached one `specifier` for each, and stands before a token that is not `,`. -/
theorem cj_parse_import_declaration_loop_sound (fuel : Nat) :
    ∀ (type : String) (childrens : List cj_ast_tree_node_children)
      (p p' : cj_parsing_process) (node : cj_ast_tree_node),
      cj_parse_import_declaration_loop fuel (cj_ast_tree_node.mk type childrens) p
        = Except.ok (node, p') →
      ∃ tokens specifiers next, cj_consumes tokens p p' ∧ p'.next_token = some next
        ∧ node = cj_ast_tree_node.mk type (childrens ++ specifiers)
        ∧ ∀ tail, spec_import_specifiers p.released (tokens ++ next :: tail)
            = some (specifiers, next :: tail) := by
  induction fuel with
  | zero => intro type childrens p p' node h; cases h
  | succ fuel ih =>
    intro type childrens p p' node h
    unfold cj_parse_import_declaration_loop at h
    cases h1 : cj_parse_identifier p with
    | error e => rw [h1] at h; cases h
    | ok r1 =>
      obtain ⟨specifier, p1⟩ := r1
      simp only [h1] at h
      obtain ⟨t1, c1, ty1, n1⟩ := (cj_parse_identifier_iff p p1 _).1 h1
      obtain ⟨hn1, hg1⟩ := (cj_consumes_one t1 p p1).1 c1
      have r1 := cj_consumes_one_released t1 p p1 c1
      obtain ⟨t2, hn2⟩ := cj_consumes_one_lookahead t1 p p1 c1
      rw [cj_match_punctuator_consumed p1 _ t2 hn2] at h
      cases hq : spec_token_is t2 cj_token_type.PUNCTUATOR [0x2C] with
      | true =>
        simp only [hq] at h
        cases hg2 : cj_get_next_token p1 with
        | error e => rw [hg2] at h; cases h
        | ok p2 =>
          simp only [hg2] at h
          have c2 := (cj_consumes_one t2 p1 p2).2 ⟨hn2, hg2⟩
          have r2 := cj_consumes_one_released t2 p1 p2 c2
          obtain ⟨tokens, specifiers, next, hc, hnext, hnode, hspec⟩ :=
            ih type _ p2 p' node h
          refine ⟨t1 :: t2 :: tokens,
            cj_ast_tree_node_children.NODE_TYPE "specifier" (some specifier) :: specifiers, next,
            ⟨hn1, p1, hg1, hn2, p2, hg2, hc⟩, hnext, ?_, ?_⟩
          · rw [hnode, List.append_assoc]
            rfl
          · intro tail
            have e2 : p2.released = p.released + 2 := by omega
            have := hspec tail
            rw [e2] at this
            show spec_import_specifiers p.released (t1 :: t2 :: (tokens ++ next :: tail)) = _
            rw [spec_import_specifiers, if_pos ty1, if_pos hq, this, n1]
      | false =>
        simp only [hq, Except.ok.injEq, Prod.mk.injEq] at h
        obtain ⟨hnode, hp⟩ := h
        subst hp
        refine ⟨[t1], [cj_ast_tree_node_children.NODE_TYPE "specifier" (some specifier)], t2,
          c1, hn2, ?_, ?_⟩
        · rw [← hnode]
          rfl
        · intro tail
          simp [spec_import_specifiers, ty1, hq, n1]

/-- The tokens that follow the specifiers are a proper end of the token sequence; the tokens
before them are no `END_OF_FILE`, and each gives a child named `specifier`. -/
theorem spec_import_specifiers_after (n : Nat) :
    ∀ (tokens : List cj_token), tokens.length ≤ n →
      ∀ (block : Nat) (specifiers : List cj_ast_tree_node_children) (after : List cj_token),
        spec_import_specifiers block tokens = some (specifiers, after) →
        ∃ consumed, tokens = consumed ++ after ∧ consumed ≠ [] ∧ after ≠ []
          ∧ (∀ t ∈ consumed, t.type ≠ cj_token_type.END_OF_FILE)
          ∧ specifiers ≠ []
          ∧ ∀ c ∈ specifiers, ∃ b t,
              c = cj_ast_tree_node_children.NODE_TYPE "specifier"
                (some (spec_identifier_node b t)) := by
  induction n with
  | zero =>
    intro tokens hlen block specifiers after h
    cases tokens with
    | nil => simp [spec_import_specifiers] at h
    | cons t tokens => simp at hlen
  | succ n ih =>
    intro tokens hlen block specifiers after h
    match tokens, hlen, h with
    | [], _, h => simp [spec_import_specifiers] at h
    | [_], _, h => simp [spec_import_specifiers] at h
    | id :: next :: rest, hlen, h =>
      unfold spec_import_specifiers at h
      split_ifs at h with hid hcomma
      · cases hrec : spec_import_specifiers (block + 2) rest with
        | none => rw [hrec] at h; cases h
        | some r =>
          obtain ⟨specifiers', after'⟩ := r
          rw [hrec] at h
          simp only [Option.some.injEq, Prod.mk.injEq] at h
          obtain ⟨hspecs, hafter⟩ := h
          subst hafter hspecs
          obtain ⟨consumed, hcons, -, hne, hnoeof, -, hall⟩ :=
            ih rest (by simp only [List.length_cons] at hlen; omega) _ _ _ hrec
          refine ⟨id :: next :: consumed, by rw [hcons]; rfl, by simp, hne, ?_, by simp, ?_⟩
          · intro t ht
            simp only [List.mem_cons] at ht
            rcases ht with ht | ht | ht
            · rw [ht, hid]; decide
            · rw [ht, spec_token_is_type next _ _ hcomma]; decide
            · exact hnoeof t ht
          · intro c hc
            simp only [List.mem_cons] at hc
            rcases hc with hc | hc
            · exact ⟨block, id, hc⟩
            · exact hall c hc
      · simp only [Option.some.injEq, Prod.mk.injEq] at h
        obtain ⟨hspecs, hafter⟩ := h
        subst hafter hspecs
        refine ⟨[id], rfl, by simp, by simp, ?_, by simp, ?_⟩
        · intro t ht
          simp only [List.mem_singleton] at ht
          rw [ht, hid]; decide
        · intro c hc
          simp only [List.mem_singleton] at hc
          exact ⟨block, id, hc⟩

/-- On identifiers separated by `,` the specifier loop attaches one `specifier` for each and
stops before the token that follows them. -/
theorem cj_parse_import_declaration_loop_complete (n : Nat) :
    ∀ (tokens : List cj_token), tokens.length ≤ n →
      ∀ (fuel : Nat) (type : String) (childrens specifiers : List cj_ast_tree_node_children)
        (after : List cj_token) (p p2 : cj_parsing_process),
        tokens.length ≤ fuel →
        cj_consumes tokens p p2 →
        spec_import_specifiers p.released tokens = some (specifiers, after) →
        ∃ p1, cj_parse_import_declaration_loop fuel (cj_ast_tree_node.mk type childrens) p
            = Except.ok (cj_ast_tree_node.mk type (childrens ++ specifiers), p1)
          ∧ cj_consumes after p1 p2 := by
  induction n with
  | zero =>
    intro tokens hlen fuel type childrens specifiers after p p2 hfuel hc h
    cases tokens with
    | nil => simp [spec_import_specifiers] at h
    | cons t tokens => simp at hlen
  | succ n ih =>
    intro tokens hlen fuel type childrens specifiers after p p2 hfuel hc h
    match tokens, hlen, hfuel, hc, h with
    | [], _, _, _, h => simp [spec_import_specifiers] at h
    | [_], _, _, _, h => simp [spec_import_specifiers] at h
    | id :: next :: rest, hlen, hfuel, hc, h =>
      obtain ⟨hn1, q1, hg1, hn2, q2, hg2, hrest⟩ := hc
      have c1 := (cj_consumes_one id p q1).2 ⟨hn1, hg1⟩
      have c2 := (cj_consumes_one next q1 q2).2 ⟨hn2, hg2⟩
      have r1 := cj_consumes_one_released id p q1 c1
      have r2 := cj_consumes_one_released next q1 q2 c2
      simp only [List.length_cons] at hlen hfuel
      obtain ⟨fuel, rfl⟩ : ∃ f, fuel = f + 1 := ⟨fuel - 1, by omega⟩
      unfold spec_import_specifiers at h
      split_ifs at h with hid hcomma
      · cases hrec : spec_import_specifiers (p.released + 2) rest with
        | none => rw [hrec] at h; cases h
        | some r =>
          obtain ⟨specifiers', after'⟩ := r
          rw [hrec] at h
          simp only [Option.some.injEq, Prod.mk.injEq] at h
          obtain ⟨hspecs, hafter⟩ := h
          subst hafter hspecs
          have e2 : q2.released = p.released + 2 := by omega
          obtain ⟨p1, hloop, hcons⟩ :=
            ih rest (by omega) fuel type
              (childrens ++ [cj_ast_tree_node_children.NODE_TYPE "specifier"
                (some (spec_identifier_node p.released id))])
              specifiers' after' q2 p2 (by omega) hrest (by rw [e2]; exact hrec)
          refine ⟨p1, ?_, hcons⟩
          unfold cj_parse_import_declaration_loop
          have h1 := (cj_parse_identifier_iff p q1 _).2 ⟨id, c1, hid, rfl⟩
          simp only [h1, cj_match_punctuator_consumed q1 _ next hn2, hcomma, hg2]
          rw [List.append_assoc] at hloop
          exact hloop
      · simp only [Option.some.injEq, Prod.mk.injEq] at h
        obtain ⟨hspecs, hafter⟩ := h
        subst hafter hspecs
        refine ⟨q1, ?_, ⟨hn2, q2, hg2, hrest⟩⟩
        unfold cj_parse_import_declaration_loop
        have h1 := (cj_parse_identifier_iff p q1 _).2 ⟨id, c1, hid, rfl⟩
        have hcomma' : spec_token_is next cj_token_type.PUNCTUATOR [0x2C] = false := by
          simpa using hcomma
        simp only [h1, cj_match_punctuator_consumed q1 _ next hn2, hcomma']
        rfl


/-- Two tokens consumed from one parsing process are the same token. -/
theorem cj_consumes_one_same (a b : cj_token) (p p1 : cj_parsing_process)
    (ha : cj_consumes [a] p p1) (hb : p.next_token = some b) : a = b := by
  have := ((cj_consumes_one a p p1).1 ha).1
  rw [hb] at this
  injection this with this
  exact this.symm

/-- An import declaration the parser returns was read from a token sequence of the rule, and
is the node of the rule. -/
theorem cj_parse_import_declaration_sound (fuel : Nat) (p p' : cj_parsing_process)
    (node : cj_ast_tree_node)
    (h : cj_parse_import_declaration fuel p = Except.ok (node, p')) :
    ∃ tokens, cj_consumes tokens p p'
      ∧ spec_import_declaration_node p.released tokens = some node := by
  unfold cj_parse_import_declaration at h
  cases h1 : cj_expect_keyword p L_import with
  | error e => rw [h1] at h; cases h
  | ok p1 =>
    simp only [h1] at h
    cases h2 : cj_expect_punctuator p1 [0x7B] with
    | error e => rw [h2] at h; cases h
    | ok p2 =>
      simp only [h2] at h
      cases h3 : cj_parse_import_declaration_loop fuel
          (cj_init_ast_tree_node "ImportDeclaration") p2 with
      | error e => rw [h3] at h; cases h
      | ok r3 =>
        obtain ⟨n3, p3⟩ := r3
        simp only [h3] at h
        cases h4 : cj_expect_punctuator p3 [0x7D] with
        | error e => rw [h4] at h; cases h
        | ok p4 =>
          simp only [h4] at h
          cases h5 : cj_expect_keyword p4 L_from with
          | error e => rw [h5] at h; cases h
          | ok p5 =>
            simp only [h5] at h
            obtain ⟨t1, c1, s1⟩ := (cj_expect_keyword_iff p p1 _).1 h1
            obtain ⟨t2, c2, s2⟩ := (cj_expect_punctuator_iff p1 p2 _).1 h2
            obtain ⟨S, specifiers, next, hc, hnext, hn3, hspec⟩ :=
              cj_parse_import_declaration_loop_sound fuel "ImportDeclaration" [] p2 p3 n3 h3
            obtain ⟨t4, c4, s4⟩ := (cj_expect_punctuator_iff p3 p4 _).1 h4
            have e4 := cj_consumes_one_same t4 next p3 p4 c4 hnext
            subst e4
            obtain ⟨t5, c5, s5⟩ := (cj_expect_keyword_iff p4 p5 _).1 h5
            obtain ⟨t6, hn6⟩ := cj_consumes_one_lookahead t5 p4 p5 c5
            simp only [hn6] at h
            by_cases hty : t6.type = cj_token_type.STRING_LITERAL
            · simp only [hty, ne_eq, not_true_eq_false, if_false] at h
              cases h6 : cj_parse_literal p5 with
              | error e => rw [h6] at h; cases h
              | ok r6 =>
                obtain ⟨source, p6⟩ := r6
                simp only [h6] at h
                cases h7 : cj_expect_punctuator p6 [0x3B] with
                | error e => rw [h7] at h; cases h
                | ok p7 =>
                  simp only [h7, Except.ok.injEq, Prod.mk.injEq] at h
                  obtain ⟨hnode, hp⟩ := h
                  subst hp
                  obtain ⟨t6', c6, n6⟩ := (cj_parse_literal_iff p5 p6 _).1 h6
                  have e6 := cj_consumes_one_same t6' t6 p5 p6 c6 hn6
                  subst e6
                  obtain ⟨t7, c7, s7⟩ := (cj_expect_punctuator_iff p6 p7 _).1 h7
                  have r1 := cj_consumes_one_released _ p p1 c1
                  have r2 := cj_consumes_one_released _ p1 p2 c2
                  have r3 := cj_consumes_released S p2 p3 hc
                  have r4 := cj_consumes_one_released _ p3 p4 c4
                  have r5 := cj_consumes_one_released _ p4 p5 c5
                  obtain ⟨hn1, hg1⟩ := (cj_consumes_one _ p p1).1 c1
                  obtain ⟨hn2, hg2⟩ := (cj_consumes_one _ p1 p2).1 c2
                  obtain ⟨hn4, hg4⟩ := (cj_consumes_one _ p3 p4).1 c4
                  obtain ⟨hn5, hg5⟩ := (cj_consumes_one _ p4 p5).1 c5
                  obtain ⟨-, hg6⟩ := (cj_consumes_one _ p5 p6).1 c6
                  obtain ⟨hn7, hg7⟩ := (cj_consumes_one _ p6 p7).1 c7
                  have e2 : p2.released = p.released + 2 := by omega
                  have e5 : p5.released = p.released + (S ++ [t4, t5, t6', t7]).length := by
                    simp only [List.length_append, List.length_cons, List.length_nil]
                    omega
                  have hs := hspec [t5, t6', t7]
                  rw [e2] at hs
                  rw [spec_literal_node, hty, e5] at n6
                  simp only [Option.some.injEq] at n6
                  refine ⟨t1 :: t2 :: (S ++ [t4, t5, t6', t7]),
                    ⟨hn1, p1, hg1, hn2, p2, hg2, cj_consumes_append S _ p2 p3 p7 hc
                      ⟨hnext, p4, hg4, hn5, p5, hg5, hn6, p6, hg6, hn7, p7, hg7, rfl⟩⟩, ?_⟩
                  rw [spec_import_declaration_node]
                  subst hnode hn3 n6
                  simp [s1, s2, hs, s4, s5, hty, s7, cj_add_ast_tree_node_relation,
                    cj_attach_ast_tree_node_children]
            · simp only [ne_eq, hty, not_false_eq_true, if_true] at h
              cases h

/-- On a token sequence of the rule the parser returns the node of the rule, given fuel for
the specifiers. -/
theorem cj_parse_import_declaration_complete (fuel : Nat) (p p' : cj_parsing_process)
    (tokens : List cj_token) (node : cj_ast_tree_node)
    (hfuel : tokens.length ≤ fuel)
    (hc : cj_consumes tokens p p')
    (hs : spec_import_declaration_node p.released tokens = some node) :
    cj_parse_import_declaration fuel p = Except.ok (node, p') := by
  unfold spec_import_declaration_node at hs
  split at hs
  · rename_i kw lbrace rest
    split_ifs at hs with hcond
    simp only [Bool.and_eq_true] at hcond
    obtain ⟨s1, s2⟩ := hcond
    obtain ⟨hn1, p1, hg1, hn2, p2, hg2, hrest⟩ := hc
    have c1 := (cj_consumes_one _ p p1).2 ⟨hn1, hg1⟩
    have c2 := (cj_consumes_one _ p1 p2).2 ⟨hn2, hg2⟩
    have r1 := cj_consumes_one_released _ p p1 c1
    have r2 := cj_consumes_one_released _ p1 p2 c2
    have e2 : p2.released = p.released + 2 := by omega
    have rrest := cj_consumes_released rest p2 p' hrest
    split at hs
    · rename_i specifiers rbrace kw_from source semicolon hspec
      split_ifs at hs with hcond2
      simp only [Bool.and_eq_true, decide_eq_true_eq] at hcond2
      obtain ⟨⟨⟨s4, s5⟩, hty⟩, s7⟩ := hcond2
      simp only [Option.some.injEq] at hs
      subst hs
      simp only [List.length_cons] at hfuel
      obtain ⟨p3, hloop, hafter⟩ :=
        cj_parse_import_declaration_loop_complete rest.length rest (le_refl _) fuel
          "ImportDeclaration" [] specifiers _ p2 p' (by omega) hrest (by rw [e2]; exact hspec)
      obtain ⟨hn4, p4, hg4, hn5, p5, hg5, hn6, p6, hg6, hn7, p7, hg7, hp⟩ := hafter
      subst hp
      have c4 := (cj_consumes_one _ p3 p4).2 ⟨hn4, hg4⟩
      have c5 := (cj_consumes_one _ p4 p5).2 ⟨hn5, hg5⟩
      have c6 := (cj_consumes_one _ p5 p6).2 ⟨hn6, hg6⟩
      have c7 := (cj_consumes_one _ p6 p').2 ⟨hn7, hg7⟩
      have r6 := cj_consumes_one_released _ p5 p6 c6
      have r7 := cj_consumes_one_released _ p6 p' c7
      have e5 : p5.released = p.released + rest.length := by omega
      have h1 := (cj_expect_keyword_iff p p1 L_import).2 ⟨kw, c1, s1⟩
      have h2 := (cj_expect_punctuator_iff p1 p2 [0x7B]).2 ⟨lbrace, c2, s2⟩
      have h4 := (cj_expect_punctuator_iff p3 p4 [0x7D]).2 ⟨rbrace, c4, s4⟩
      have h5 := (cj_expect_keyword_iff p4 p5 L_from).2 ⟨kw_from, c5, s5⟩
      have h6 := (cj_parse_literal_iff p5 p6 _).2
        ⟨source, c6, by rw [spec_literal_node, hty]⟩
      have h7 := (cj_expect_punctuator_iff p6 p' [0x3B]).2 ⟨semicolon, c7, s7⟩
      have hloop' : cj_parse_import_declaration_loop fuel
          (cj_init_ast_tree_node "ImportDeclaration") p2
            = Except.ok (cj_ast_tree_node.mk "ImportDeclaration" specifiers, p3) := by
        rw [← List.nil_append specifiers]
        exact hloop
      unfold cj_parse_import_declaration
      simp only [h1, h2, hloop', h4, h5, hn6, hty, ne_eq, not_true_eq_false, if_false, h6, h7,
        e5]
      rfl
    · cases hs
  · cases hs


/-! ### The program element -/

theorem spec_comment_node_tokens (block : Nat) (tokens : List cj_token)
    (node : cj_ast_tree_node) (h : spec_comment_node block tokens = some node) :
    ∃ token, tokens = [token] ∧ token.type = cj_token_type.COMMENT
      ∧ node = cj_ast_tree_node.mk "Comment"
          [cj_ast_tree_node_children.STRING_TYPE "content" ⟨block, token.value⟩] := by
  unfold spec_comment_node at h
  split at h
  · rename_i token
    split_ifs at h with hty
    simp only [Option.some.injEq] at h
    exact ⟨token, rfl, hty, h.symm⟩
  · cases h

theorem spec_primary_node_type (block : Nat) (token : cj_token) (node : cj_ast_tree_node)
    (h : spec_primary_node block token = some node) :
    token.type ≠ cj_token_type.END_OF_FILE := by
  intro hty
  simp [spec_primary_node, spec_literal_node, hty] at h

theorem spec_variable_declaration_node_tokens (block : Nat) (tokens : List cj_token)
    (node : cj_ast_tree_node) (h : spec_variable_declaration_node block tokens = some node) :
    (∃ kw next rest, tokens = kw :: next :: rest
      ∧ spec_token_is kw cj_token_type.KEYWORD L_let = true)
    ∧ ∀ t ∈ tokens, t.type ≠ cj_token_type.END_OF_FILE := by
  unfold spec_variable_declaration_node at h
  split at h
  · rename_i kw id colon type question equals init semicolon
    split_ifs at h with hcond
    simp only [Bool.and_eq_true, decide_eq_true_eq] at hcond
    obtain ⟨⟨⟨⟨⟨⟨s1, ty2⟩, s3⟩, ty4⟩, s5⟩, s6⟩, s8⟩ := hcond
    refine ⟨⟨kw, id, _, rfl, s1⟩, ?_⟩
    cases hprim : spec_primary_node (block + 6) init with
    | none => rw [hprim] at h; cases h
    | some init_node =>
      have h7 := spec_primary_node_type _ _ _ hprim
      intro t ht
      simp only [List.mem_cons, List.mem_singleton] at ht
      have hnil : t ∉ ([] : List cj_token) := List.not_mem_nil t
      rcases ht with ht | ht | ht | ht | ht | ht | ht | ht | ht
      · rw [ht, spec_token_is_type _ _ _ s1]; decide
      · rw [ht, ty2]; decide
      · rw [ht, spec_token_is_type _ _ _ s3]; decide
      · rw [ht, ty4]; decide
      · rw [ht, spec_token_is_type _ _ _ s5]; decide
      · rw [ht, spec_token_is_type _ _ _ s6]; decide
      · rw [ht]; exact h7
      · rw [ht, spec_token_is_type _ _ _ s8]; decide
      · exact absurd ht hnil
  · rename_i kw id colon type equals init semicolon
    split_ifs at h with hcond
    simp only [Bool.and_eq_true, decide_eq_true_eq] at hcond
    obtain ⟨⟨⟨⟨⟨s1, ty2⟩, s3⟩, ty4⟩, s6⟩, s8⟩ := hcond
    refine ⟨⟨kw, id, _, rfl, s1⟩, ?_⟩
    cases hprim : spec_primary_node (block + 5) init with
    | none => rw [hprim] at h; cases h
    | some init_node =>
      have h7 := spec_primary_node_type _ _ _ hprim
      intro t ht
      simp only [List.mem_cons, List.mem_singleton] at ht
      have hnil : t ∉ ([] : List cj_token) := List.not_mem_nil t
      rcases ht with ht | ht | ht | ht | ht | ht | ht | ht
      · rw [ht, spec_token_is_type _ _ _ s1]; decide
      · rw [ht, ty2]; decide
      · rw [ht, spec_token_is_type _ _ _ s3]; decide
      · rw [ht, ty4]; decide
      · rw [ht, spec_token_is_type _ _ _ s6]; decide
      · rw [ht]; exact h7
      · rw [ht, spec_token_is_type _ _ _ s8]; decide
      · exact absurd ht hnil
  · cases h

theorem spec_import_declaration_node_tokens (block : Nat) (tokens : List cj_token)
    (node : cj_ast_tree_node) (h : spec_import_declaration_node block tokens = some node) :
    (∃ kw next rest, tokens = kw :: next :: rest
      ∧ spec_token_is kw cj_token_type.KEYWORD L_import = true)
    ∧ ∀ t ∈ tokens, t.type ≠ cj_token_type.END_OF_FILE := by
  unfold spec_import_declaration_node at h
  split at h
  · rename_i kw lbrace rest
    split_ifs at h with hcond
    simp only [Bool.and_eq_true] at hcond
    obtain ⟨s1, s2⟩ := hcond
    refine ⟨⟨kw, lbrace, rest, rfl, s1⟩, ?_⟩
    split at h
    · rename_i specifiers rbrace kw_from source semicolon hspec
      split_ifs at h with hcond2
      simp only [Bool.and_eq_true, decide_eq_true_eq] at hcond2
      obtain ⟨⟨⟨s4, s5⟩, hty⟩, s7⟩ := hcond2
      obtain ⟨consumed, hcons, -, -, hnoeof, -, -⟩ :=
        spec_import_specifiers_after rest.length rest (le_refl _) _ _ _ hspec
      intro t ht
      rw [hcons] at ht
      simp only [List.mem_cons, List.mem_append, List.mem_singleton] at ht
      have hnil : t ∉ ([] : List cj_token) := List.not_mem_nil t
      rcases ht with ht | ht | ht | ht | ht | ht | ht | ht
      · rw [ht, spec_token_is_type _ _ _ s1]; decide
      · rw [ht, spec_token_is_type _ _ _ s2]; decide
      · exact hnoeof t ht
      · rw [ht, spec_token_is_type _ _ _ s4]; decide
      · rw [ht, spec_token_is_type _ _ _ s5]; decide
      · rw [ht, hty]; decide
      · rw [ht, spec_token_is_type _ _ _ s7]; decide
      · exact absurd ht hnil
    · cases h
  · cases h

/-- The three rules of a program element exclude each other, so the node of an element is
the node of the rule that applies. -/
theorem spec_element_node_cases (block : Nat) (tokens : List cj_token)
    (node : cj_ast_tree_node) :
    spec_element_node block tokens = some node ↔
      spec_comment_node block tokens = some node
      ∨ spec_import_declaration_node block tokens = some node
      ∨ spec_variable_declaration_node block tokens = some node := by
  unfold spec_element_node
  constructor
  · intro h
    cases hc : spec_comment_node block tokens with
    | some n => rw [hc] at h; exact Or.inl h
    | none =>
      rw [hc] at h
      cases hi : spec_import_declaration_node block tokens with
      | some n => rw [hi] at h; exact Or.inr (Or.inl h)
      | none => rw [hi] at h; exact Or.inr (Or.inr h)
  · intro h
    rcases h with h | h | h
    · rw [h]
    · obtain ⟨⟨kw, next, rest, htok, -⟩, -⟩ := spec_import_declaration_node_tokens _ _ _ h
      have hc : spec_comment_node block tokens = none := by rw [htok]; rfl
      rw [hc, h]
    · obtain ⟨⟨kw, next, rest, htok, hkw⟩, -⟩ := spec_variable_declaration_node_tokens _ _ _ h
      have hc : spec_comment_node block tokens = none := by rw [htok]; rfl
      have hi : spec_import_declaration_node block tokens = none := by
        cases hi : spec_import_declaration_node block tokens with
        | none => rfl
        | some n =>
          obtain ⟨⟨kw', next', rest', htok', hkw'⟩, -⟩ :=
            spec_import_declaration_node_tokens _ _ _ hi
          rw [htok] at htok'
          injection htok' with hk _
          subst hk
          have := spec_token_is_other kw _ L_let L_import hkw (by decide)
          rw [this] at hkw'
          cases hkw'
      rw [hc, hi]
      exact h

/-- The tokens of a program element are not empty and hold no `END_OF_FILE`. -/
theorem spec_element_node_tokens (block : Nat) (tokens : List cj_token)
    (node : cj_ast_tree_node) (h : spec_element_node block tokens = some node) :
    tokens ≠ [] ∧ ∀ t ∈ tokens, t.type ≠ cj_token_type.END_OF_FILE := by
  rcases (spec_element_node_cases block tokens node).1 h with h | h | h
  · obtain ⟨token, htok, hty, -⟩ := spec_comment_node_tokens _ _ _ h
    subst htok
    refine ⟨by simp, ?_⟩
    intro t ht
    simp only [List.mem_singleton] at ht
    rw [ht, hty]; decide
  · obtain ⟨⟨kw, next, rest, htok, -⟩, hall⟩ := spec_import_declaration_node_tokens _ _ _ h
    exact ⟨by rw [htok]; simp, hall⟩
  · obtain ⟨⟨kw, next, rest, htok, -⟩, hall⟩ := spec_variable_declaration_node_tokens _ _ _ h
    exact ⟨by rw [htok]; simp, hall⟩

/-- A node `cj_parse_program_element` returns was read from the tokens of a program element
and is the node of that element. -/
theorem cj_parse_program_element_sound (fuel : Nat) (p p' : cj_parsing_process)
    (node : cj_ast_tree_node)
    (h : cj_parse_program_element fuel p = Except.ok (some node, p')) :
    ∃ tokens, cj_consumes tokens p p' ∧ spec_element_node p.released tokens = some node := by
  unfold cj_parse_program_element at h
  cases hnt : p.next_token with
  | none => rw [hnt] at h; cases h
  | some token =>
    simp only [hnt] at h
    split_ifs at h with hcomment hkw himport hlet
    · cases h1 : cj_parse_comment p with
      | error e => rw [h1] at h; cases h
      | ok r =>
        obtain ⟨n, q⟩ := r
        simp only [h1, Except.ok.injEq, Prod.mk.injEq, Option.some.injEq] at h
        obtain ⟨hn, hq⟩ := h
        subst hn hq
        obtain ⟨t, c, hs⟩ := (cj_parse_comment_iff p q n).1 h1
        exact ⟨[t], c, (spec_element_node_cases _ _ _).2 (Or.inl hs)⟩
    · cases h1 : cj_parse_import_declaration fuel p with
      | error e => rw [h1] at h; cases h
      | ok r =>
        obtain ⟨n, q⟩ := r
        simp only [h1, Except.ok.injEq, Prod.mk.injEq, Option.some.injEq] at h
        obtain ⟨hn, hq⟩ := h
        subst hn hq
        obtain ⟨tokens, c, hs⟩ := cj_parse_import_declaration_sound fuel p q n h1
        exact ⟨tokens, c, (spec_element_node_cases _ _ _).2 (Or.inr (Or.inl hs))⟩
    · cases h1 : cj_parse_variable_declaration p with
      | error e => rw [h1] at h; cases h
      | ok r =>
        obtain ⟨n, q⟩ := r
        simp only [h1, Except.ok.injEq, Prod.mk.injEq, Option.some.injEq] at h
        obtain ⟨hn, hq⟩ := h
        subst hn hq
        obtain ⟨tokens, c, hs⟩ := cj_parse_variable_declaration_sound p q n h1
        exact ⟨tokens, c, (spec_element_node_cases _ _ _).2 (Or.inr (Or.inr hs))⟩
    · simp at h
    · simp at h

/-- When `cj_parse_program_element` returns the `NULL` node, the lookahead is none of the
tokens a program element starts with. -/
theorem cj_parse_program_element_null (fuel : Nat) (p p' : cj_parsing_process)
    (token : cj_token) (hnt : p.next_token = some token)
    (h : cj_parse_program_element fuel p = Except.ok (none, p')) :
    token.type ≠ cj_token_type.COMMENT
    ∧ ¬ (token.type = cj_token_type.KEYWORD
      ∧ (wcs token.value = L_import ∨ wcs token.value = L_let)) := by
  unfold cj_parse_program_element at h
  simp only [hnt] at h
  split_ifs at h with hcomment hkw himport hlet
  · cases h1 : cj_parse_comment p with
    | error e => rw [h1] at h; cases h
    | ok r => rw [h1] at h; simp at h
  · cases h1 : cj_parse_import_declaration fuel p with
    | error e => rw [h1] at h; cases h
    | ok r => rw [h1] at h; simp at h
  · cases h1 : cj_parse_variable_declaration p with
    | error e => rw [h1] at h; cases h
    | ok r => rw [h1] at h; simp at h
  · refine ⟨hcomment, ?_⟩
    rintro ⟨-, hor⟩
    rcases hor with hor | hor
    · apply himport
      unfold wcscmp_eq
      rw [hor]
      decide
    · apply hlet
      unfold wcscmp_eq
      rw [hor]
      decide
  · exact ⟨hcomment, fun hk => hkw hk.1⟩

/-- On the tokens of a program element `cj_parse_program_element` returns the node of the
element, given fuel for the specifiers of an import declaration. -/
theorem cj_parse_program_element_complete (fuel : Nat) (p p' : cj_parsing_process)
    (tokens : List cj_token) (node : cj_ast_tree_node)
    (hfuel : tokens.length ≤ fuel)
    (hc : cj_consumes tokens p p')
    (hs : spec_element_node p.released tokens = some node) :
    cj_parse_program_element fuel p = Except.ok (some node, p') := by
  rcases (spec_element_node_cases _ tokens node).1 hs with h | h | h
  · obtain ⟨token, htok, hty, -⟩ := spec_comment_node_tokens _ _ _ h
    subst htok
    have hnt := ((cj_consumes_one token p p').1 hc).1
    have h1 := (cj_parse_comment_iff p p' node).2 ⟨token, hc, h⟩
    unfold cj_parse_program_element
    simp only [hnt, hty, if_true, h1]
  · obtain ⟨⟨kw, next, rest, htok, hkw⟩, -⟩ := spec_import_declaration_node_tokens _ _ _ h
    subst htok
    have hnt := hc.1
    have hty := spec_token_is_type _ _ _ hkw
    have hcmp : wcscmp_eq kw.value L_import = true := by
      unfold spec_token_is at hkw
      simp only [Bool.and_eq_true] at hkw
      exact hkw.2
    have h1 := cj_parse_import_declaration_complete fuel p p' _ node hfuel hc h
    unfold cj_parse_program_element
    simp only [hnt, hty, hcmp, if_true, h1]
    rfl
  · obtain ⟨⟨kw, next, rest, htok, hkw⟩, -⟩ := spec_variable_declaration_node_tokens _ _ _ h
    subst htok
    have hnt := hc.1
    have hty := spec_token_is_type _ _ _ hkw
    have hcmp : wcscmp_eq kw.value L_let = true := by
      unfold spec_token_is at hkw
      simp only [Bool.and_eq_true] at hkw
      exact hkw.2
    have hcmp' : wcscmp_eq kw.value L_import = false := by
      have := spec_token_is_other kw _ L_let L_import hkw (by decide)
      unfold spec_token_is at this
      rw [hty] at this
      unfold wcscmp_eq
      simpa using this
    have h1 := cj_parse_variable_declaration_complete p p' _ node hc h
    unfold cj_parse_program_element
    simp only [hnt, hty, hcmp, hcmp', if_true, h1]
    rfl


/-! ### The token stream of the parser is the token sequence of the tokenizer -/

theorem main_loop_ne_nil (fuel : Nat) :
    ∀ (p : cj_tokenization_process) (tokens : List cj_token),
      main_loop fuel p = Except.ok tokens → tokens ≠ [] := by
  cases fuel with
  | zero => intro p tokens h; cases h
  | succ fuel =>
    intro p tokens h
    unfold main_loop at h
    cases hread : cj_read_next_token p with
    | none => rw [hread] at h; cases h
    | some r =>
      obtain ⟨token, q⟩ := r
      simp only [hread] at h
      split_ifs at h with hty
      · simp only [Except.ok.injEq] at h
        rw [← h]; simp
      · cases hrec : main_loop fuel q with
        | error e => rw [hrec] at h; cases h
        | ok rest =>
          simp only [hrec, Except.ok.injEq] at h
          rw [← h]; simp

/-- One step of the driver loop, read backwards. -/
theorem main_loop_ok (fuel : Nat) (p : cj_tokenization_process) (tokens : List cj_token)
    (h : main_loop fuel p = Except.ok tokens) :
    ∃ token q rest, cj_read_next_token p = some (token, q) ∧ tokens = token :: rest
      ∧ ((token.type = cj_token_type.END_OF_FILE ∧ rest = [])
        ∨ (token.type ≠ cj_token_type.END_OF_FILE
          ∧ ∃ fuel', main_loop fuel' q = Except.ok rest)) := by
  cases fuel with
  | zero => cases h
  | succ fuel =>
    unfold main_loop at h
    cases hread : cj_read_next_token p with
    | none => rw [hread] at h; cases h
    | some r =>
      obtain ⟨token, q⟩ := r
      simp only [hread] at h
      split_ifs at h with hty
      · simp only [Except.ok.injEq] at h
        exact ⟨token, q, [], rfl, h.symm, Or.inl ⟨hty, rfl⟩⟩
      · cases hrec : main_loop fuel q with
        | error e => rw [hrec] at h; cases h
        | ok rest =>
          simp only [hrec, Except.ok.injEq] at h
          exact ⟨token, q, rest, rfl, h.symm, Or.inr ⟨hty, fuel, hrec⟩⟩

/-- One step of the driver loop, read forwards. -/
theorem main_loop_of_read (p q : cj_tokenization_process) (token : cj_token)
    (rest : List cj_token)
    (hread : cj_read_next_token p = some (token, q))
    (h : (token.type = cj_token_type.END_OF_FILE ∧ rest = [])
        ∨ (token.type ≠ cj_token_type.END_OF_FILE
          ∧ ∃ fuel, main_loop fuel q = Except.ok rest)) :
    ∃ fuel, main_loop fuel p = Except.ok (token :: rest) := by
  rcases h with ⟨hty, hrest⟩ | ⟨hty, fuel, hrec⟩
  · refine ⟨1, ?_⟩
    unfold main_loop
    simp only [hread, hty, if_true, hrest]
  · refine ⟨fuel + 1, ?_⟩
    unfold main_loop
    simp only [hread, hty, if_false, hrec]

theorem cj_get_next_token_read (p p' : cj_parsing_process) :
    cj_get_next_token p = Except.ok p' ↔
      ∃ token, cj_read_next_token p.tokenization_process
          = some (token, p'.tokenization_process)
        ∧ p'.next_token = some token
        ∧ p'.released = (match p.next_token with
            | some _ => p.released + 1
            | none => p.released) := by
  unfold cj_get_next_token
  constructor
  · intro h
    cases hread : cj_read_next_token p.tokenization_process with
    | none => rw [hread] at h; cases h
    | some r =>
      obtain ⟨token, q⟩ := r
      simp only [hread, Except.ok.injEq] at h
      subst h
      exact ⟨token, rfl, rfl, rfl⟩
  · rintro ⟨token, hread, hnt, hrel⟩
    simp only [hread, Except.ok.injEq]
    cases p' with
    | mk tp nt rel =>
      simp only [] at hnt hrel
      rw [hnt, hrel]

theorem cj_stream_head (p : cj_parsing_process) (token : cj_token) (rest : List cj_token)
    (h : cj_stream p (token :: rest)) : p.next_token = some token := by
  obtain ⟨t, r, heq, hnt, -⟩ := h
  injection heq with h1 h2
  rw [h1]
  exact hnt

/-- The stream goes on after a token that is followed by another. -/
theorem cj_stream_step (p : cj_parsing_process) (token next : cj_token)
    (rest : List cj_token) (h : cj_stream p (token :: next :: rest)) :
    token.type ≠ cj_token_type.END_OF_FILE
    ∧ ∃ p1, cj_get_next_token p = Except.ok p1 ∧ cj_stream p1 (next :: rest) := by
  obtain ⟨t, r, heq, hnt, hor⟩ := h
  injection heq with h1 h2
  subst h1 h2
  rcases hor with ⟨-, hnil⟩ | ⟨hty, fuel, hloop⟩
  · cases hnil
  · refine ⟨hty, ?_⟩
    obtain ⟨t2, q, rest2, hread, heq, hor⟩ := main_loop_ok fuel _ _ hloop
    injection heq with h1 h2
    subst h1 h2
    refine ⟨⟨q, some next, p.released + 1⟩, ?_, ?_⟩
    · rw [cj_get_next_token_read]
      exact ⟨next, hread, rfl, by rw [hnt]⟩
    · exact ⟨next, rest, rfl, rfl, hor⟩

/-- The stream before a token that is passed. -/
theorem cj_stream_unstep (p p1 : cj_parsing_process) (token : cj_token)
    (tokens : List cj_token)
    (hnt : p.next_token = some token)
    (hty : token.type ≠ cj_token_type.END_OF_FILE)
    (hget : cj_get_next_token p = Except.ok p1)
    (h : cj_stream p1 tokens) : cj_stream p (token :: tokens) := by
  obtain ⟨t, r, heq, hnt1, hor⟩ := h
  obtain ⟨t', hread, hnt1', -⟩ := (cj_get_next_token_read p p1).1 hget
  rw [hnt1] at hnt1'
  injection hnt1' with ht
  subst ht
  subst heq
  exact ⟨token, t :: r, rfl, hnt, Or.inr ⟨hty, main_loop_of_read _ _ t r hread hor⟩⟩

/-- The parser consumes the tokens of the stream. -/
theorem cj_stream_consumes (tokens : List cj_token) :
    ∀ (rest : List cj_token) (p : cj_parsing_process), rest ≠ [] →
      cj_stream p (tokens ++ rest) →
      ∃ p', cj_consumes tokens p p' ∧ cj_stream p' rest := by
  induction tokens with
  | nil => intro rest p _ h; exact ⟨p, rfl, h⟩
  | cons t tokens ih =>
    intro rest p hne h
    obtain ⟨next, more, hmore⟩ : ∃ next more, tokens ++ rest = next :: more := by
      cases hl : tokens ++ rest with
      | nil => simp [hne] at hl
      | cons a b => exact ⟨a, b, rfl⟩
    have hnt := cj_stream_head p t _ h
    rw [List.cons_append, hmore] at h
    obtain ⟨-, p1, hget, hstream⟩ := cj_stream_step p t next more h
    rw [← hmore] at hstream
    obtain ⟨p', hc, hs⟩ := ih rest p1 hne hstream
    exact ⟨p', ⟨hnt, p1, hget, hc⟩, hs⟩

/-- The tokens the parser consumes, none an `END_OF_FILE`, stand in the stream before the
tokens that follow. -/
theorem cj_consumes_stream (tokens : List cj_token) :
    ∀ (rest : List cj_token) (p p' : cj_parsing_process),
      (∀ t ∈ tokens, t.type ≠ cj_token_type.END_OF_FILE) →
      cj_consumes tokens p p' → cj_stream p' rest → cj_stream p (tokens ++ rest) := by
  induction tokens with
  | nil =>
    intro rest p p' _ hc hs
    simp only [cj_consumes] at hc
    subst hc
    exact hs
  | cons t tokens ih =>
    intro rest p p' hall hc hs
    obtain ⟨hnt, p1, hget, hrest⟩ := hc
    have h1 := ih rest p1 p' (fun x hx => hall x (List.mem_cons_of_mem _ hx)) hrest hs
    exact cj_stream_unstep p p1 t _ hnt (hall t (List.mem_cons_self _ _)) hget h1

/-- The stream at the start of the parse is the token sequence the driver loop of the
tokenizer returns on the buffer. -/
theorem cj_stream_at_start (source_file : cj_source_file) (tokens : List cj_token) :
    (∃ fuel, main_loop fuel (cj_initial_process source_file) = Except.ok tokens) ↔
      ∃ p, cj_get_next_token (cj_initial_parsing_process source_file) = Except.ok p
        ∧ p.released = 0 ∧ cj_stream p tokens := by
  constructor
  · rintro ⟨fuel, h⟩
    obtain ⟨token, q, rest, hread, heq, hor⟩ := main_loop_ok fuel _ _ h
    refine ⟨⟨q, some token, 0⟩, ?_, rfl, ⟨token, rest, heq, rfl, hor⟩⟩
    rw [cj_get_next_token_read]
    exact ⟨token, hread, rfl, rfl⟩
  · rintro ⟨p, hget, -, token, rest, heq, hnt, hor⟩
    obtain ⟨t', hread, hnt', -⟩ := (cj_get_next_token_read _ p).1 hget
    rw [hnt] at hnt'
    injection hnt' with ht
    subst ht heq
    exact main_loop_of_read _ _ token rest hread hor

/-! ### The program loop -/

theorem spec_program_nodes_ne_nil (block : Nat) (tokens : List cj_token)
    (nodes : List cj_ast_tree_node) (h : spec_program_nodes block tokens nodes) :
    tokens ≠ [] := by
  induction h with
  | end_of_file block token _ => simp
  | element block tokens rest node nodes _ _ ih => simp [ih]

/-- A tree the program loop returns: the tokens from the lookahead on are a sentence of
`ProgramElement* EndOfFile`, and the loop has attached the node of each element, in order, as
a child `body`. -/
theorem cj_parse_program_loop_sound (fuel : Nat) :
    ∀ (type : String) (childrens : List cj_ast_tree_node_children)
      (p p' : cj_parsing_process) (tree : cj_ast_tree_node),
      cj_parse_program_loop fuel (cj_ast_tree_node.mk type childrens) p
        = Except.ok (tree, p') →
      ∃ tokens nodes, cj_stream p tokens ∧ spec_program_nodes p.released tokens nodes
        ∧ tree = cj_ast_tree_node.mk type
            (childrens ++ nodes.map
              (fun node => cj_ast_tree_node_children.NODE_TYPE "body" (some node))) := by
  induction fuel with
  | zero => intro type childrens p p' tree h; cases h
  | succ fuel ih =>
    intro type childrens p p' tree h
    unfold cj_parse_program_loop at h
    cases hnt : p.next_token with
    | none => rw [hnt] at h; cases h
    | some token =>
      simp only [hnt] at h
      by_cases hty : token.type = cj_token_type.END_OF_FILE
      · simp only [hty, ne_eq, not_true_eq_false, if_false, Except.ok.injEq,
          Prod.mk.injEq] at h
        obtain ⟨htree, -⟩ := h
        refine ⟨[token], [], ⟨token, [], rfl, hnt, Or.inl ⟨hty, rfl⟩⟩,
          spec_program_nodes.end_of_file _ token hty, ?_⟩
        rw [← htree]
        simp
      · simp only [ne_eq, hty, not_false_eq_true, if_true] at h
        cases hel : cj_parse_program_element fuel p with
        | error e => rw [hel] at h; cases h
        | ok r =>
          obtain ⟨element, p1⟩ := r
          simp only [hel] at h
          cases element with
          | none =>
            obtain ⟨hc, hk⟩ := cj_parse_program_element_null fuel p p1 token hnt hel
            have hsame := cj_parse_program_element_unrecognized fuel p token hnt hc hk
            rw [hsame] at hel
            simp only [Except.ok.injEq, Prod.mk.injEq, true_and] at hel
            subst hel
            rw [cj_parse_program_loop_stuck fuel _ p token hnt hty hc hk] at h
            cases h
          | some node =>
            obtain ⟨E, hcons, hspec⟩ := cj_parse_program_element_sound fuel p p1 node hel
            obtain ⟨hne, hall⟩ := spec_element_node_tokens _ _ _ hspec
            obtain ⟨tokens, nodes, hstream, hprog, htree⟩ := ih type _ p1 p' tree h
            have hrel := cj_consumes_released E p p1 hcons
            rw [hrel] at hprog
            refine ⟨E ++ tokens, node :: nodes, cj_consumes_stream E tokens p p1 hall hcons hstream,
              spec_program_nodes.element _ E tokens node nodes hspec hprog, ?_⟩
            rw [htree, List.append_assoc]
            rfl

/-- On a sentence of `ProgramElement* EndOfFile` the program loop attaches the node of each
element, in order, as a child `body`, and returns, given fuel for the tokens. -/
theorem cj_parse_program_loop_complete (block : Nat) (tokens : List cj_token)
    (nodes : List cj_ast_tree_node) (h : spec_program_nodes block tokens nodes) :
    ∀ (fuel : Nat) (type : String) (childrens : List cj_ast_tree_node_children)
      (p : cj_parsing_process),
      p.released = block → cj_stream p tokens → tokens.length ≤ fuel →
      ∃ p', cj_parse_program_loop fuel (cj_ast_tree_node.mk type childrens) p
        = Except.ok (cj_ast_tree_node.mk type
            (childrens ++ nodes.map
              (fun node => cj_ast_tree_node_children.NODE_TYPE "body" (some node))), p') := by
  induction h with
  | end_of_file block token hty =>
    intro fuel type childrens p _ hstream hfuel
    have hnt := cj_stream_head p token [] hstream
    obtain ⟨fuel, rfl⟩ : ∃ f, fuel = f + 1 :=
      ⟨fuel - 1, by simp only [List.length_singleton] at hfuel; omega⟩
    refine ⟨p, ?_⟩
    unfold cj_parse_program_loop
    simp only [hnt, hty, ne_eq, not_true_eq_false, if_false, List.map_nil, List.append_nil]
  | element block E rest node nodes hspec hprog ih =>
    intro fuel type childrens p hrel hstream hfuel
    obtain ⟨hne, hall⟩ := spec_element_node_tokens _ _ _ hspec
    have hrest := spec_program_nodes_ne_nil _ _ _ hprog
    obtain ⟨p1, hcons, hstream1⟩ := cj_stream_consumes E rest p hrest hstream
    obtain ⟨t, E', hE⟩ : ∃ t E', E = t :: E' := by
      cases E with
      | nil => exact absurd rfl hne
      | cons a b => exact ⟨a, b, rfl⟩
    have hnt : p.next_token = some t := by rw [hE] at hcons; exact hcons.1
    have hty : t.type ≠ cj_token_type.END_OF_FILE := hall t (by rw [hE]; simp)
    have hlenE : 1 ≤ E.length := by rw [hE]; simp
    have hlenR : 1 ≤ rest.length := by
      cases rest with
      | nil => exact absurd rfl hrest
      | cons a b => simp
    simp only [List.length_append] at hfuel
    obtain ⟨fuel, rfl⟩ : ∃ f, fuel = f + 1 := ⟨fuel - 1, by omega⟩
    have hel := cj_parse_program_element_complete fuel p p1 E node (by omega) hcons
      (by rw [hrel]; exact hspec)
    have hrel1 := cj_consumes_released E p p1 hcons
    obtain ⟨p', hloop⟩ := ih fuel type
      (childrens ++ [cj_ast_tree_node_children.NODE_TYPE "body" (some node)]) p1
      (by rw [hrel1, hrel]) hstream1 (by omega)
    refine ⟨p', ?_⟩
    unfold cj_parse_program_loop
    simp only [hnt, ne_eq, hty, not_false_eq_true, if_true, hel]
    rw [List.append_assoc] at hloop
    exact hloop

/-- Soundness of the parser: a tree `cj_parse` returns is the `Program` node of a sentence of
the grammar, and the sentence is the token sequence of the buffer. -/
theorem cj_parse_sound (fuel : Nat) (source_file : cj_source_file)
    (tree : cj_ast_tree_node) (p' : cj_parsing_process)
    (h : cj_parse fuel source_file = Except.ok (tree, p')) :
    ∃ tokens nodes,
      (∃ fuel', main_loop fuel' (cj_initial_process source_file) = Except.ok tokens)
      ∧ spec_program_nodes 0 tokens nodes
      ∧ tree = spec_program_node nodes := by
  unfold cj_parse at h
  cases hget : cj_get_next_token (cj_initial_parsing_process source_file) with
  | error e => rw [hget] at h; cases h
  | ok p =>
    simp only [hget] at h
    have hrel : p.released = 0 := by
      obtain ⟨_, -, -, hrel⟩ := (cj_get_next_token_read _ p).1 hget
      exact hrel
    obtain ⟨tokens, nodes, hstream, hprog, htree⟩ :=
      cj_parse_program_loop_sound fuel "Program" [] p p' tree h
    rw [hrel] at hprog
    refine ⟨tokens, nodes, (cj_stream_at_start source_file tokens).2 ⟨p, hget, hrel, hstream⟩,
      hprog, ?_⟩
    rw [htree]
    rfl

/-- Completeness of the parser: on a buffer whose token sequence is a sentence of the grammar
`cj_parse` returns the `Program` node of the sentence, given fuel for the tokens. -/
theorem cj_parse_complete (source_file : cj_source_file) (fuel' : Nat)
    (tokens : List cj_token) (nodes : List cj_ast_tree_node)
    (htokens : main_loop fuel' (cj_initial_process source_file) = Except.ok tokens)
    (hprog : spec_program_nodes 0 tokens nodes)
    (fuel : Nat) (hfuel : tokens.length ≤ fuel) :
    ∃ p p', cj_parsing_process_at_start source_file = Except.ok p
      ∧ cj_parse_program fuel p = Except.ok (spec_program_node nodes, p')
      ∧ cj_parse fuel source_file = Except.ok (spec_program_node nodes, p') := by
  obtain ⟨p, hget, hrel, hstream⟩ :=
    (cj_stream_at_start source_file tokens).1 ⟨fuel', htokens⟩
  obtain ⟨p', hloop⟩ :=
    cj_parse_program_loop_complete 0 tokens nodes hprog fuel "Program" [] p hrel hstream hfuel
  refine ⟨p, p', hget, hloop, ?_⟩
  unfold cj_parse
  simp only [hget]
  exact hloop


/-! ### The names of the children -/

theorem cj_nodes_of_childrens_mem (childrens : List cj_ast_tree_node_children)
    (n : cj_ast_tree_node) :
    n ∈ cj_nodes_of_childrens childrens ↔
      ∃ c ∈ childrens, n ∈ cj_nodes_of_children c := by
  induction childrens with
  | nil => simp [cj_nodes_of_childrens]
  | cons c cs ih =>
    rw [cj_nodes_of_childrens, List.mem_append, ih]
    simp

theorem cj_nodes_of_mem (type : String) (childrens : List cj_ast_tree_node_children)
    (n : cj_ast_tree_node) :
    n ∈ cj_nodes_of (cj_ast_tree_node.mk type childrens) ↔
      n = cj_ast_tree_node.mk type childrens
      ∨ ∃ c ∈ childrens, n ∈ cj_nodes_of_children c := by
  rw [cj_nodes_of, List.mem_cons, cj_nodes_of_childrens_mem]

/-- A node that is neither a `Program` nor an `ImportDeclaration` keeps the discipline when
the names of its children are non-empty and distinct. -/
theorem spec_child_names_of_nodup (type : String)
    (childrens : List cj_ast_tree_node_children)
    (h1 : type ≠ "Program") (h2 : type ≠ "ImportDeclaration")
    (h3 : ∀ name ∈ childrens.map cj_child_name, name ≠ "")
    (h4 : (childrens.map cj_child_name).Nodup) :
    spec_child_names (cj_ast_tree_node.mk type childrens) :=
  ⟨h3, fun h => absurd h h1, fun h => absurd h h2, fun _ _ => h4⟩

/-- A node with one child that is not Node-valued. -/
theorem spec_child_names_leaf (type : String) (c : cj_ast_tree_node_children)
    (h1 : type ≠ "Program") (h2 : type ≠ "ImportDeclaration")
    (h3 : cj_child_name c ≠ "") (h4 : cj_nodes_of_children c = []) :
    ∀ n ∈ cj_nodes_of (cj_ast_tree_node.mk type [c]), spec_child_names n := by
  intro n hn
  rw [cj_nodes_of_mem] at hn
  rcases hn with hn | ⟨c', hc, hn⟩
  · rw [hn]
    refine spec_child_names_of_nodup _ _ h1 h2 ?_ ?_
    · intro name hname
      simp only [List.map_cons, List.map_nil, List.mem_singleton] at hname
      rw [hname]
      exact h3
    · simp
  · simp only [List.mem_singleton] at hc
    rw [hc, h4] at hn
    simp at hn

theorem spec_identifier_node_child_names (block : Nat) (token : cj_token) :
    ∀ n ∈ cj_nodes_of (spec_identifier_node block token), spec_child_names n :=
  spec_child_names_leaf _ _ (by decide) (by decide) (by simp [cj_child_name]) rfl

theorem spec_literal_node_child_names (block : Nat) (token : cj_token)
    (node : cj_ast_tree_node) (h : spec_literal_node block token = some node) :
    ∀ n ∈ cj_nodes_of node, spec_child_names n := by
  unfold spec_literal_node at h
  split at h
  · simp only [Option.some.injEq] at h
    subst h
    exact spec_child_names_leaf _ _ (by decide) (by decide) (by simp [cj_child_name]) rfl
  · simp only [Option.some.injEq] at h
    subst h
    exact spec_child_names_leaf _ _ (by decide) (by decide) (by simp [cj_child_name]) rfl
  · simp only [Option.some.injEq] at h
    subst h
    exact spec_child_names_leaf _ _ (by decide) (by decide) (by simp [cj_child_name]) rfl
  · simp only [Option.some.injEq] at h
    subst h
    exact spec_child_names_leaf _ _ (by decide) (by decide) (by simp [cj_child_name]) rfl
  · simp only [Option.some.injEq] at h
    subst h
    exact spec_child_names_leaf _ _ (by decide) (by decide) (by simp [cj_child_name]) rfl
  · cases h

theorem spec_primary_node_child_names (block : Nat) (token : cj_token)
    (node : cj_ast_tree_node) (h : spec_primary_node block token = some node) :
    ∀ n ∈ cj_nodes_of node, spec_child_names n := by
  unfold spec_primary_node at h
  split_ifs at h
  · simp only [Option.some.injEq] at h
    subst h
    exact spec_identifier_node_child_names block token
  · exact spec_literal_node_child_names block token node h

theorem spec_comment_node_child_names (block : Nat) (tokens : List cj_token)
    (node : cj_ast_tree_node) (h : spec_comment_node block tokens = some node) :
    ∀ n ∈ cj_nodes_of node, spec_child_names n := by
  obtain ⟨token, -, -, hnode⟩ := spec_comment_node_tokens _ _ _ h
  subst hnode
  exact spec_child_names_leaf _ _ (by decide) (by decide) (by simp [cj_child_name]) rfl

theorem spec_variable_declaration_node_child_names (block : Nat) (tokens : List cj_token)
    (node : cj_ast_tree_node) (h : spec_variable_declaration_node block tokens = some node) :
    ∀ n ∈ cj_nodes_of node, spec_child_names n := by
  unfold spec_variable_declaration_node at h
  split at h
  · rename_i kw id colon type question equals init semicolon
    split_ifs at h
    cases hprim : spec_primary_node (block + 6) init with
    | none => rw [hprim] at h; cases h
    | some init_node =>
      rw [hprim] at h
      simp only [Option.some.injEq] at h
      subst h
      intro n hn
      rw [cj_nodes_of_mem] at hn
      rcases hn with hn | ⟨c, hc, hn⟩
      · rw [hn]
        exact spec_child_names_of_nodup _ _ (by decide) (by decide) (by simp [cj_child_name])
          (by simp [cj_child_name])
      · simp only [List.mem_cons, List.mem_singleton] at hc
        have hnil : c ∉ ([] : List cj_ast_tree_node_children) := List.not_mem_nil c
        rcases hc with hc | hc | hc | hc | hc
        · rw [hc] at hn
          exact spec_identifier_node_child_names _ _ n hn
        · rw [hc] at hn
          exact spec_identifier_node_child_names _ _ n hn
        · rw [hc] at hn
          simp [cj_nodes_of_children] at hn
        · rw [hc] at hn
          exact spec_primary_node_child_names _ _ _ hprim n hn
        · exact absurd hc hnil
  · rename_i kw id colon type equals init semicolon
    split_ifs at h
    cases hprim : spec_primary_node (block + 5) init with
    | none => rw [hprim] at h; cases h
    | some init_node =>
      rw [hprim] at h
      simp only [Option.some.injEq] at h
      subst h
      intro n hn
      rw [cj_nodes_of_mem] at hn
      rcases hn with hn | ⟨c, hc, hn⟩
      · rw [hn]
        exact spec_child_names_of_nodup _ _ (by decide) (by decide) (by simp [cj_child_name])
          (by simp [cj_child_name])
      · simp only [List.mem_cons, List.mem_singleton] at hc
        have hnil : c ∉ ([] : List cj_ast_tree_node_children) := List.not_mem_nil c
        rcases hc with hc | hc | hc | hc | hc
        · rw [hc] at hn
          exact spec_identifier_node_child_names _ _ n hn
        · rw [hc] at hn
          exact spec_identifier_node_child_names _ _ n hn
        · rw [hc] at hn
          simp [cj_nodes_of_children] at hn
        · rw [hc] at hn
          exact spec_primary_node_child_names _ _ _ hprim n hn
        · exact absurd hc hnil
  · cases h

theorem spec_specifier_names (specifiers : List cj_ast_tree_node_children)
    (h : ∀ c ∈ specifiers, ∃ b t,
      c = cj_ast_tree_node_children.NODE_TYPE "specifier" (some (spec_identifier_node b t))) :
    specifiers.map cj_child_name = List.replicate specifiers.length "specifier" := by
  induction specifiers with
  | nil => rfl
  | cons c cs ih =>
    obtain ⟨b, t, hc⟩ := h c (List.mem_cons_self _ _)
    rw [List.map_cons, ih (fun x hx => h x (List.mem_cons_of_mem _ hx)), hc]
    rfl

theorem spec_import_declaration_node_child_names (block : Nat) (tokens : List cj_token)
    (node : cj_ast_tree_node) (h : spec_import_declaration_node block tokens = some node) :
    ∀ n ∈ cj_nodes_of node, spec_child_names n := by
  unfold spec_import_declaration_node at h
  split at h
  · rename_i kw lbrace rest
    split_ifs at h
    split at h
    · rename_i specifiers rbrace kw_from source semicolon hspec
      split_ifs at h
      simp only [Option.some.injEq] at h
      subst h
      obtain ⟨consumed, -, -, -, -, hne, hall⟩ :=
        spec_import_specifiers_after rest.length rest (le_refl _) _ _ _ hspec
      have hnames := spec_specifier_names specifiers hall
      intro n hn
      rw [cj_nodes_of_mem] at hn
      rcases hn with hn | ⟨c, hc, hn⟩
      · rw [hn]
        have hcn : cj_child_names (cj_ast_tree_node.mk "ImportDeclaration"
            (specifiers ++ [cj_ast_tree_node_children.NODE_TYPE "source"
              (some (cj_ast_tree_node.mk "Literal"
                [cj_ast_tree_node_children.STRING_TYPE "value"
                  ⟨block + rest.length, source.value⟩]))]))
            = List.replicate specifiers.length "specifier" ++ ["source"] := by
          rw [cj_child_names, List.map_append, hnames]
          rfl
        refine ⟨?_, fun hty => ?_, fun _ => ?_, fun _ hty => ?_⟩
        · intro name hname
          rw [hcn, List.mem_append] at hname
          rcases hname with hname | hname
          · rw [List.eq_of_mem_replicate hname]; decide
          · simp only [List.mem_singleton] at hname
            rw [hname]; decide
        · simp [cj_node_type] at hty
        · refine ⟨specifiers.length, ?_, hcn⟩
          cases specifiers with
          | nil => exact absurd rfl hne
          | cons a b => simp
        · exact absurd rfl hty
      · rw [List.mem_append] at hc
        rcases hc with hc | hc
        · obtain ⟨b, t, hc⟩ := hall c hc
          rw [hc] at hn
          exact spec_identifier_node_child_names _ _ n hn
        · simp only [List.mem_singleton] at hc
          rw [hc] at hn
          exact spec_child_names_leaf "Literal"
            (cj_ast_tree_node_children.STRING_TYPE "value" ⟨block + rest.length, source.value⟩)
            (by decide) (by decide) (by simp [cj_child_name]) rfl n hn
    · cases h
  · cases h

theorem spec_element_node_child_names (block : Nat) (tokens : List cj_token)
    (node : cj_ast_tree_node) (h : spec_element_node block tokens = some node) :
    ∀ n ∈ cj_nodes_of node, spec_child_names n := by
  rcases (spec_element_node_cases block tokens node).1 h with h | h | h
  · exact spec_comment_node_child_names _ _ _ h
  · exact spec_import_declaration_node_child_names _ _ _ h
  · exact spec_variable_declaration_node_child_names _ _ _ h

theorem spec_program_nodes_elements (block : Nat) (tokens : List cj_token)
    (nodes : List cj_ast_tree_node) (h : spec_program_nodes block tokens nodes) :
    ∀ node ∈ nodes, ∃ b E, spec_element_node b E = some node := by
  induction h with
  | end_of_file block token _ => intro node hnode; simp at hnode
  | element block tokens rest node nodes hspec _ ih =>
    intro x hx
    simp only [List.mem_cons] at hx
    rcases hx with hx | hx
    · rw [hx]; exact ⟨block, tokens, hspec⟩
    · exact ih x hx

/-- The `Program` node over the nodes of program elements keeps the discipline of child
names, in every node of the tree. -/
theorem spec_program_node_child_names (nodes : List cj_ast_tree_node)
    (h : ∀ node ∈ nodes, ∃ b E, spec_element_node b E = some node) :
    ∀ n ∈ cj_nodes_of (spec_program_node nodes), spec_child_names n := by
  intro n hn
  rw [spec_program_node, cj_nodes_of_mem] at hn
  rcases hn with hn | ⟨c, hc, hn⟩
  · rw [hn]
    have hcn : ∀ name ∈ cj_child_names (cj_ast_tree_node.mk "Program"
        (nodes.map (fun node => cj_ast_tree_node_children.NODE_TYPE "body" (some node)))),
        name = "body" := by
      intro name hname
      simp only [cj_child_names, List.map_map, List.mem_map, Function.comp] at hname
      obtain ⟨x, -, hx⟩ := hname
      rw [← hx]
      rfl
    refine ⟨?_, fun _ => hcn, fun hty => ?_, fun hty _ => ?_⟩
    · intro name hname
      rw [hcn name hname]; decide
    · simp [cj_node_type] at hty
    · exact absurd rfl hty
  · simp only [List.mem_map] at hc
    obtain ⟨node, hnode, hc⟩ := hc
    rw [← hc] at hn
    obtain ⟨b, E, hspec⟩ := h node hnode
    exact spec_element_node_child_names b E node hspec n hn


/-! ### The claims on the tree -/

/-- The tokens of `example_program` are a sentence of the grammar: a comment, an import
declaration of seven tokens and a variable declaration of seven tokens, then `END_OF_FILE`. -/
theorem example_program_sentence :
    spec_program_nodes 0 example_program_tokens example_program_nodes :=
  spec_program_nodes.element 0 (example_program_tokens.take 1) (example_program_tokens.drop 1)
    _ _ rfl
    (spec_program_nodes.element 1 ((example_program_tokens.drop 1).take 7)
      (example_program_tokens.drop 8) _ _ rfl
      (spec_program_nodes.element 8 ((example_program_tokens.drop 8).take 7)
        (example_program_tokens.drop 15) _ _ rfl
        (spec_program_nodes.end_of_file 15 _ rfl)))

/-- C21 (amended).  In every node of a tree `cj_parse` returns the names of the children are
non-empty; the children of the `Program` node are all named `body`; the children of an
`ImportDeclaration` node are one or more `specifier` followed by one `source`; in every other
node (`VariableDeclaration`, `Identifier`, `Literal`, `Comment`) the names are pairwise
distinct. -/
theorem C21_child_names (fuel : Nat) (source_file : cj_source_file)
    (tree : cj_ast_tree_node) (process : cj_parsing_process)
    (h : cj_parse fuel source_file = Except.ok (tree, process)) :
    ∀ node ∈ cj_nodes_of tree, spec_child_names node := by
  obtain ⟨tokens, nodes, -, hprog, htree⟩ := cj_parse_sound fuel source_file tree process h
  rw [htree]
  exact spec_program_node_child_names nodes (spec_program_nodes_elements _ _ _ hprog)

/-- A witness of C21: the tree of `example_program`. -/
theorem C21_child_names_witness :
    ∃ process, cj_parse 16 (cj_source_of example_program 0)
        = Except.ok (spec_program_node example_program_nodes, process)
      ∧ ∀ node ∈ cj_nodes_of (spec_program_node example_program_nodes),
          spec_child_names node :=
  ⟨_, rfl, C21_child_names 16 (cj_source_of example_program 0) _ _ rfl⟩

/-- C21 as stated fails.  On the buffer `import { a, b } from "x";` the parser returns a tree
whose `ImportDeclaration` node has the children `specifier`, `specifier`, `source`: two
children of one parent share a name.  On `example_program` the `Program` node has three
children named `body`. -/
theorem C21_counterexample :
    (∃ process, cj_parse 11 (cj_source_of example_import 0)
        = Except.ok (spec_program_node [example_import_node], process))
    ∧ example_import_node ∈ cj_nodes_of (spec_program_node [example_import_node])
    ∧ cj_node_type example_import_node = "ImportDeclaration"
    ∧ cj_child_names example_import_node = ["specifier", "specifier", "source"]
    ∧ ¬ (cj_child_names example_import_node).Nodup
    ∧ (∃ process, cj_parse 16 (cj_source_of example_program 0)
        = Except.ok (spec_program_node example_program_nodes, process))
    ∧ cj_node_type (spec_program_node example_program_nodes) = "Program"
    ∧ cj_child_names (spec_program_node example_program_nodes) = ["body", "body", "body"]
    ∧ ¬ (cj_child_names (spec_program_node example_program_nodes)).Nodup :=
  ⟨⟨_, rfl⟩, List.mem_cons_of_mem _ (List.mem_cons_self _ _), rfl, rfl, by decide,
    ⟨_, rfl⟩, rfl, rfl, by decide⟩

/-- C22.  When `cj_parse` completes and returns a tree, the token sequence the driver loop of
the tokenizer returns for the buffer is a sentence of the grammar `ProgramElement* EndOfFile`
of the spec, each element a comment token, an import declaration or a variable declaration,
and the tree is the `Program` node over the nodes of these elements: no input outside the
grammar yields a tree. -/
theorem C22_parser_soundness (fuel : Nat) (source_file : cj_source_file)
    (tree : cj_ast_tree_node) (process : cj_parsing_process)
    (h : cj_parse fuel source_file = Except.ok (tree, process)) :
    ∃ tokens nodes,
      (∃ fuel', main_loop fuel' (cj_initial_process source_file) = Except.ok tokens)
      ∧ spec_program_nodes 0 tokens nodes
      ∧ tree = spec_program_node nodes :=
  cj_parse_sound fuel source_file tree process h

/-- A witness of C22: the parse of `example_program`. -/
theorem C22_parser_soundness_witness :
    ∃ process, cj_parse 16 (cj_source_of example_program 0)
        = Except.ok (spec_program_node example_program_nodes, process)
      ∧ ∃ tokens nodes,
        (∃ fuel', main_loop fuel' (cj_initial_process (cj_source_of example_program 0))
          = Except.ok tokens)
        ∧ spec_program_nodes 0 tokens nodes
        ∧ spec_program_node example_program_nodes = spec_program_node nodes :=
  ⟨_, rfl, C22_parser_soundness 16 (cj_source_of example_program 0) _ _ rfl⟩

/-- The order of the children `body` as far as the stores go: when the token sequence of the
buffer is `n` program elements of the grammar followed by `END_OF_FILE`, with `nodes` the
nodes of the elements in source order, then `cj_parse_program`, entered on the first token
with fuel for the tokens, stores one Node-valued child named `body` for each element, the
`k`-th store holding the node of the `k`-th element; for `n = 0` nothing is stored. -/
theorem cj_parse_program_body_order (source_file : cj_source_file) (fuel' : Nat)
    (tokens : List cj_token) (nodes : List cj_ast_tree_node)
    (htokens : main_loop fuel' (cj_initial_process source_file) = Except.ok tokens)
    (hprog : spec_program_nodes 0 tokens nodes)
    (fuel : Nat) (hfuel : tokens.length ≤ fuel) :
    ∃ process process',
      cj_parsing_process_at_start source_file = Except.ok process
      ∧ cj_parse_program fuel process = Except.ok (
          cj_ast_tree_node.mk "Program"
            (nodes.map (fun node => cj_ast_tree_node_children.NODE_TYPE "body" (some node))),
          process') := by
  obtain ⟨p, p', h1, h2, -⟩ :=
    cj_parse_complete source_file fuel' tokens nodes htokens hprog fuel hfuel
  exact ⟨p, p', h1, h2⟩

/-- The stores of `cj_parse_program` on `example_program`, three elements separated by a line
feed and by two spaces, and on the buffer of a space and a line feed, no element. -/
theorem example_program_body_order :
    (main_loop 16 (cj_initial_process (cj_source_of example_program 0))
        = Except.ok example_program_tokens
      ∧ spec_program_nodes 0 example_program_tokens example_program_nodes
      ∧ ∃ process process',
        cj_parsing_process_at_start (cj_source_of example_program 0) = Except.ok process
        ∧ cj_parse_program 16 process = Except.ok (
            cj_ast_tree_node.mk "Program"
              (example_program_nodes.map
                (fun node => cj_ast_tree_node_children.NODE_TYPE "body" (some node))),
            process'))
    ∧ (∃ process process',
        cj_parsing_process_at_start (cj_source_of [0x20, 0x0A] 0) = Except.ok process
        ∧ cj_parse_program 1 process
          = Except.ok (cj_ast_tree_node.mk "Program" [], process')) :=
  ⟨⟨rfl, example_program_sentence,
      cj_parse_program_body_order (cj_source_of example_program 0) 16 example_program_tokens
        example_program_nodes rfl example_program_sentence 16 (by decide)⟩,
    cj_parse_program_body_order (cj_source_of [0x20, 0x0A] 0) 1
      [{ type := cj_token_type.END_OF_FILE, value_length := 0, value := [],
         start := ⟨0, 0, 0⟩, end_ := ⟨2, 1, 0⟩ }] [] rfl
      (spec_program_nodes.end_of_file 0 _ rfl) 1 (by decide)⟩

/-! ### The memory of the array of children -/

/-- The block of a parent without children holds the one slot that is stored. -/
theorem cj_attach_ast_tree_node_children_in_block_first (pointer_size : Nat)
    (parent : cj_ast_tree_node) (h : cj_childrens_length parent = 0) :
    cj_attach_ast_tree_node_children_in_block pointer_size parent = true := by
  unfold cj_attach_ast_tree_node_children_in_block cj_attach_ast_tree_node_children_block
  rw [h]
  simp

/-- With a pointer of two bytes or more, the store into a parent that has a child already
ends beyond the block: the block has `pointer_size * childrens_length + 1` bytes and the slot
ends at byte `pointer_size * childrens_length + pointer_size`. -/
theorem cj_attach_ast_tree_node_children_in_block_later (pointer_size : Nat)
    (parent : cj_ast_tree_node) (hsize : 2 ≤ pointer_size)
    (h : cj_childrens_length parent ≠ 0) :
    cj_attach_ast_tree_node_children_in_block pointer_size parent = false := by
  unfold cj_attach_ast_tree_node_children_in_block cj_attach_ast_tree_node_children_block
  rw [if_neg h, decide_eq_false_iff_not, Nat.mul_add, Nat.mul_one]
  omega

/-- C24, the code at the failing input.  The buffer is `#a`, line feed, `#b`, line feed: two
well-formed comments, each ended by a line feed.  `cj_parse_program` parses the two elements
and attaches each as a child `body` of the `Program` node, in source order.  The first
attach is made on a node without children and its store lies inside the block.  The second
is made on the node with one child: `realloc` is asked for `sizeof(pointer) * 1 + 1` bytes, 9
with pointers of 8 bytes and 5 with pointers of 4 bytes, and the second child is stored in
slot number 1, which ends at byte 16, respectively 8: the store lies outside the block, and
with the memory taken into account the attach has no result, where C24 says that the
`Program` node is returned with exactly two children, the second the node of the second
element. -/
theorem C24_second_body_outside_block :
    ∃ process process1 process2,
      cj_parsing_process_at_start (cj_source_of example_two_comments 0) = Except.ok process
      ∧ cj_parse_program_element 2 process = Except.ok (some example_comment_a, process1)
      ∧ cj_parse_program_element 1 process1 = Except.ok (some example_comment_b, process2)
      ∧ cj_parse_program 3 process = Except.ok (
          cj_attach_ast_tree_node_children example_program_one_body
            (cj_ast_tree_node_children.NODE_TYPE "body" (some example_comment_b)),
          process2)
      ∧ cj_attach_ast_tree_node_children_in_block 8 (cj_init_ast_tree_node "Program") = true
      ∧ cj_attach_ast_tree_node_children_in_block 4 (cj_init_ast_tree_node "Program") = true
      ∧ cj_childrens_length example_program_one_body = 1
      ∧ cj_attach_ast_tree_node_children_block 8 example_program_one_body = 9
      ∧ cj_attach_ast_tree_node_children_block 4 example_program_one_body = 5
      ∧ cj_attach_ast_tree_node_children_in_block 8 example_program_one_body = false
      ∧ cj_attach_ast_tree_node_children_in_block 4 example_program_one_body = false
      ∧ cj_attach_ast_tree_node_children_checked 8 example_program_one_body
          (cj_ast_tree_node_children.NODE_TYPE "body" (some example_comment_b)) = none
      ∧ cj_attach_ast_tree_node_children_checked 4 example_program_one_body
          (cj_ast_tree_node_children.NODE_TYPE "body" (some example_comment_b)) = none :=
  ⟨_, _, _, rfl, rfl, rfl, rfl, rfl, rfl, rfl, rfl, rfl, rfl, rfl, rfl, rfl⟩

end Conjoint
